import Mathlib

/-!
# FinTrack Macedonia: the analytics services of `server/routes/ai.js`

A shallow embedding of `EnhancedAIServices` (spending prediction, anomaly
detection, budget recommendations), of `EnhancedNLPService.parseExpenseText`
(the expense text parser) and of the handler of `POST /api/ai/parse-expense`,
and the properties proved about them.

## Number model

JavaScript numbers are embedded as `JSNum`: the finite values are rationals,
and the three special values `NaN`, `+Infinity`, `-Infinity` are kept, because
the services divide by quantities that can be zero.  The formulas of the
services (forecast, scores, budgets) are evaluated exactly: a finite result is
the exact rational result, which the double of the code approximates.  The
comparisons that can turn on the last bit of a double, the two tests of the
trend and the test of an amount against the anomaly threshold, are embedded in
double arithmetic (section "Double precision"): there every operation returns
the double nearest to its exact result, with ties to even, gradual underflow
and overflow to an infinity.  The sign of zero is not modelled.

## Database rows

Every service first runs SQL queries and then computes on `result.rows`.  The
embedding starts at the rows: each service is a function of the row lists its
queries return.  `NUMERIC` columns arrive as decimal strings and are read with
`parseFloat`; a row field holds the rational the string denotes.

## Strings, regular expressions, dates

A string is the list of its characters; the regular expressions of the parser
are values of `Regex`, run by a backtracking matcher with the priorities of the
JavaScript one (leftmost match, greedy quantifiers, alternatives in order).
The current date is a parameter of the parser, a day number; the day before
is that number minus one.
-/

namespace FinTrack

/-! ## JavaScript numbers -/

/-- A JavaScript number: `NaN`, `-Infinity`, a finite value, `+Infinity`. -/
inductive JSNum where
  | nan : JSNum
  | ninf : JSNum
  | fin (q : ℚ) : JSNum
  | pinf : JSNum
  deriving DecidableEq

namespace JSNum

/-- Unary minus. -/
def neg : JSNum → JSNum
  | nan => nan
  | ninf => pinf
  | fin q => fin (-q)
  | pinf => ninf

/-- The operator `+` on numbers. -/
def add : JSNum → JSNum → JSNum
  | nan, _ => nan
  | _, nan => nan
  | pinf, ninf => nan
  | ninf, pinf => nan
  | pinf, _ => pinf
  | _, pinf => pinf
  | ninf, _ => ninf
  | _, ninf => ninf
  | fin a, fin b => fin (a + b)

/-- The operator `-` on numbers. -/
def sub (x y : JSNum) : JSNum := add x (neg y)

/-- Sign of a rational as an infinity: the product of an infinity with a
finite non-zero value. -/
def infOfSign (positive : Bool) : JSNum := if positive then pinf else ninf

/-- The operator `*` on numbers. -/
def mul : JSNum → JSNum → JSNum
  | nan, _ => nan
  | _, nan => nan
  | fin a, fin b => fin (a * b)
  | pinf, pinf => pinf
  | ninf, ninf => pinf
  | pinf, ninf => ninf
  | ninf, pinf => ninf
  | pinf, fin b => if b = 0 then nan else infOfSign (decide (0 < b))
  | ninf, fin b => if b = 0 then nan else infOfSign (decide (b < 0))
  | fin a, pinf => if a = 0 then nan else infOfSign (decide (0 < a))
  | fin a, ninf => if a = 0 then nan else infOfSign (decide (a < 0))

/-- The operator `/` on numbers.  A finite non-zero value divided by zero is
an infinity, zero divided by zero is `NaN`. -/
def div : JSNum → JSNum → JSNum
  | nan, _ => nan
  | _, nan => nan
  | fin a, fin b =>
    if b = 0 then (if a = 0 then nan else infOfSign (decide (0 < a))) else fin (a / b)
  | fin _, pinf => fin 0
  | fin _, ninf => fin 0
  | pinf, fin b => infOfSign (decide (0 ≤ b))
  | ninf, fin b => infOfSign (decide (b < 0))
  | pinf, pinf => nan
  | pinf, ninf => nan
  | ninf, pinf => nan
  | ninf, ninf => nan

instance : Neg JSNum := ⟨neg⟩
instance : Add JSNum := ⟨add⟩
instance : Sub JSNum := ⟨sub⟩
instance : Mul JSNum := ⟨mul⟩
instance : Div JSNum := ⟨div⟩

/-- The comparison `x < y`: false as soon as one side is `NaN`. -/
def lt : JSNum → JSNum → Bool
  | nan, _ => false
  | _, nan => false
  | fin a, fin b => decide (a < b)
  | ninf, ninf => false
  | ninf, _ => true
  | pinf, _ => false
  | fin _, pinf => true
  | fin _, ninf => false

/-- The comparison `x > y`. -/
def gt (x y : JSNum) : Bool := lt y x

/-- The comparison `x <= y`: false as soon as one side is `NaN`. -/
def le : JSNum → JSNum → Bool
  | nan, _ => false
  | _, nan => false
  | fin a, fin b => decide (a ≤ b)
  | ninf, _ => true
  | pinf, pinf => true
  | pinf, _ => false
  | fin _, pinf => true
  | fin _, ninf => false

/-- The function `Math.max` of two arguments. -/
def max (x y : JSNum) : JSNum :=
  match x, y with
  | nan, _ => nan
  | _, nan => nan
  | x, y => if lt x y then y else x

/-- The function `Math.min` of two arguments. -/
def min (x y : JSNum) : JSNum :=
  match x, y with
  | nan, _ => nan
  | _, nan => nan
  | x, y => if lt y x then y else x

/-- The function `Math.round`: the nearest integer, halves rounded up. -/
def round : JSNum → JSNum
  | fin q => fin (⌊q + 1 / 2⌋ : ℤ)
  | x => x

/-- Square root of a non-negative rational, cut off after sixteen decimal
places; it is exact on squares of rationals. -/
def sqrtQ (q : ℚ) : ℚ :=
  (Nat.sqrt (q.num.toNat * q.den * 10 ^ 32) : ℚ) / ((q.den : ℚ) * 10 ^ 16)

/-- The function `Math.sqrt`. -/
def sqrt : JSNum → JSNum
  | nan => nan
  | ninf => nan
  | pinf => pinf
  | fin q => if q < 0 then nan else fin (sqrtQ q)

/-- The call `Math.pow(x, 2)`. -/
def pow2 (x : JSNum) : JSNum := x * x

/-- Truthiness of a number: `NaN` and zero are falsy. -/
def truthy : JSNum → Bool
  | nan => false
  | fin q => decide (q ≠ 0)
  | _ => true

/-- The operator `x || y` on numbers. -/
def or (x y : JSNum) : JSNum := if truthy x then x else y

/-- The idiom `Math.round(x * 100) / 100`. -/
def round2 (x : JSNum) : JSNum := round (x * fin 100) / fin 100

/-- The call `parseFloat(s)` on the decimal string of a `NUMERIC` value. -/
def parseFloat (q : ℚ) : JSNum := fin q

/-- The call `parseFloat(s)` on a nullable `NUMERIC` column: `parseFloat(null)`
is `NaN`. -/
def parseFloatOpt : Option ℚ → JSNum
  | none => nan
  | some q => fin q

/-- The reduction `xs.reduce((a, b) => a + b, 0)`. -/
def sum (xs : List JSNum) : JSNum := xs.foldl (fun a b => a + b) (fin 0)

/-- A number is finite. -/
def IsFin (x : JSNum) : Prop := ∃ q, x = fin q

/-- The length of an array as a number. -/
def ofNat (n : Nat) : JSNum := fin (n : ℚ)

end JSNum

open JSNum

/-! ## Double precision

The arithmetic of the services is that of IEEE-754 doubles: every operation
returns the double nearest to its exact result.  The comparisons that decide
the trend and the anomaly test can turn on the last bit, so these lines are
embedded with every operation rounded.  The sign of zero is not represented. -/

/-- Rounding to the nearest integer, ties to the even one. -/
def roundHalfEven (x : ℚ) : ℤ :=
  if x - ⌊x⌋ < 1 / 2 then ⌊x⌋
  else if 1 / 2 < x - ⌊x⌋ then ⌊x⌋ + 1
  else if ⌊x⌋ % 2 = 0 then ⌊x⌋ else ⌊x⌋ + 1

/-- The exponent of the last place of the doubles around `q`: 52 below the
binary exponent of `q`, and -1074 in the subnormal range. -/
def ulpExp (q : ℚ) : ℤ := Max.max (Int.log 2 |q| - 52) (-1074)

/-- The double nearest to `q`, ties to even, before overflow is looked at. -/
def roundDouble (q : ℚ) : ℚ := (roundHalfEven (q / 2 ^ ulpExp q) : ℚ) * 2 ^ ulpExp q

/-- The value of an operation as a double: the exact result rounded to the
nearest double, an infinity from 2^1024 on. -/
def JSNum.double : JSNum → JSNum
  | JSNum.fin q =>
    if (2 : ℚ) ^ 1024 ≤ |roundDouble q| then infOfSign (decide (0 < q)) else fin (roundDouble q)
  | x => x

/-- The call `parseFloat(s)` on the decimal string of a `NUMERIC` value, as the
double it returns. -/
def parseFloatD (q : ℚ) : JSNum := JSNum.double (fin q)

/-- A decimal literal of the source, as the double it denotes. -/
def literalD (q : ℚ) : JSNum := JSNum.double (fin q)

/-- The reduction `xs.reduce((a, b) => a + b, 0)` in doubles. -/
def sumD (xs : List JSNum) : JSNum := xs.foldl (fun a b => JSNum.double (a + b)) (fin 0)

/-! ## Spending prediction -/

/-- One row of the weekly aggregation query of `advancedSpendingPrediction`. -/
structure WeeklyRow where
  week : Nat
  total_amount : ℚ
  transaction_count : Nat
  avg_transaction : ℚ

/-- The object returned by `advancedSpendingPrediction`.  The fields that only
one of the two return statements sets are optional. -/
structure Prediction where
  predicted_amount : JSNum
  confidence_score : JSNum
  message : Option String
  model_used : String
  trend_direction : String
  seasonality_detected : Option Bool
  data_points : Option Nat
  volatility_score : Option JSNum

/-- The call `xs.slice(-4)`. -/
def sliceLast4 (xs : List JSNum) : List JSNum := xs.drop (xs.length - 4)

/-- The variable `trend` of `advancedSpendingPrediction`, computed in doubles
from the rows: the weekly amounts, the two halves, their averages and the two
comparisons. -/
def trend (rows : List WeeklyRow) : String :=
  let weeklyAmounts := rows.map (fun row => parseFloatD row.total_amount)
  let firstHalf := weeklyAmounts.take (weeklyAmounts.length / 2)
  let secondHalf := weeklyAmounts.drop (weeklyAmounts.length / 2)
  let firstAvg := JSNum.double (sumD firstHalf / ofNat firstHalf.length)
  let secondAvg := JSNum.double (sumD secondHalf / ofNat secondHalf.length)
  if gt secondAvg (JSNum.double (firstAvg * literalD (11 / 10))) then "increasing"
  else if lt secondAvg (JSNum.double (firstAvg * literalD (9 / 10))) then "decreasing"
  else "stable"

/-- The body of `advancedSpendingPrediction` after the query, on
`historicalData.rows`.  The trend is the one place decided by comparisons of
computed values and is taken in doubles (`trend`); the amounts and scores are
exact. -/
def advancedSpendingPrediction (rows : List WeeklyRow) : Prediction :=
  if rows.length < 4 then
    { predicted_amount := fin 0
      confidence_score := fin (1 / 10)
      message := some "Need at least 4 weeks of data for ML prediction"
      model_used := "insufficient_data"
      trend_direction := "stable"
      seasonality_detected := none
      data_points := none
      volatility_score := none }
  else
    let weeklyAmounts := rows.map (fun row => parseFloat row.total_amount)
    let recentWeeks := sliceLast4 weeklyAmounts
    let avgRecent := JSNum.sum recentWeeks / ofNat recentWeeks.length
    let monthlyPrediction := avgRecent * fin (433 / 100)
    let variance :=
      weeklyAmounts.foldl (fun acc val => acc + pow2 (val - avgRecent)) (fin 0)
        / ofNat weeklyAmounts.length
    let confidence :=
      JSNum.max (fin (3 / 10)) (JSNum.min (fin (9 / 10)) (fin 1 - JSNum.sqrt variance / avgRecent))
    { predicted_amount := round2 monthlyPrediction
      confidence_score := round2 confidence
      message := none
      model_used := "statistical_analysis"
      trend_direction := trend rows
      seasonality_detected := some false
      data_points := some weeklyAmounts.length
      volatility_score := some (round2 (JSNum.sqrt variance / avgRecent)) }

/-! ## Arrays -/

/-- The call `xs.sort(cmp)`: a stable sort that puts `b` before `a` exactly
when `cmp(a, b) > 0`. -/
def arraySort {α : Type} (cmp : α → α → JSNum) (xs : List α) : List α :=
  xs.insertionSort (fun a b => gt (cmp a b) (fin 0) = false)

/-! ## Anomaly detection -/

/-- One row of the recent-transactions query of `intelligentAnomalyDetection`
(the columns the loop reads). -/
structure Transaction where
  id : Nat
  amount : ℚ
  category_name : Option String
  category_id : Option Nat

/-- One row of the per-category statistics query; `STDDEV` may be `NULL`. -/
structure CategoryStat where
  category_id : Option Nat
  avg_amount : ℚ
  stddev_amount : Option ℚ
  transaction_count : Nat

/-- An element of the array returned by `intelligentAnomalyDetection`; the
`description` text, which formats these numbers into a sentence, is left out. -/
structure Anomaly where
  expense_id : Nat
  anomaly_type : String
  severity_score : JSNum
  expected_value : JSNum
  actual_value : JSNum
  ml_confidence : JSNum

/-- The lookup `categoryStats.rows.find(s => s.category_id === transaction.category_id)`. -/
def findStats (stats : List CategoryStat) (transaction : Transaction) : Option CategoryStat :=
  stats.find? (fun s => decide (s.category_id = transaction.category_id))

/-- The constant `stdDev` of the loop body. -/
def stdDevOf (stats : CategoryStat) : JSNum :=
  JSNum.or (parseFloatOpt stats.stddev_amount) (parseFloat stats.avg_amount * fin (3 / 10))

/-- The constant `threshold` of the loop body. -/
def thresholdOf (stats : CategoryStat) : JSNum :=
  parseFloat stats.avg_amount + fin 2 * stdDevOf stats

/-- One iteration of the detection loop: the anomaly it pushes, if any. -/
def anomalyOf (categoryStats : List CategoryStat) (transaction : Transaction) : Option Anomaly :=
  match findStats categoryStats transaction with
  | none => none
  | some stats =>
    let amount := parseFloat transaction.amount
    let avgAmount := parseFloat stats.avg_amount
    let threshold := thresholdOf stats
    if gt amount threshold then
      let severityScore := JSNum.min (fin 1) ((amount - avgAmount) / (threshold - avgAmount))
      some
        { expense_id := transaction.id
          anomaly_type := "amount_spike"
          severity_score := round2 severityScore
          expected_value := round2 avgAmount
          actual_value := amount
          ml_confidence := fin (4 / 5) }
    else none

/-- The detection loop: the array `anomalies` before it is sorted. -/
def detectionLoop (categoryStats : List CategoryStat) (recent : List Transaction) :
    List Anomaly :=
  recent.foldl
    (fun anomalies transaction =>
      match anomalyOf categoryStats transaction with
      | none => anomalies
      | some a => anomalies ++ [a])
    []

/-- The body of `intelligentAnomalyDetection` after its two queries. -/
def intelligentAnomalyDetection (categoryStats : List CategoryStat)
    (recent : List Transaction) : List Anomaly :=
  arraySort (fun a b => b.severity_score - a.severity_score)
    (detectionLoop categoryStats recent)

/-- The constant `stdDev` of the detection loop in doubles. -/
def stdDevOfD (stats : CategoryStat) : JSNum :=
  JSNum.or (match stats.stddev_amount with | none => nan | some d => parseFloatD d)
    (JSNum.double (parseFloatD stats.avg_amount * literalD (3 / 10)))

/-- The constant `threshold` of the detection loop in doubles. -/
def thresholdOfD (stats : CategoryStat) : JSNum :=
  JSNum.double (parseFloatD stats.avg_amount + JSNum.double (fin 2 * stdDevOfD stats))

/-- The test of the detection loop in doubles: does the transaction have a
statistics row and an amount above its threshold? -/
def flaggedD (categoryStats : List CategoryStat) (transaction : Transaction) : Bool :=
  match findStats categoryStats transaction with
  | none => false
  | some stats => gt (parseFloatD transaction.amount) (thresholdOfD stats)

/-! ## Budget recommendations -/

/-- A JavaScript value as far as the necessity lookup needs it: `undefined`, a
number, or an object (functions included), named by the property it was read
from. -/
inductive JSVal where
  | undefined : JSVal
  | num (x : JSNum) : JSVal
  | object (name : String) : JSVal
  deriving DecidableEq

/-- Truthiness of a value: every object is truthy. -/
def JSVal.truthy : JSVal → Bool
  | JSVal.undefined => false
  | JSVal.num x => x.truthy
  | JSVal.object _ => true

/-- The operator `x || y` on values. -/
def JSVal.or (x y : JSVal) : JSVal := if x.truthy then x else y

/-- Conversion to a number, as the comparison operators apply it: `undefined`
and the objects of `Object.prototype` all convert to `NaN`. -/
def JSVal.toNumber : JSVal → JSNum
  | JSVal.undefined => nan
  | JSVal.num x => x
  | JSVal.object _ => nan

/-- The object literal `necessityMap`. -/
def necessityMap : List (String × ℚ) :=
  [("Food & Dining", 9 / 10), ("Bills & Utilities", 19 / 20), ("Healthcare", 9 / 10),
   ("Transportation", 4 / 5), ("Education", 3 / 4), ("Shopping", 2 / 5),
   ("Entertainment", 3 / 10), ("Other", 1 / 2)]

/-- The property names an object literal inherits from `Object.prototype`. -/
def objectPrototypeKeys : List String :=
  ["constructor", "__defineGetter__", "__defineSetter__", "hasOwnProperty",
   "__lookupGetter__", "__lookupSetter__", "isPrototypeOf", "propertyIsEnumerable",
   "toString", "valueOf", "__proto__", "toLocaleString"]

/-- Property access `obj[key]` on an object literal with the given own
properties: an own property, else an inherited one, else `undefined`. -/
def getProperty (own : List (String × ℚ)) (key : String) : JSVal :=
  match own.lookup key with
  | some v => JSVal.num (fin v)
  | none => if key ∈ objectPrototypeKeys then JSVal.object key else JSVal.undefined

/-- The method `getCategoryNecessityScore`. -/
def getCategoryNecessityScore (categoryName : String) : JSVal :=
  JSVal.or (getProperty necessityMap categoryName) (JSVal.num (fin (1 / 2)))

/-- One row of the spending query of `smartBudgetRecommendations`. -/
structure CategorySpending where
  id : Nat
  name : String
  avg_spending : ℚ
  spending_variance : ℚ
  months_with_data : Nat

/-- An element of `recommendations`; the `reasoning` sentence is left out. -/
structure Recommendation where
  category_id : Nat
  category_name : String
  current_budget : JSNum
  recommended_budget : JSNum
  confidence_score : JSNum
  potential_savings : JSNum

/-- The object returned by `smartBudgetRecommendations`. -/
structure BudgetResult where
  recommendations : List Recommendation
  total_potential_savings : JSNum
  optimization_score : JSNum

/-- The variable `reductionPercent` after the two tests on the necessity score. -/
def reductionPercentOf (necessityScore : JSVal) : JSNum :=
  if lt necessityScore.toNumber (fin (1 / 2)) then fin (1 / 5)
  else if gt necessityScore.toNumber (fin (4 / 5)) then fin (1 / 20)
  else fin (1 / 10)

/-- The constant `recommendedBudget` of the loop body. -/
def recommendedBudgetOf (category : CategorySpending) : JSNum :=
  round (parseFloat category.avg_spending *
    (fin 1 - reductionPercentOf (getCategoryNecessityScore category.name)))

/-- The constant `potentialSavings` of the loop body. -/
def potentialSavingsOf (category : CategorySpending) : JSNum :=
  JSNum.max (fin 0) (parseFloat category.avg_spending - recommendedBudgetOf category)

/-- The object pushed for a category whose savings pass the test. -/
def recommendationFor (category : CategorySpending) : Recommendation :=
  { category_id := category.id
    category_name := category.name
    current_budget := round (parseFloat category.avg_spending)
    recommended_budget := recommendedBudgetOf category
    confidence_score := fin (3 / 4)
    potential_savings := round (potentialSavingsOf category) }

/-- One iteration of the recommendation loop on the pair
`(recommendations, totalSavings)`. -/
def budgetStep (acc : List Recommendation × JSNum) (category : CategorySpending) :
    List Recommendation × JSNum :=
  if gt (potentialSavingsOf category) (fin 10) then
    (acc.1 ++ [recommendationFor category], acc.2 + potentialSavingsOf category)
  else acc

/-- The recommendation loop from `recommendations = []`, `totalSavings = 0`. -/
def budgetLoop (rows : List CategorySpending) : List Recommendation × JSNum :=
  rows.foldl budgetStep ([], fin 0)

/-- The body of `smartBudgetRecommendations` after its query. -/
def smartBudgetRecommendations (rows : List CategorySpending) : BudgetResult :=
  if rows.length = 0 then
    { recommendations := []
      total_potential_savings := fin 0
      optimization_score := fin 0 }
  else
    let totalSavings := (budgetLoop rows).2
    { recommendations :=
        arraySort (fun a b => b.potential_savings - a.potential_savings) (budgetLoop rows).1
      total_potential_savings := round totalSavings
      optimization_score :=
        round (totalSavings /
          rows.foldl (fun sum cat => sum + parseFloat cat.avg_spending) (fin 0) * fin 100) }

/-! ## Strings

A JavaScript string is embedded as the list of its characters.  The parser's
regular expressions and keyword tests only tell apart digits, white space,
ASCII word characters, the two currency signs and the letters of the Latin and
Cyrillic words they spell, so the lower-case mapping and the case folding of
the regular expressions are given on Basic Latin and Cyrillic (with the few
other characters that map into them) and leave every other character
unchanged.  The upper case of the first character of the description, which
shows in the result, follows the case mapping of Unicode. -/

/-- The class `\d`: an ASCII digit. -/
def isDigit (c : Char) : Bool := decide (48 ≤ c.toNat ∧ c.toNat ≤ 57)

/-- The class `\w`: an ASCII letter, an ASCII digit or the underscore. -/
def isWordChar (c : Char) : Bool :=
  decide ((48 ≤ c.toNat ∧ c.toNat ≤ 57) ∨ (65 ≤ c.toNat ∧ c.toNat ≤ 90) ∨
    (97 ≤ c.toNat ∧ c.toNat ≤ 122) ∨ c.toNat = 95)

/-- The class `\s`, which is also what `trim` removes: white space and line
terminators. -/
def isSpace (c : Char) : Bool :=
  decide ((9 ≤ c.toNat ∧ c.toNat ≤ 13) ∨ c.toNat = 0x20 ∨ c.toNat = 0xA0 ∨ c.toNat = 0x1680 ∨
    (0x2000 ≤ c.toNat ∧ c.toNat ≤ 0x200A) ∨ c.toNat = 0x2028 ∨ c.toNat = 0x2029 ∨
    c.toNat = 0x202F ∨ c.toNat = 0x205F ∨ c.toNat = 0x3000 ∨ c.toNat = 0xFEFF)

/-- Lower case of one character, as `toLowerCase` maps it: `A`-`Z`, the
Cyrillic capitals, the Kelvin sign and the dotted capital I. -/
def toLowerChar (c : Char) : List Char :=
  if 65 ≤ c.toNat ∧ c.toNat ≤ 90 then [Char.ofNat (c.toNat + 32)]
  else if 0x0410 ≤ c.toNat ∧ c.toNat ≤ 0x042F then [Char.ofNat (c.toNat + 32)]
  else if 0x0400 ≤ c.toNat ∧ c.toNat ≤ 0x040F then [Char.ofNat (c.toNat + 80)]
  else if c.toNat = 0x212A then [Char.ofNat 107]
  else if c.toNat = 0x0130 then [Char.ofNat 105, Char.ofNat 0x0307]
  else [c]

/-- Case folding of one character under the `i` flag of a regular expression:
the upper case of `a`-`z`, of the Cyrillic small letters and of the Cyrillic
variant letters U+1C80 to U+1C86, the characters that fold to a letter of one
of the parser's expressions. -/
def toUpperChar (c : Char) : Char :=
  if 97 ≤ c.toNat ∧ c.toNat ≤ 122 then Char.ofNat (c.toNat - 32)
  else if 0x0430 ≤ c.toNat ∧ c.toNat ≤ 0x044F then Char.ofNat (c.toNat - 32)
  else if 0x0450 ≤ c.toNat ∧ c.toNat ≤ 0x045F then Char.ofNat (c.toNat - 80)
  else if c.toNat = 0x1C80 then Char.ofNat 0x0412
  else if c.toNat = 0x1C81 then Char.ofNat 0x0414
  else if c.toNat = 0x1C82 then Char.ofNat 0x041E
  else if c.toNat = 0x1C83 then Char.ofNat 0x0421
  else if c.toNat = 0x1C84 ∨ c.toNat = 0x1C85 then Char.ofNat 0x0422
  else if c.toNat = 0x1C86 then Char.ofNat 0x042A
  else c

/-- The method `s.toLowerCase()`. -/
def toLowerCase (s : List Char) : List Char := s.flatMap toLowerChar

/-- The method `s.trim()`. -/
def trim (s : List Char) : List Char :=
  ((s.dropWhile isSpace).reverse.dropWhile isSpace).reverse

/-- The method `s.includes(k)`: `k` occurs as a substring of `s`. -/
def includes (s k : List Char) : Bool := s.tails.any (fun t => k.isPrefixOf t)

/-- The property `s.length`: the number of UTF-16 code units. -/
def jsLength (s : List Char) : Nat :=
  (s.map (fun c => if c.toNat < 0x10000 then 1 else 2)).sum

/-- The characters below U+10000 whose upper case is one other character
(Unicode 14), in runs `(lo, hi, step, up)`: the characters `lo`, `lo + step`,
up to `hi` have the upper cases `up`, `up + step`, and so on. -/
def upperCaseRuns : List (Nat × Nat × Nat × Nat) :=
  [(97, 122, 1, 65), (181, 181, 1, 924), (224, 246, 1, 192), (248, 254, 1, 216),
   (255, 255, 1, 376), (257, 303, 2, 256), (305, 305, 1, 73), (307, 311, 2, 306),
   (314, 328, 2, 313), (331, 375, 2, 330), (378, 382, 2, 377), (383, 383, 1, 83),
   (384, 384, 1, 579), (387, 389, 2, 386), (392, 392, 1, 391), (396, 396, 1, 395),
   (402, 402, 1, 401), (405, 405, 1, 502), (409, 409, 1, 408), (410, 410, 1, 573),
   (414, 414, 1, 544), (417, 421, 2, 416), (424, 424, 1, 423), (429, 429, 1, 428),
   (432, 432, 1, 431), (436, 438, 2, 435), (441, 441, 1, 440), (445, 445, 1, 444),
   (447, 447, 1, 503), (453, 453, 1, 452), (454, 454, 1, 452), (456, 456, 1, 455),
   (457, 457, 1, 455), (459, 459, 1, 458), (460, 460, 1, 458), (462, 476, 2, 461),
   (477, 477, 1, 398), (479, 495, 2, 478), (498, 498, 1, 497), (499, 499, 1, 497),
   (501, 501, 1, 500), (505, 543, 2, 504), (547, 563, 2, 546), (572, 572, 1, 571),
   (575, 576, 1, 11390), (578, 578, 1, 577), (583, 591, 2, 582), (592, 592, 1, 11375),
   (593, 593, 1, 11373), (594, 594, 1, 11376), (595, 595, 1, 385), (596, 596, 1, 390),
   (598, 599, 1, 393), (601, 601, 1, 399), (603, 603, 1, 400), (604, 604, 1, 42923),
   (608, 608, 1, 403), (609, 609, 1, 42924), (611, 611, 1, 404), (613, 613, 1, 42893),
   (614, 614, 1, 42922), (616, 616, 1, 407), (617, 617, 1, 406), (618, 618, 1, 42926),
   (619, 619, 1, 11362), (620, 620, 1, 42925), (623, 623, 1, 412), (625, 625, 1, 11374),
   (626, 626, 1, 413), (629, 629, 1, 415), (637, 637, 1, 11364), (640, 640, 1, 422),
   (642, 642, 1, 42949), (643, 643, 1, 425), (647, 647, 1, 42929), (648, 648, 1, 430),
   (649, 649, 1, 580), (650, 651, 1, 433), (652, 652, 1, 581), (658, 658, 1, 439),
   (669, 669, 1, 42930), (670, 670, 1, 42928), (837, 837, 1, 921), (881, 883, 2, 880),
   (887, 887, 1, 886), (891, 893, 1, 1021), (940, 940, 1, 902), (941, 943, 1, 904),
   (945, 961, 1, 913), (962, 962, 1, 931), (963, 971, 1, 931), (972, 972, 1, 908),
   (973, 974, 1, 910), (976, 976, 1, 914), (977, 977, 1, 920), (981, 981, 1, 934),
   (982, 982, 1, 928), (983, 983, 1, 975), (985, 1007, 2, 984), (1008, 1008, 1, 922),
   (1009, 1009, 1, 929), (1010, 1010, 1, 1017), (1011, 1011, 1, 895), (1013, 1013, 1, 917),
   (1016, 1016, 1, 1015), (1019, 1019, 1, 1018), (1072, 1103, 1, 1040), (1104, 1119, 1, 1024),
   (1121, 1153, 2, 1120), (1163, 1215, 2, 1162), (1218, 1230, 2, 1217), (1231, 1231, 1, 1216),
   (1233, 1327, 2, 1232), (1377, 1414, 1, 1329), (4304, 4346, 1, 7312), (4349, 4351, 1, 7357),
   (5112, 5117, 1, 5104), (7296, 7296, 1, 1042), (7297, 7297, 1, 1044), (7298, 7298, 1, 1054),
   (7299, 7300, 1, 1057), (7301, 7301, 1, 1058), (7302, 7302, 1, 1066), (7303, 7303, 1, 1122),
   (7304, 7304, 1, 42570), (7545, 7545, 1, 42877), (7549, 7549, 1, 11363),
   (7566, 7566, 1, 42950), (7681, 7829, 2, 7680), (7835, 7835, 1, 7776), (7841, 7935, 2, 7840),
   (7936, 7943, 1, 7944), (7952, 7957, 1, 7960), (7968, 7975, 1, 7976), (7984, 7991, 1, 7992),
   (8000, 8005, 1, 8008), (8017, 8023, 2, 8025), (8032, 8039, 1, 8040), (8048, 8049, 1, 8122),
   (8050, 8053, 1, 8136), (8054, 8055, 1, 8154), (8056, 8057, 1, 8184), (8058, 8059, 1, 8170),
   (8060, 8061, 1, 8186), (8112, 8113, 1, 8120), (8126, 8126, 1, 921), (8144, 8145, 1, 8152),
   (8160, 8161, 1, 8168), (8165, 8165, 1, 8172), (8526, 8526, 1, 8498), (8560, 8575, 1, 8544),
   (8580, 8580, 1, 8579), (9424, 9449, 1, 9398), (11312, 11359, 1, 11264),
   (11361, 11361, 1, 11360), (11365, 11365, 1, 570), (11366, 11366, 1, 574),
   (11368, 11372, 2, 11367), (11379, 11379, 1, 11378), (11382, 11382, 1, 11381),
   (11393, 11491, 2, 11392), (11500, 11502, 2, 11499), (11507, 11507, 1, 11506),
   (11520, 11557, 1, 4256), (11559, 11559, 1, 4295), (11565, 11565, 1, 4301),
   (42561, 42605, 2, 42560), (42625, 42651, 2, 42624), (42787, 42799, 2, 42786),
   (42803, 42863, 2, 42802), (42874, 42876, 2, 42873), (42879, 42887, 2, 42878),
   (42892, 42892, 1, 42891), (42897, 42899, 2, 42896), (42900, 42900, 1, 42948),
   (42903, 42921, 2, 42902), (42933, 42947, 2, 42932), (42952, 42954, 2, 42951),
   (42961, 42961, 1, 42960), (42967, 42969, 2, 42966), (42998, 42998, 1, 42997),
   (43859, 43859, 1, 42931), (43888, 43967, 1, 5024), (65345, 65370, 1, 65313)]

/-- The characters whose upper case is a sequence of several characters, such
as the sharp s. -/
def upperCaseSpecial : List (Nat × List Nat) :=
  [(223, [83, 83]), (329, [700, 78]), (496, [74, 780]), (912, [921, 776, 769]),
   (944, [933, 776, 769]), (1415, [1333, 1362]), (7830, [72, 817]), (7831, [84, 776]),
   (7832, [87, 778]), (7833, [89, 778]), (7834, [65, 702]), (8016, [933, 787]),
   (8018, [933, 787, 768]), (8020, [933, 787, 769]), (8022, [933, 787, 834]),
   (8064, [7944, 921]), (8065, [7945, 921]), (8066, [7946, 921]), (8067, [7947, 921]),
   (8068, [7948, 921]), (8069, [7949, 921]), (8070, [7950, 921]), (8071, [7951, 921]),
   (8072, [7944, 921]), (8073, [7945, 921]), (8074, [7946, 921]), (8075, [7947, 921]),
   (8076, [7948, 921]), (8077, [7949, 921]), (8078, [7950, 921]), (8079, [7951, 921]),
   (8080, [7976, 921]), (8081, [7977, 921]), (8082, [7978, 921]), (8083, [7979, 921]),
   (8084, [7980, 921]), (8085, [7981, 921]), (8086, [7982, 921]), (8087, [7983, 921]),
   (8088, [7976, 921]), (8089, [7977, 921]), (8090, [7978, 921]), (8091, [7979, 921]),
   (8092, [7980, 921]), (8093, [7981, 921]), (8094, [7982, 921]), (8095, [7983, 921]),
   (8096, [8040, 921]), (8097, [8041, 921]), (8098, [8042, 921]), (8099, [8043, 921]),
   (8100, [8044, 921]), (8101, [8045, 921]), (8102, [8046, 921]), (8103, [8047, 921]),
   (8104, [8040, 921]), (8105, [8041, 921]), (8106, [8042, 921]), (8107, [8043, 921]),
   (8108, [8044, 921]), (8109, [8045, 921]), (8110, [8046, 921]), (8111, [8047, 921]),
   (8114, [8122, 921]), (8115, [913, 921]), (8116, [902, 921]), (8118, [913, 834]),
   (8119, [913, 834, 921]), (8124, [913, 921]), (8130, [8138, 921]), (8131, [919, 921]),
   (8132, [905, 921]), (8134, [919, 834]), (8135, [919, 834, 921]), (8140, [919, 921]),
   (8146, [921, 776, 768]), (8147, [921, 776, 769]), (8150, [921, 834]), (8151, [921, 776, 834]),
   (8162, [933, 776, 768]), (8163, [933, 776, 769]), (8164, [929, 787]), (8166, [933, 834]),
   (8167, [933, 776, 834]), (8178, [8186, 921]), (8179, [937, 921]), (8180, [911, 921]),
   (8182, [937, 834]), (8183, [937, 834, 921]), (8188, [937, 921]), (64256, [70, 70]),
   (64257, [70, 73]), (64258, [70, 76]), (64259, [70, 70, 73]), (64260, [70, 70, 76]),
   (64261, [83, 84]), (64262, [83, 84]), (64275, [1348, 1350]), (64276, [1348, 1333]),
   (64277, [1348, 1339]), (64278, [1358, 1350]), (64279, [1348, 1341])]

/-- The method `toUpperCase` on a string of one character. -/
def charToUpperCase (c : Char) : List Char :=
  match upperCaseSpecial.lookup c.toNat with
  | some us => us.map Char.ofNat
  | none =>
    match upperCaseRuns.find? (fun r =>
        decide (r.1 ≤ c.toNat ∧ c.toNat ≤ r.2.1 ∧ (c.toNat - r.1) % r.2.2.1 = 0)) with
    | some r => [Char.ofNat (r.2.2.2 + (c.toNat - r.1))]
    | none => [c]

/-- The expression `s.charAt(0).toUpperCase() + s.slice(1)`.  A first
character from U+10000 on is two code units; `charAt(0)` is the first of them,
which has no upper case, and the string is unchanged. -/
def capitalize : List Char → List Char
  | [] => []
  | c :: cs => charToUpperCase c ++ cs

/-! ## Regular expressions -/

/-- The regular expressions the parser uses. -/
inductive Regex where
  | eps : Regex
  | cls (p : Char → Bool) : Regex
  | seq (a b : Regex) : Regex
  | alt (a b : Regex) : Regex
  | star (a : Regex) : Regex
  | group (a : Regex) : Regex
  | wordB : Regex

/-- The state of a match attempt: the character before the current position,
the input from the current position on, and capture group 1. -/
structure MatchState where
  prev : Option Char
  rest : List Char
  capture : Option (List Char)

/-- The greedy loop of `a*`: as many iterations of `m` as possible, each one
consuming input, giving back iterations until the continuation succeeds. -/
def starLoop (m : MatchState → (MatchState → Option MatchState) → Option MatchState) :
    Nat → MatchState → (MatchState → Option MatchState) → Option MatchState
  | 0, s, k => k s
  | n + 1, s, k =>
    match m s (fun s2 => if s2.rest.length < s.rest.length then starLoop m n s2 k else none) with
    | some r => some r
    | none => k s

/-- Is there a word boundary `\b` between `prev` and the head of `rest`? -/
def atWordBoundary (prev : Option Char) (rest : List Char) : Bool :=
  (match prev with | some c => isWordChar c | none => false) !=
    (match rest with | c :: _ => isWordChar c | [] => false)

/-- Backtracking match of a regular expression at the current position, with
the continuation `k` for what follows: alternatives are tried left to right
and quantifiers are greedy. -/
def Regex.run : Regex → MatchState → (MatchState → Option MatchState) → Option MatchState
  | Regex.eps, s, k => k s
  | Regex.cls p, s, k =>
    match s.rest with
    | c :: cs => if p c then k ⟨some c, cs, s.capture⟩ else none
    | [] => none
  | Regex.seq a b, s, k => Regex.run a s (fun s2 => Regex.run b s2 k)
  | Regex.alt a b, s, k =>
    match Regex.run a s k with
    | some r => some r
    | none => Regex.run b s k
  | Regex.star a, s, k => starLoop (Regex.run a) s.rest.length s k
  | Regex.group a, s, k =>
    Regex.run a s
      (fun s2 => k ⟨s2.prev, s2.rest, some (s.rest.take (s.rest.length - s2.rest.length))⟩)
  | Regex.wordB, s, k => if atWordBoundary s.prev s.rest then k s else none

/-- The method `regex.exec(s)` of a regular expression without the `g` flag:
the leftmost position at which the expression matches. -/
def Regex.execFrom (r : Regex) : Option Char → List Char → Option MatchState
  | prev, [] => r.run ⟨prev, [], none⟩ some
  | prev, c :: cs =>
    match r.run ⟨prev, c :: cs, none⟩ some with
    | some m => some m
    | none => Regex.execFrom r (some c) cs

/-- The call `regex.exec(s)`. -/
def Regex.exec (r : Regex) (s : List Char) : Option MatchState := r.execFrom none s

/-- The call `s.replace(regex, '')` for a regular expression with the `g`
flag: every match, found from left to right, is removed.  `skip` counts the
characters of the current match that are still to be dropped. -/
def Regex.removeFrom (r : Regex) : Nat → Option Char → List Char → List Char
  | _, _, [] => []
  | skip + 1, _, c :: cs => Regex.removeFrom r skip (some c) cs
  | 0, prev, c :: cs =>
    match r.run ⟨prev, c :: cs, none⟩ some with
    | some m =>
      if (c :: cs).length - m.rest.length = 0 then c :: Regex.removeFrom r 0 (some c) cs
      else Regex.removeFrom r ((c :: cs).length - m.rest.length - 1) (some c) cs
    | none => c :: Regex.removeFrom r 0 (some c) cs

/-- The call `s.replace(regex, '')` with the `g` flag. -/
def Regex.removeAll (r : Regex) (s : List Char) : List Char := r.removeFrom 0 none s

/-- One literal character under the `i` flag. -/
def Regex.ci (c : Char) : Regex := Regex.cls (fun x => toUpperChar x == toUpperChar c)

/-- A literal word under the `i` flag. -/
def Regex.word : List Char → Regex
  | [] => Regex.eps
  | [c] => Regex.ci c
  | c :: cs => Regex.seq (Regex.ci c) (Regex.word cs)

/-- The alternation `a|b|...`. -/
def Regex.alts : List Regex → Regex
  | [] => Regex.cls (fun _ => false)
  | [r] => r
  | r :: rs => Regex.alt r (Regex.alts rs)

/-- The optional `a?`. -/
def Regex.opt (a : Regex) : Regex := Regex.alt a Regex.eps

/-- The repetition `a+`. -/
def Regex.plus (a : Regex) : Regex := Regex.seq a (Regex.star a)

/-- The words of an alternation, each under the `i` flag. -/
def Regex.words (ws : List String) : Regex := Regex.alts (ws.map (fun w => Regex.word w.toList))

/-- The number `\d+(?:[,.]\d{1,2})?`. -/
def numberRegex : Regex :=
  Regex.seq (Regex.plus (Regex.cls isDigit))
    (Regex.opt
      (Regex.seq (Regex.cls (fun c => c == ',' || c == '.'))
        (Regex.seq (Regex.cls isDigit) (Regex.opt (Regex.cls isDigit)))))

/-- A number in group 1, white space, and one of the given words:
`(\d+(?:[,.]\d{1,2})?)\s*(?:w1|w2|...)`. -/
def amountRegex (ws : List String) : Regex :=
  Regex.seq (Regex.group numberRegex)
    (Regex.seq (Regex.star (Regex.cls isSpace)) (Regex.words ws))

/-- The array `amountPatterns`: each regular expression with its currency. -/
def amountPatterns : List (Regex × String) :=
  [(amountRegex ["den", "денари", "mkd", "denar"], "MKD"),
   (amountRegex ["eur", "евра", "€"], "EUR"),
   (amountRegex ["usd", "долари", "$"], "USD"),
   (Regex.group numberRegex, "MKD")]

/-- Does the expression contain no capture group? -/
def Regex.groupFree : Regex → Bool
  | Regex.eps => true
  | Regex.cls _ => true
  | Regex.seq a b => a.groupFree && b.groupFree
  | Regex.alt a b => a.groupFree && b.groupFree
  | Regex.star a => a.groupFree
  | Regex.group _ => false
  | Regex.wordB => true

/-- The regular expression of the description cleanup that removes amounts:
`\d+(?:[,.]\d{1,2})?\s*(?:den|денари|mkd|eur|usd|\$|€)` with the flags `gi`. -/
def amountRemovalRegex : Regex :=
  Regex.seq numberRegex
    (Regex.seq (Regex.star (Regex.cls isSpace))
      (Regex.words ["den", "денари", "mkd", "eur", "usd", "$", "€"]))

/-- The first filler expression of the description cleanup, with the flags
`gi`: `\b(spent|paid|bought|today|yesterday|last night|купив|платив|потроших|денес|вчера)\b`. -/
def fillerRegex1 : Regex :=
  Regex.seq Regex.wordB
    (Regex.seq
      (Regex.words ["spent", "paid", "bought", "today", "yesterday", "last night",
        "купив", "платив", "потроших", "денес", "вчера"])
      Regex.wordB)

/-- The second filler expression of the description cleanup, with the flags
`gi`: `\b(on|for|за|на)\b`. -/
def fillerRegex2 : Regex :=
  Regex.seq Regex.wordB (Regex.seq (Regex.words ["on", "for", "за", "на"]) Regex.wordB)

/-! ## Expense text parser -/

/-- The value of a string of digits. -/
def digitsValue (ds : List Char) : Nat := ds.foldl (fun n c => 10 * n + (c.toNat - 48)) 0

/-- The call `parseFloat(s)` on a string that starts like a capture of the
number expression: digits, then possibly a point and digits.  Whatever follows
is ignored; without a leading digit or point-digit the result is `NaN`. -/
def parseFloatString (s : List Char) : JSNum :=
  match s.dropWhile isDigit with
  | '.' :: fs =>
    if s.takeWhile isDigit = [] ∧ fs.takeWhile isDigit = [] then nan
    else fin ((digitsValue (s.takeWhile isDigit) : ℚ)
      + (digitsValue (fs.takeWhile isDigit) : ℚ) / 10 ^ (fs.takeWhile isDigit).length)
  | _ => if s.takeWhile isDigit = [] then nan else fin (digitsValue (s.takeWhile isDigit) : ℚ)

/-- The call `s.replace(',', '.')`: the first comma becomes a point. -/
def replaceFirstComma : List Char → List Char
  | [] => []
  | c :: cs => if c = ',' then '.' :: cs else c :: replaceFirstComma cs

/-- The loop over `amountPatterns`: the amount and currency set by the first
pattern whose `exec` on the clean text gives a match with a non-empty group 1. -/
def extractAmount (cleanText : List Char) : List (Regex × String) → Option (JSNum × String)
  | [] => none
  | (regex, currency) :: patterns =>
    match (regex.exec cleanText).bind MatchState.capture with
    | some (c :: cs) => some (parseFloatString (replaceFirstComma (c :: cs)), currency)
    | _ => extractAmount cleanText patterns

/-- The object `categoryKeywords`, in insertion order. -/
def categoryKeywords : List (String × List String) :=
  [("Food & Dining", ["food", "restaurant", "dinner", "lunch", "coffee", "pizza", "храна",
      "ресторан"]),
   ("Transportation", ["gas", "fuel", "bus", "taxi", "uber", "car", "бензин", "гориво",
      "автобус"]),
   ("Shopping", ["shopping", "clothes", "shirt", "shoes", "store", "шопинг", "облека", "чевли"]),
   ("Entertainment", ["movie", "cinema", "concert", "game", "филм", "кино", "концерт"]),
   ("Bills & Utilities", ["bill", "electricity", "water", "internet", "сметка", "струја",
      "вода"]),
   ("Healthcare", ["doctor", "medicine", "pharmacy", "доктор", "лек", "аптека"])]

/-- The inner loop of the category detection: how many keywords occur in the
clean text. -/
def matchCount (cleanText : List Char) (keywords : List String) : Nat :=
  keywords.foldl (fun count keyword => if includes cleanText keyword.toList then count + 1
    else count) 0

/-- One iteration of the outer loop on `bestMatch = { category, score }`. -/
def bestMatchStep (cleanText : List Char) (best : Option String × Nat)
    (entry : String × List String) : Option String × Nat :=
  if matchCount cleanText entry.2 > best.2 then (some entry.1, matchCount cleanText entry.2)
  else best

/-- The category detection: `bestMatch` after the loop over a keyword table. -/
def bestMatchOf (cleanText : List Char) (table : List (String × List String)) :
    Option String × Nat :=
  table.foldl (bestMatchStep cleanText) (none, 0)

/-- The category put in the result: `bestMatch.category` when it is truthy. -/
def detectCategory (cleanText : List Char) : Option String :=
  match (bestMatchOf cleanText categoryKeywords).1 with
  | some category => if category.toList = [] then none else some category
  | none => none

/-- Is the date taken from the word "today"? -/
def saysToday (cleanText : List Char) : Bool :=
  includes cleanText "today".toList || includes cleanText "денес".toList

/-- Is the date taken from a word for yesterday? -/
def saysYesterday (cleanText : List Char) : Bool :=
  includes cleanText "yesterday".toList || includes cleanText "вчера".toList ||
    includes cleanText "last night".toList

/-- The date extraction: the date, as a day number, and what it adds to the
confidence.  `today` is the day of `new Date()`; the day before is `today - 1`. -/
def extractDate (today : Int) (cleanText : List Char) : Int × JSNum :=
  if saysToday cleanText then (today, fin (15 / 100))
  else if saysYesterday cleanText then (today - 1, fin (15 / 100))
  else (today, fin (5 / 100))

/-- Truthiness of `result.amount`: `null`, zero and `NaN` are falsy. -/
def amountTruthy : Option JSNum → Bool
  | none => false
  | some x => x.truthy

/-- The variable `description` after the cleanup: the original text without
the amounts (when an amount was found) and the filler words, trimmed. -/
def cleanDescription (originalText : List Char) (amount : Option JSNum) : List Char :=
  trim (fillerRegex2.removeAll (fillerRegex1.removeAll
    (if amountTruthy amount then amountRemovalRegex.removeAll originalText else originalText)))

/-- The text of the fallback description: the category followed by
" expense", or "Expense". -/
def fallbackDescription : Option String → List Char
  | some category => category.toList ++ " expense".toList
  | none => "Expense".toList

/-- The description put in the result and what it adds to the confidence.  The
`catch` branch of the source cannot be reached: no string operation throws. -/
def describe (originalText : List Char) (amount : Option JSNum) (category : Option String) :
    List Char × JSNum :=
  if cleanDescription originalText amount ≠ [] ∧
      jsLength (cleanDescription originalText amount) > 3 then
    (capitalize (cleanDescription originalText amount), fin (25 / 100))
  else (fallbackDescription category, fin (10 / 100))

/-- An argument of `parseExpenseText`. -/
inductive ParserInput where
  | null : ParserInput
  | undefined : ParserInput
  | boolean (b : Bool) : ParserInput
  | number (x : JSNum) : ParserInput
  | object : ParserInput
  | string (s : List Char) : ParserInput

/-- The object returned by `parseExpenseText`; the date is a day number. -/
structure ParsedExpense where
  amount : Option JSNum
  category : Option String
  description : List Char
  date : Int
  currency : String
  confidence : JSNum

/-- The parse of a non-empty string. -/
def parseText (today : Int) (text : List Char) : ParsedExpense :=
  let originalText := trim text
  let cleanText := toLowerCase originalText
  let found := extractAmount cleanText amountPatterns
  let amount := found.map Prod.fst
  let currency := match found with | some (_, c) => c | none => "MKD"
  let confidence1 := match found with | some _ => fin 0 + fin (4 / 10) | none => fin 0
  let category := detectCategory cleanText
  let confidence2 := match category with | some _ => confidence1 + fin (3 / 10) | none => confidence1
  let dated := extractDate today cleanText
  let confidence3 := confidence2 + dated.2
  let described := describe originalText amount (bestMatchOf cleanText categoryKeywords).1
  let confidence4 := confidence3 + described.2
  { amount := amount
    category := category
    description := described.1
    date := dated.1
    currency := currency
    confidence := JSNum.min (fin 1) (JSNum.max (fin (1 / 10)) confidence4) }

/-- Truthiness of an argument: the empty string is falsy. -/
def ParserInput.truthy : ParserInput → Bool
  | ParserInput.null => false
  | ParserInput.undefined => false
  | ParserInput.boolean b => b
  | ParserInput.number x => x.truthy
  | ParserInput.object => true
  | ParserInput.string s => !s.isEmpty

/-- The test `typeof text === 'string'`. -/
def ParserInput.isString : ParserInput → Bool
  | ParserInput.string _ => true
  | _ => false

/-- The conversion `String(text)` of an argument that is a string. -/
def ParserInput.toChars : ParserInput → List Char
  | ParserInput.string s => s
  | _ => []

/-- The object returned for an invalid argument. -/
def invalidInputResult (today : Int) : ParsedExpense :=
  { amount := none
    category := none
    description := "Invalid input - please provide text".toList
    date := today
    currency := "MKD"
    confidence := fin (1 / 10) }

/-- The method `EnhancedNLPService.parseExpenseText`, with the current day as
a parameter. -/
def parseExpenseText (today : Int) (text : ParserInput) : ParsedExpense :=
  if !text.truthy || !text.isString then invalidInputResult today
  else parseText today text.toChars

/-! ## The parse-expense endpoint -/

/-- The object `suggestions` of the parse-expense response. -/
structure ParseSuggestions where
  amount : Option JSNum
  category : Option String
  description : List Char
  date : Int
  currency : String

/-- A response of `POST /api/ai/parse-expense`: status 400 with its message,
status 500 with its message, or the body of a successful parse. -/
inductive ParseResponse where
  | badRequest (message : String) : ParseResponse
  | serverError (message : String) : ParseResponse
  | ok (parsed : ParsedExpense) (needs_confirmation : Bool) (suggestions : ParseSuggestions) :
      ParseResponse

/-- The object `suggestions` the handler builds from the parse result. -/
def suggestionsOf (parsed : ParsedExpense) : ParseSuggestions :=
  { amount := parsed.amount
    category := parsed.category
    description := parsed.description
    date := parsed.date
    currency := parsed.currency }

/-- The validation test of the handler:
`!text || typeof text !== 'string' || text.trim().length === 0`. -/
def textRejected (text : ParserInput) : Bool :=
  !text.truthy || !text.isString || jsLength (trim text.toChars) == 0

/-- The handler of `POST /api/ai/parse-expense` after authentication, on
`req.body.text`.  `stored` tells whether the insert into `nlp_parse_history`
succeeded; when it throws, the `catch` branch answers with status 500. -/
def parseExpenseRoute (today : Int) (text : ParserInput) (stored : Bool) : ParseResponse :=
  if textRejected text then ParseResponse.badRequest "Text input required"
  else
    let parsed := parseExpenseText today text
    if !stored then ParseResponse.serverError "Failed to parse expense"
    else
      ParseResponse.ok parsed (lt parsed.confidence (fin (8 / 10))) (suggestionsOf parsed)

/-! ## Sample inputs -/

/-- Four weekly rows whose totals are all zero. -/
def zeroWeeks4 : List WeeklyRow :=
  [⟨1, 0, 1, 0⟩, ⟨2, 0, 1, 0⟩, ⟨3, 0, 1, 0⟩, ⟨4, 0, 1, 0⟩]

/-- Five weekly rows whose totals are all zero. -/
def zeroWeeks5 : List WeeklyRow :=
  [⟨1, 0, 1, 0⟩, ⟨2, 0, 1, 0⟩, ⟨3, 0, 1, 0⟩, ⟨4, 0, 1, 0⟩, ⟨5, 0, 1, 0⟩]

/-- Two statistics rows for the same category. -/
def duplicateStats : List CategoryStat :=
  [⟨some 1, 100, some 10, 3⟩, ⟨some 1, 1, some 1, 3⟩]

/-- A transaction of 50 in category 1. -/
def transaction50 : Transaction := ⟨7, 50, some "Shopping", some 1⟩

/-- Statistics with one category of average 100 and zero deviation. -/
def flatStats : List CategoryStat := [⟨some 1, 100, some 0, 3⟩]

/-- A transaction of 160 in category 1. -/
def transaction160 : Transaction := ⟨8, 160, some "Shopping", some 1⟩

/-- A transaction of 170 in category 1. -/
def transaction170 : Transaction := ⟨9, 170, some "Shopping", some 1⟩

/-- The anomaly reported for `transaction170` against `flatStats`. -/
def anomaly170 : Anomaly :=
  { expense_id := 9
    anomaly_type := "amount_spike"
    severity_score := fin 1
    expected_value := fin 100
    actual_value := fin 170
    ml_confidence := fin (4 / 5) }

/-- Five weekly rows with the totals 1000, 100, 200, 300, 400. -/
def fiveWeeks : List WeeklyRow :=
  [⟨1, 1000, 4, 250⟩, ⟨2, 100, 1, 100⟩, ⟨3, 200, 2, 100⟩, ⟨4, 300, 3, 100⟩, ⟨5, 400, 4, 100⟩]

/-- Five weekly rows with the totals 0, 100, 200, 300, 400: the rows of
`fiveWeeks` with another first total. -/
def fiveWeeksLowStart : List WeeklyRow :=
  [⟨1, 0, 0, 0⟩, ⟨2, 100, 1, 100⟩, ⟨3, 200, 2, 100⟩, ⟨4, 300, 3, 100⟩, ⟨5, 400, 4, 100⟩]

/-- One category "Shopping" with average monthly spending 1000. -/
def shoppingRows : List CategorySpending := [⟨2, "Shopping", 1000, 0, 6⟩]

/-- One category "Entertainment" with average monthly spending 48.10. -/
def entertainmentRows : List CategorySpending := [⟨3, "Entertainment", 481 / 10, 0, 6⟩]

/-- Six weekly rows with the totals 30, 30, 40, 30, 30, 30. -/
def boundaryWeeks : List WeeklyRow :=
  [⟨1, 30, 1, 30⟩, ⟨2, 30, 1, 30⟩, ⟨3, 40, 1, 40⟩, ⟨4, 30, 1, 30⟩, ⟨5, 30, 1, 30⟩,
   ⟨6, 30, 1, 30⟩]

/-- Six weekly rows with the totals 3, 3, 4, 3, 3, 3. -/
def smallWeeks : List WeeklyRow :=
  [⟨1, 3, 1, 3⟩, ⟨2, 3, 1, 3⟩, ⟨3, 4, 1, 4⟩, ⟨4, 3, 1, 3⟩, ⟨5, 3, 1, 3⟩, ⟨6, 3, 1, 3⟩]

/-- Statistics with one category of average 31 and zero deviation. -/
def stats31 : List CategoryStat := [⟨some 1, 31, some 0, 3⟩]

/-- A transaction of 49.60 in category 1. -/
def transaction4960 : Transaction := ⟨11, 248 / 5, some "Shopping", some 1⟩

/-- A transaction of 52.70 in category 1. -/
def transaction5270 : Transaction := ⟨12, 527 / 10, some "Shopping", some 1⟩

/-! ## The specification's formulas -/

/-- The weekly totals of the rows, as rationals. -/
def weeklyTotals (rows : List WeeklyRow) : List ℚ := rows.map WeeklyRow.total_amount

/-- The specification's `avgRecent`: the mean of the last four weekly totals. -/
def avgRecentQ (w : List ℚ) : ℚ := (w.drop (w.length - 4)).sum / 4

/-- The specification's variance: the mean over all weeks of the squared
deviation from `avgRecent`. -/
def varianceQ (w : List ℚ) : ℚ :=
  (w.map (fun x => (x - avgRecentQ w) ^ 2)).sum / w.length

/-- The effective standard deviation in the specification's words: the entry's
`stddev_amount` when it is a non-zero number, `avg * 0.3` when it is zero or
missing. -/
def specStdDev (s : CategoryStat) : ℚ :=
  match s.stddev_amount with
  | some d => if d ≠ 0 then d else s.avg_amount * (3 / 10)
  | none => s.avg_amount * (3 / 10)

/-- The specification's threshold `avg + 2 * stdDev`. -/
def specThreshold (s : CategoryStat) : ℚ := s.avg_amount + 2 * specStdDev s

/-- The specification's `clamp(x, 0, 1)`. -/
def clamp01 (x : JSNum) : JSNum := JSNum.max (fin 0) (JSNum.min (fin 1) x)

/-- The specification's severity ratio `(amount - avg) / (threshold - avg)`. -/
def specRatio (s : CategoryStat) (t : Transaction) : JSNum :=
  fin (t.amount - s.avg_amount) / fin (specThreshold s - s.avg_amount)

/-- The entry `s` is the first entry of `stats` with the category of `t`. -/
def FirstMatch (stats : List CategoryStat) (t : Transaction) (s : CategoryStat) : Prop :=
  ∃ before after, stats = before ++ s :: after ∧
    (∀ x ∈ before, x.category_id ≠ t.category_id) ∧ s.category_id = t.category_id

/-- The necessity score of a category name as the comparisons see it. -/
def necessity (n : String) : JSNum := (getCategoryNecessityScore n).toNumber

/-- The specification's reduction percent: 0.05 if the necessity is above 0.8,
0.2 if it is below 0.5, else 0.1. -/
def specReduction (n : String) : ℚ :=
  if gt (necessity n) (fin (4 / 5)) then 1 / 20
  else if lt (necessity n) (fin (1 / 2)) then 1 / 5
  else 1 / 10

/-- The specification's `recommended = round(a * (1 - r))`. -/
def specRecommended (c : CategorySpending) : ℤ :=
  ⌊c.avg_spending * (1 - specReduction c.name) + 1 / 2⌋

/-- The specification's `savings = max(0, a - recommended)`. -/
def specSavings (c : CategorySpending) : ℚ :=
  Max.max 0 (c.avg_spending - specRecommended c)

/-- The recommendation the specification emits for a category, if any. -/
def specRecommendation (c : CategorySpending) : Option Recommendation :=
  if 10 < specSavings c then some (recommendationFor c) else none

/-- One category "Other" with average monthly spending 104.40. -/
def otherRows : List CategorySpending := [⟨1, "Other", 522 / 5, 0, 6⟩]

/-! ## The parser in the specification's words -/

/-- What the amount adds to the confidence: 0.4 when an amount was found. -/
def amountScore (cleanText : List Char) : ℚ :=
  if (extractAmount cleanText amountPatterns).isSome then 4 / 10 else 0

/-- What the category adds to the confidence: 0.3 when one was detected. -/
def categoryScore (cleanText : List Char) : ℚ :=
  if (detectCategory cleanText).isSome then 3 / 10 else 0

/-- What the date adds to the confidence: 0.15 for a date word, else 0.05. -/
def dateScore (cleanText : List Char) : ℚ :=
  if saysToday cleanText || saysYesterday cleanText then 15 / 100 else 5 / 100

/-- What the description adds to the confidence: 0.25 when the cleaned text
is longer than 3, else 0.1. -/
def descriptionScore (cleaned : List Char) : ℚ :=
  if 3 < jsLength cleaned then 25 / 100 else 10 / 100

/-- The decimal number `a.b` of two digit strings. -/
def decimalValue (a b : List Char) : ℚ :=
  (digitsValue a : ℚ) + (digitsValue b : ℚ) / 10 ^ b.length

/-- The specification's `totalSavings`: the sum of the unrounded savings of
the categories that get a recommendation. -/
def specTotalSavings (rows : List CategorySpending) : ℚ :=
  ((rows.filter (fun c => decide (10 < specSavings c))).map specSavings).sum

/-- The specification's total average spending over all input categories. -/
def specTotalSpending (rows : List CategorySpending) : ℚ :=
  (rows.map CategorySpending.avg_spending).sum

/-- The values the specification's formula min(1, max(0.1, a + c + d + s)) takes
for a in {0, 0.4}, c in {0, 0.3}, d in {0.15, 0.05} and s in {0.25, 0.1}. -/
def specConfidenceValues : List ℚ :=
  [0, 4 / 10].flatMap (fun a => [0, 3 / 10].flatMap (fun c =>
    [15 / 100, 5 / 100].flatMap (fun d => [25 / 100, 1 / 10].map (fun s =>
      Min.min 1 (Max.max (1 / 10) (a + c + d + s))))))

/-- The mean of a list of totals. -/
def mean (l : List ℚ) : ℚ := l.sum / l.length

/-- The specification's first half: the first ⌊n/2⌋ totals. -/
def firstHalf (w : List ℚ) : List ℚ := w.take (w.length / 2)

/-- The specification's second half: the totals after the first ⌊n/2⌋. -/
def secondHalf (w : List ℚ) : List ℚ := w.drop (w.length / 2)

/-- The specification's trend: "increasing" if the mean of the second half is
above 1.1 times the mean of the first half, "decreasing" if it is below 0.9
times that mean, "stable" otherwise. -/
def specTrend (w : List ℚ) : String :=
  if 11 / 10 * mean (firstHalf w) < mean (secondHalf w) then "increasing"
  else if mean (secondHalf w) < 9 / 10 * mean (firstHalf w) then "decreasing"
  else "stable"

/-- The rows with every weekly total multiplied by `k`. -/
def scaleRows (k : ℚ) (rows : List WeeklyRow) : List WeeklyRow :=
  rows.map (fun r => { r with total_amount := k * r.total_amount })

/-- The unit roundoff of doubles, 2^-53. -/
def unitRoundoff : ℚ := 1 / 2 ^ 53

/-- The computed value `a` is within the relative error `e` of the exact
value `A`. -/
def Near (e a A : ℚ) : Prop := (1 - e) * A ≤ a ∧ a ≤ (1 + e) * A

/-- The mean of the second half is not within the relative distance 2^-40 of
`c` times the mean of the first half. -/
def ClearOf (c : ℚ) (w : List ℚ) : Prop :=
  mean (secondHalf w) < c * mean (firstHalf w) * (1 - 1 / 2 ^ 40) ∨
    c * mean (firstHalf w) * (1 + 1 / 2 ^ 40) < mean (secondHalf w)

/-- The weekly totals lie between 0.01 and 10^15. -/
def TotalsInRange (rows : List WeeklyRow) : Prop :=
  ∀ r ∈ rows, 1 / 100 ≤ r.total_amount ∧ r.total_amount ≤ 10 ^ 15

/-! ## Lemmas on numbers -/

namespace JSNum

@[simp] theorem fin_add_fin (a b : ℚ) : fin a + fin b = fin (a + b) := rfl

@[simp] theorem fin_sub_fin (a b : ℚ) : fin a - fin b = fin (a - b) := by
  show add (fin a) (neg (fin b)) = fin (a - b)
  simp [add, neg, sub_eq_add_neg]

@[simp] theorem fin_mul_fin (a b : ℚ) : fin a * fin b = fin (a * b) := rfl

theorem fin_div_fin (a b : ℚ) :
    fin a / fin b =
      if b = 0 then (if a = 0 then nan else infOfSign (decide (0 < a))) else fin (a / b) := rfl

@[simp] theorem fin_div_fin_of_ne (a : ℚ) {b : ℚ} (hb : b ≠ 0) : fin a / fin b = fin (a / b) := by
  rw [fin_div_fin, if_neg hb]

@[simp] theorem fin_zero_div_zero : fin 0 / fin 0 = nan := by
  simp [fin_div_fin]

@[simp] theorem nan_add (x : JSNum) : nan + x = nan := by
  cases x <;> rfl

@[simp] theorem add_nan (x : JSNum) : x + nan = nan := by
  cases x <;> rfl

@[simp] theorem nan_sub (x : JSNum) : nan - x = nan := by
  cases x <;> rfl

@[simp] theorem sub_nan (x : JSNum) : x - nan = nan := by
  cases x <;> rfl

@[simp] theorem nan_mul (x : JSNum) : nan * x = nan := by
  cases x <;> rfl

@[simp] theorem mul_nan (x : JSNum) : x * nan = nan := by
  cases x <;> rfl

@[simp] theorem nan_div (x : JSNum) : nan / x = nan := by
  cases x <;> rfl

@[simp] theorem div_nan (x : JSNum) : x / nan = nan := by
  cases x <;> rfl

@[simp] theorem lt_fin_fin (a b : ℚ) : lt (fin a) (fin b) = decide (a < b) := rfl

@[simp] theorem gt_fin_fin (a b : ℚ) : gt (fin a) (fin b) = decide (b < a) := rfl

@[simp] theorem le_fin_fin (a b : ℚ) : le (fin a) (fin b) = decide (a ≤ b) := rfl

@[simp] theorem max_fin_fin (a b : ℚ) : JSNum.max (fin a) (fin b) = fin (Max.max a b) := by
  simp only [JSNum.max, lt_fin_fin]
  rcases lt_or_le a b with h | h
  · simp [h, max_eq_right h.le]
  · simp [not_lt.mpr h, max_eq_left h]

@[simp] theorem min_fin_fin (a b : ℚ) : JSNum.min (fin a) (fin b) = fin (Min.min a b) := by
  simp only [JSNum.min, lt_fin_fin]
  rcases lt_or_le b a with h | h
  · simp [h, min_eq_right h.le]
  · simp [not_lt.mpr h, min_eq_left h]

@[simp] theorem max_nan_left (x : JSNum) : JSNum.max nan x = nan := by
  cases x <;> rfl

@[simp] theorem max_nan_right (x : JSNum) : JSNum.max x nan = nan := by
  cases x <;> rfl

@[simp] theorem min_nan_left (x : JSNum) : JSNum.min nan x = nan := by
  cases x <;> rfl

@[simp] theorem min_nan_right (x : JSNum) : JSNum.min x nan = nan := by
  cases x <;> rfl

@[simp] theorem round_fin (q : ℚ) : round (fin q) = fin (⌊q + 1 / 2⌋ : ℤ) := rfl

@[simp] theorem round_nan : round nan = nan := rfl

@[simp] theorem sqrtQ_zero : sqrtQ 0 = 0 := by
  simp [sqrtQ]

theorem sqrtQ_nonneg (q : ℚ) : 0 ≤ sqrtQ q := by
  unfold sqrtQ
  positivity

@[simp] theorem sqrt_fin_zero : JSNum.sqrt (fin 0) = fin 0 := by
  simp [JSNum.sqrt]

theorem round2_fin (q : ℚ) : round2 (fin q) = fin ((⌊q * 100 + 1 / 2⌋ : ℤ) / 100) := by
  simp [round2]

@[simp] theorem round2_nan : round2 nan = nan := rfl

end JSNum

/-! ## Sorting: lemmas -/

theorem arraySort_perm {α : Type} (cmp : α → α → JSNum) (xs : List α) :
    (arraySort cmp xs).Perm xs :=
  List.perm_insertionSort _ xs

theorem mem_arraySort {α : Type} (cmp : α → α → JSNum) (xs : List α) (a : α) :
    a ∈ arraySort cmp xs ↔ a ∈ xs :=
  (arraySort_perm cmp xs).mem_iff

/-- Inserting into a list sorted in non-increasing key order keeps it sorted,
when all keys are finite. -/
theorem orderedInsert_sorted_desc {α : Type} (key : α → JSNum) (a : α) :
    ∀ l : List α, (key a).IsFin → (∀ b ∈ l, (key b).IsFin) →
      l.Sorted (fun x y => le (key y) (key x) = true) →
      (l.orderedInsert (fun x y => gt (key y - key x) (fin 0) = false) a).Sorted
        (fun x y => le (key y) (key x) = true)
  | [], _, _, _ => List.sorted_singleton a
  | b :: l, ha, hl, hs => by
    obtain ⟨qa, hqa⟩ := ha
    obtain ⟨qb, hqb⟩ := hl b (List.mem_cons_self b l)
    have hl2 : ∀ c ∈ l, (key c).IsFin := fun c hc => hl c (List.mem_cons_of_mem b hc)
    have hbl := List.sorted_cons.mp hs
    by_cases hab : gt (key b - key a) (fin 0) = false
    · rw [List.orderedInsert, if_pos hab]
      refine List.sorted_cons.mpr ⟨?_, hs⟩
      have hba : qb ≤ qa := by
        simpa [hqa, hqb] using hab
      intro c hc
      rcases List.mem_cons.mp hc with rfl | hc
      · simpa [hqa, hqb] using hba
      · obtain ⟨qc, hqc⟩ := hl2 c hc
        have hcb : qc ≤ qb := by simpa [hqb, hqc] using hbl.1 c hc
        simpa [hqa, hqc] using hcb.trans hba
    · rw [List.orderedInsert, if_neg hab]
      refine List.sorted_cons.mpr ⟨?_, orderedInsert_sorted_desc key a l ⟨qa, hqa⟩ hl2 hbl.2⟩
      have hlt : qa < qb := by
        simpa [hqa, hqb] using hab
      intro c hc
      rcases (List.mem_orderedInsert _).mp hc with rfl | hc
      · simpa [hqa, hqb] using hlt.le
      · exact hbl.1 c hc

/-- Sorting with the comparator `(a, b) => key(b) - key(a)` yields a list in
non-increasing key order, when all keys are finite. -/
theorem arraySort_sorted_desc {α : Type} (key : α → JSNum) :
    ∀ xs : List α, (∀ a ∈ xs, (key a).IsFin) →
      (arraySort (fun a b => key b - key a) xs).Sorted (fun x y => le (key y) (key x) = true)
  | [], _ => List.sorted_nil
  | a :: xs, h => by
    have ih := arraySort_sorted_desc key xs (fun b hb => h b (List.mem_cons_of_mem a hb))
    refine orderedInsert_sorted_desc key a _ (h a (List.mem_cons_self a xs)) ?_ ih
    intro b hb
    exact h b (List.mem_cons_of_mem a ((mem_arraySort _ xs b).mp hb))

/-! ## Spending prediction: properties -/

/-- C1: with fewer than four weekly rows (the empty list included) the
prediction is the fixed insufficient-data record: amount 0, confidence 0.1,
model "insufficient_data", trend "stable". -/
theorem prediction_insufficient_data (rows : List WeeklyRow) (h : rows.length < 4) :
    (advancedSpendingPrediction rows).predicted_amount = fin 0 ∧
    (advancedSpendingPrediction rows).confidence_score = fin (1 / 10) ∧
    (advancedSpendingPrediction rows).model_used = "insufficient_data" ∧
    (advancedSpendingPrediction rows).trend_direction = "stable" := by
  rw [advancedSpendingPrediction, if_pos h]
  exact ⟨rfl, rfl, rfl, rfl⟩

/-- C1 at the empty list of rows. -/
theorem prediction_insufficient_data_witness :
    ([] : List WeeklyRow).length < 4 ∧
    (advancedSpendingPrediction []).predicted_amount = fin 0 ∧
    (advancedSpendingPrediction []).confidence_score = fin (1 / 10) ∧
    (advancedSpendingPrediction []).model_used = "insufficient_data" ∧
    (advancedSpendingPrediction []).trend_direction = "stable" :=
  ⟨by decide, prediction_insufficient_data [] (by decide)⟩

/-- C2: five weeks of zero totals take the statistical path, where the
confidence is `NaN`: it is neither at least 0.3 (or 0.1) nor at most 0.9. -/
theorem prediction_confidence_nan_zero_weeks :
    (advancedSpendingPrediction zeroWeeks5).model_used = "statistical_analysis" ∧
    (advancedSpendingPrediction zeroWeeks5).confidence_score = nan ∧
    le (fin (1 / 10)) (advancedSpendingPrediction zeroWeeks5).confidence_score = false ∧
    le (fin (3 / 10)) (advancedSpendingPrediction zeroWeeks5).confidence_score = false ∧
    le (advancedSpendingPrediction zeroWeeks5).confidence_score (fin (9 / 10)) = false := by
  have h : (advancedSpendingPrediction zeroWeeks5).confidence_score = nan := by
    simp [advancedSpendingPrediction, zeroWeeks5, sliceLast4, JSNum.sum, parseFloat, ofNat, pow2]
  rw [h]
  exact ⟨by simp [advancedSpendingPrediction, zeroWeeks5], rfl, rfl, rfl, rfl⟩

/-- C3: on the totals `[0, 0, 0, 0]` the quotient `sqrt(variance) / avgRecent`
is `0 / 0`, and both the confidence and the volatility come out as `NaN`
instead of the lower bound 0.3. -/
theorem prediction_zero_average_nan :
    (advancedSpendingPrediction zeroWeeks4).confidence_score = nan ∧
    (advancedSpendingPrediction zeroWeeks4).confidence_score ≠ fin (3 / 10) ∧
    (advancedSpendingPrediction zeroWeeks4).volatility_score = some nan := by
  have h : (advancedSpendingPrediction zeroWeeks4).confidence_score = nan := by
    simp [advancedSpendingPrediction, zeroWeeks4, sliceLast4, JSNum.sum, parseFloat, ofNat, pow2]
  refine ⟨h, ?_, ?_⟩
  · rw [h]
    exact fun e => JSNum.noConfusion e
  · simp [advancedSpendingPrediction, zeroWeeks4, sliceLast4, JSNum.sum, parseFloat, ofNat, pow2]

/-! ## Spending prediction: the statistical path -/

theorem foldl_add_map_fin (l : List ℚ) (x : ℚ) :
    (l.map fin).foldl (fun a b => a + b) (fin x) = fin (x + l.sum) := by
  induction l generalizing x with
  | nil => simp
  | cons a l ih => simp [ih, add_assoc]

theorem sum_map_fin (l : List ℚ) : JSNum.sum (l.map fin) = fin l.sum := by
  simpa [JSNum.sum] using foldl_add_map_fin l 0

theorem foldl_variance_map_fin (l : List ℚ) (a x : ℚ) :
    (l.map fin).foldl (fun acc val => acc + pow2 (val - fin a)) (fin x)
      = fin (x + (l.map (fun w => (w - a) ^ 2)).sum) := by
  induction l generalizing x with
  | nil => simp
  | cons b l ih =>
    rw [List.map_cons, List.foldl_cons, List.map_cons, List.sum_cons]
    have hstep : fin x + pow2 (fin b - fin a) = fin (x + (b - a) ^ 2) := by
      simp [pow2, sq]
    rw [hstep, ih, add_assoc]

theorem sqrtQ_pos {q : ℚ} (hq : 0 < q) : 0 < sqrtQ q := by
  unfold sqrtQ
  have hnum : 0 < q.num.toNat := by
    have : 0 < q.num := Rat.num_pos.mpr hq
    omega
  have hden : 0 < q.den := q.den_pos
  have hprod : 0 < q.num.toNat * q.den * 10 ^ 32 := by positivity
  have hsqrt : 0 < Nat.sqrt (q.num.toNat * q.den * 10 ^ 32) := Nat.sqrt_pos.mpr hprod
  have h1 : (0 : ℚ) < (Nat.sqrt (q.num.toNat * q.den * 10 ^ 32) : ℚ) := by exact_mod_cast hsqrt
  have h2 : (0 : ℚ) < (q.den : ℚ) * 10 ^ 16 := by positivity
  exact div_pos h1 h2

theorem varianceQ_nonneg (w : List ℚ) : 0 ≤ varianceQ w := by
  unfold varianceQ
  apply div_nonneg
  · apply List.sum_nonneg
    intro x hx
    obtain ⟨y, _, rfl⟩ := List.mem_map.mp hx
    positivity
  · positivity

/-- The confidence and the volatility of the statistical path, in terms of the
specification's `avgRecent` and variance. -/
theorem prediction_statistical (rows : List WeeklyRow) (h : 4 ≤ rows.length) :
    (advancedSpendingPrediction rows).model_used = "statistical_analysis" ∧
    (advancedSpendingPrediction rows).predicted_amount
      = round2 (fin (avgRecentQ (weeklyTotals rows) * (433 / 100))) ∧
    (advancedSpendingPrediction rows).confidence_score
      = round2 (JSNum.max (fin (3 / 10)) (JSNum.min (fin (9 / 10))
          (fin 1 - fin (sqrtQ (varianceQ (weeklyTotals rows)))
            / fin (avgRecentQ (weeklyTotals rows))))) ∧
    (advancedSpendingPrediction rows).volatility_score
      = some (round2 (fin (sqrtQ (varianceQ (weeklyTotals rows)))
          / fin (avgRecentQ (weeklyTotals rows)))) := by
  have hlt : ¬ rows.length < 4 := by omega
  have hmap : rows.map (fun row => parseFloat row.total_amount)
      = (weeklyTotals rows).map fin := by
    simp [weeklyTotals, parseFloat, List.map_map, Function.comp_def]
  have hlen : (weeklyTotals rows).length = rows.length := by simp [weeklyTotals]
  have hrecent : sliceLast4 ((weeklyTotals rows).map fin)
      = ((weeklyTotals rows).drop ((weeklyTotals rows).length - 4)).map fin := by
    simp [sliceLast4, List.map_drop]
  have hrlen : (sliceLast4 ((weeklyTotals rows).map fin)).length = 4 := by
    rw [hrecent, List.length_map, List.length_drop]
    omega
  have havg : JSNum.sum (sliceLast4 ((weeklyTotals rows).map fin))
      / ofNat (sliceLast4 ((weeklyTotals rows).map fin)).length
      = fin (avgRecentQ (weeklyTotals rows)) := by
    rw [hrlen, hrecent, sum_map_fin]
    simp [ofNat, avgRecentQ]
  have hn : ((rows.length : ℕ) : ℚ) ≠ 0 := by
    have : 0 < rows.length := by omega
    exact_mod_cast this.ne'
  have hvar : ((weeklyTotals rows).map fin).foldl
      (fun acc val => acc + pow2 (val - fin (avgRecentQ (weeklyTotals rows)))) (fin 0)
      / ofNat ((weeklyTotals rows).map fin).length
      = fin (varianceQ (weeklyTotals rows)) := by
    rw [foldl_variance_map_fin]
    simp [ofNat, varianceQ, hlen, hn]
  have hsqrt : JSNum.sqrt (fin (varianceQ (weeklyTotals rows)))
      = fin (sqrtQ (varianceQ (weeklyTotals rows))) := by
    simp [JSNum.sqrt, not_lt.mpr (varianceQ_nonneg _)]
  simp only [advancedSpendingPrediction, if_neg hlt, hmap, havg, hvar, hsqrt, fin_mul_fin,
    and_self]

theorem round2_fin_range {m : ℚ} (h1 : 3 / 10 ≤ m) (h2 : m ≤ 9 / 10) :
    ∃ c : ℚ, round2 (fin m) = fin c ∧ 3 / 10 ≤ c ∧ c ≤ 9 / 10 := by
  refine ⟨(⌊m * 100 + 1 / 2⌋ : ℤ) / 100, round2_fin m, ?_, ?_⟩
  · have h : (30 : ℤ) ≤ ⌊m * 100 + 1 / 2⌋ := by
      rw [Int.le_floor]
      push_cast
      linarith
    have hq : (30 : ℚ) ≤ ((⌊m * 100 + 1 / 2⌋ : ℤ) : ℚ) := by exact_mod_cast h
    linarith
  · have h : ⌊m * 100 + 1 / 2⌋ < 91 := by
      rw [Int.floor_lt]
      push_cast
      linarith
    have h' : (⌊m * 100 + 1 / 2⌋ : ℤ) ≤ 90 := by omega
    have hq : ((⌊m * 100 + 1 / 2⌋ : ℤ) : ℚ) ≤ 90 := by exact_mod_cast h'
    linarith

/-- On the statistical path the confidence is a number in [0.3, 0.9] as soon
as `avgRecent` or the variance is non-zero. -/
theorem prediction_confidence_range (rows : List WeeklyRow) (h : 4 ≤ rows.length)
    (hnz : avgRecentQ (weeklyTotals rows) ≠ 0 ∨ varianceQ (weeklyTotals rows) ≠ 0) :
    ∃ c : ℚ, (advancedSpendingPrediction rows).confidence_score = fin c ∧
      3 / 10 ≤ c ∧ c ≤ 9 / 10 := by
  rw [(prediction_statistical rows h).2.2.1]
  by_cases havg : avgRecentQ (weeklyTotals rows) = 0
  · have hv : 0 < varianceQ (weeklyTotals rows) := by
      rcases hnz with h0 | h0
      · exact absurd havg h0
      · exact lt_of_le_of_ne (varianceQ_nonneg _) (Ne.symm h0)
    have hs := sqrtQ_pos hv
    rw [havg, fin_div_fin, if_pos rfl, if_neg hs.ne']
    have hclamp : JSNum.max (fin (3 / 10)) (JSNum.min (fin (9 / 10))
        (fin 1 - infOfSign (decide (0 < sqrtQ (varianceQ (weeklyTotals rows))))))
        = fin (3 / 10) := by
      simp [hs, infOfSign]
      rfl
    rw [hclamp]
    exact round2_fin_range (le_refl _) (by norm_num)
  · rw [fin_div_fin_of_ne _ havg, fin_sub_fin, min_fin_fin, max_fin_fin]
    exact round2_fin_range (le_max_left _ _) (max_le (by norm_num) (min_le_left _ _))

/-- When every weekly total is zero, `avgRecent` and the variance are zero and
the confidence of the statistical path is `NaN`. -/
theorem prediction_confidence_nan (rows : List WeeklyRow) (h : 4 ≤ rows.length)
    (hz : ∀ r ∈ rows, r.total_amount = 0) :
    (advancedSpendingPrediction rows).confidence_score = nan := by
  have hw : ∀ x ∈ weeklyTotals rows, x = 0 := by
    intro x hx
    obtain ⟨r, hr, rfl⟩ := List.mem_map.mp hx
    exact hz r hr
  have havg : avgRecentQ (weeklyTotals rows) = 0 := by
    unfold avgRecentQ
    have : ((weeklyTotals rows).drop ((weeklyTotals rows).length - 4)).sum = 0 :=
      List.sum_eq_zero (fun x hx => hw x (List.mem_of_mem_drop hx))
    rw [this, zero_div]
  have hvar : varianceQ (weeklyTotals rows) = 0 := by
    unfold varianceQ
    have : ((weeklyTotals rows).map
        (fun x => (x - avgRecentQ (weeklyTotals rows)) ^ 2)).sum = 0 := by
      apply List.sum_eq_zero
      intro y hy
      obtain ⟨x, hx, rfl⟩ := List.mem_map.mp hy
      rw [hw x hx, havg]
      norm_num
    rw [this, zero_div]
  rw [(prediction_statistical rows h).2.2.1, havg, hvar]
  simp

/-- A non-zero weekly total makes `avgRecent` or the variance non-zero. -/
theorem avg_or_variance_ne_zero (rows : List WeeklyRow) (h : 4 ≤ rows.length)
    (hnz : ∃ r ∈ rows, r.total_amount ≠ 0) :
    avgRecentQ (weeklyTotals rows) ≠ 0 ∨ varianceQ (weeklyTotals rows) ≠ 0 := by
  by_cases havg : avgRecentQ (weeklyTotals rows) = 0
  · right
    obtain ⟨r, hr, hr0⟩ := hnz
    have hmem : (r.total_amount - avgRecentQ (weeklyTotals rows)) ^ 2 ∈
        (weeklyTotals rows).map (fun x => (x - avgRecentQ (weeklyTotals rows)) ^ 2) :=
      List.mem_map.mpr ⟨r.total_amount, List.mem_map.mpr ⟨r, hr, rfl⟩, rfl⟩
    have hpos : 0 < (r.total_amount - avgRecentQ (weeklyTotals rows)) ^ 2 := by
      rw [havg, sub_zero]
      positivity
    have hle : (r.total_amount - avgRecentQ (weeklyTotals rows)) ^ 2 ≤
        ((weeklyTotals rows).map (fun x => (x - avgRecentQ (weeklyTotals rows)) ^ 2)).sum := by
      apply List.single_le_sum _ _ hmem
      intro y hy
      obtain ⟨x, _, rfl⟩ := List.mem_map.mp hy
      positivity
    have hlen : (0 : ℚ) < ((weeklyTotals rows).length : ℚ) := by
      have : 0 < (weeklyTotals rows).length := by
        simp only [weeklyTotals, List.length_map]
        omega
      exact_mod_cast this
    unfold varianceQ
    exact (div_pos (lt_of_lt_of_le hpos hle) hlen).ne'
  · left
    exact havg

/-! ## Anomaly detection: lemmas -/

theorem thresholdOf_eq (s : CategoryStat) : thresholdOf s = fin (specThreshold s) := by
  unfold thresholdOf stdDevOf specThreshold specStdDev parseFloat
  cases h : s.stddev_amount with
  | none => simp [parseFloatOpt, JSNum.or, truthy]
  | some d =>
    by_cases hd : d = 0 <;> simp [parseFloatOpt, JSNum.or, truthy, hd]

/-- The loop pushes exactly the anomalies of the flagged transactions, in order. -/
theorem detectionLoop_eq_filterMap (stats : List CategoryStat) (recent : List Transaction) :
    detectionLoop stats recent = recent.filterMap (anomalyOf stats) := by
  have key : ∀ (l : List Transaction) (acc : List Anomaly),
      l.foldl
        (fun anomalies transaction =>
          match anomalyOf stats transaction with
          | none => anomalies
          | some a => anomalies ++ [a]) acc = acc ++ l.filterMap (anomalyOf stats) := by
    intro l
    induction l with
    | nil => intro acc; simp
    | cons t l ih =>
      intro acc
      rw [List.foldl_cons, ih, List.filterMap_cons]
      cases anomalyOf stats t <;> simp
  simpa [detectionLoop] using key recent []

/-- The severity the loop body computes, as a number of the specification. -/
theorem anomalyOf_of_find {stats : List CategoryStat} {t : Transaction} {s : CategoryStat}
    (hf : findStats stats t = some s) :
    anomalyOf stats t =
      if specThreshold s < t.amount then
        some
          { expense_id := t.id
            anomaly_type := "amount_spike"
            severity_score := round2 (JSNum.min (fin 1) (specRatio s t))
            expected_value := round2 (fin s.avg_amount)
            actual_value := fin t.amount
            ml_confidence := fin (4 / 5) }
      else none := by
  simp only [anomalyOf, hf, thresholdOf_eq, parseFloat, gt_fin_fin, decide_eq_true_eq, specRatio,
    fin_sub_fin]

theorem anomalyOf_of_find_none {stats : List CategoryStat} {t : Transaction}
    (hf : findStats stats t = none) : anomalyOf stats t = none := by
  simp only [anomalyOf, hf]

/-- What `find` returns is the first entry with the category of the transaction. -/
theorem findStats_eq_some_iff (stats : List CategoryStat) (t : Transaction) (s : CategoryStat) :
    findStats stats t = some s ↔ FirstMatch stats t s := by
  unfold findStats FirstMatch
  rw [List.find?_eq_some]
  constructor
  · rintro ⟨hs, before, after, rfl, hb⟩
    exact ⟨before, after, rfl, fun x hx => by simpa using hb x hx, by simpa using hs⟩
  · rintro ⟨before, after, rfl, hb, hs⟩
    exact ⟨by simpa using hs, before, after, rfl, fun x hx => by simpa using hb x hx⟩

theorem findStats_eq_none_iff (stats : List CategoryStat) (t : Transaction) :
    findStats stats t = none ↔ ∀ s ∈ stats, s.category_id ≠ t.category_id := by
  unfold findStats
  simp [List.find?_eq_none]

/-- The clamped ratio of a flagged transaction is a finite number at most 1. -/
theorem min_one_specRatio (s : CategoryStat) (t : Transaction)
    (hflag : specThreshold s < t.amount) :
    ∃ m : ℚ, JSNum.min (fin 1) (specRatio s t) = fin m ∧ m ≤ 1 := by
  unfold specRatio
  by_cases hz : specThreshold s - s.avg_amount = 0
  · have hpos : 0 < t.amount - s.avg_amount := by linarith
    refine ⟨1, ?_, le_refl 1⟩
    rw [fin_div_fin, if_pos hz, if_neg hpos.ne']
    simp [hpos, infOfSign, JSNum.min, lt]
  · refine ⟨Min.min 1 ((t.amount - s.avg_amount) / (specThreshold s - s.avg_amount)), ?_,
      min_le_left _ _⟩
    rw [fin_div_fin_of_ne _ hz, min_fin_fin]

theorem round2_fin_le_one {m : ℚ} (hm : m ≤ 1) :
    ∃ q : ℚ, round2 (fin m) = fin q ∧ q ≤ 1 := by
  refine ⟨(⌊m * 100 + 1 / 2⌋ : ℤ) / 100, round2_fin m, ?_⟩
  have h1 : (⌊m * 100 + 1 / 2⌋ : ℤ) ≤ 100 := by
    have : ⌊m * 100 + 1 / 2⌋ < 101 := by
      rw [Int.floor_lt]
      push_cast
      linarith
    omega
  have h2 : ((⌊m * 100 + 1 / 2⌋ : ℤ) : ℚ) ≤ 100 := by exact_mod_cast h1
  linarith

theorem anomalyOf_eq_some {stats : List CategoryStat} {t : Transaction} {a : Anomaly}
    (h : anomalyOf stats t = some a) :
    ∃ s, FirstMatch stats t s ∧ specThreshold s < t.amount ∧ a.expense_id = t.id ∧
      a.severity_score = round2 (JSNum.min (fin 1) (specRatio s t)) := by
  cases hf : findStats stats t with
  | none => rw [anomalyOf_of_find_none hf] at h; cases h
  | some s =>
    rw [anomalyOf_of_find hf] at h
    by_cases hflag : specThreshold s < t.amount
    · rw [if_pos hflag] at h
      cases h
      exact ⟨s, (findStats_eq_some_iff stats t s).mp hf, hflag, rfl, rfl⟩
    · rw [if_neg hflag] at h
      cases h

theorem anomalyOf_isSome_iff (stats : List CategoryStat) (t : Transaction) :
    (anomalyOf stats t).isSome = true ↔
      ∃ s, FirstMatch stats t s ∧ specThreshold s < t.amount := by
  constructor
  · intro h
    obtain ⟨a, ha⟩ := Option.isSome_iff_exists.mp h
    obtain ⟨s, hs, hflag, _⟩ := anomalyOf_eq_some ha
    exact ⟨s, hs, hflag⟩
  · rintro ⟨s, hs, hflag⟩
    rw [anomalyOf_of_find ((findStats_eq_some_iff stats t s).mpr hs), if_pos hflag]
    rfl

/-- With one statistics row per category, the first matching row is the
matching row. -/
theorem firstMatch_iff_of_nodup {stats : List CategoryStat}
    (hkey : (stats.map CategoryStat.category_id).Nodup) (t : Transaction) (s : CategoryStat) :
    FirstMatch stats t s ↔ s ∈ stats ∧ s.category_id = t.category_id := by
  constructor
  · rintro ⟨before, after, rfl, _, hs⟩
    exact ⟨by simp, hs⟩
  · rintro ⟨hmem, hs⟩
    cases hf : findStats stats t with
    | none => exact absurd hs ((findStats_eq_none_iff stats t).mp hf s hmem)
    | some s2 =>
      have h2 := (findStats_eq_some_iff stats t s2).mp hf
      have hmem2 : s2 ∈ stats := by
        obtain ⟨before, after, rfl, _, _⟩ := h2
        simp
      have hcat : s2.category_id = s.category_id := by
        obtain ⟨_, _, _, _, h3⟩ := h2
        rw [h3, hs]
      have : s2 = s := List.inj_on_of_nodup_map hkey hmem2 hmem hcat
      rw [← this]
      exact h2

theorem severity_isFin_of_mem {stats : List CategoryStat} {recent : List Transaction}
    {a : Anomaly} (ha : a ∈ detectionLoop stats recent) : a.severity_score.IsFin := by
  rw [detectionLoop_eq_filterMap, List.mem_filterMap] at ha
  obtain ⟨t, _, ht⟩ := ha
  obtain ⟨s, _, hflag, _, hsev⟩ := anomalyOf_eq_some ht
  obtain ⟨m, hm, hm1⟩ := min_one_specRatio s t hflag
  obtain ⟨q, hq, _⟩ := round2_fin_le_one hm1
  exact ⟨q, by rw [hsev, hm, hq]⟩

/-! ## Anomaly detection: properties -/

/-- Why the statistics rows must have distinct categories: `find` takes
the first row of a category.  The second row of `duplicateStats` has threshold
3 < 50, yet the transaction is judged against the first row (threshold 120)
and is not flagged. -/
theorem first_match_wins_on_duplicates :
    (∃ s ∈ duplicateStats, s.category_id = transaction50.category_id ∧
      specThreshold s < transaction50.amount) ∧
    anomalyOf duplicateStats transaction50 = none ∧
    intelligentAnomalyDetection duplicateStats [transaction50] = [] := by
  have h : anomalyOf duplicateStats transaction50 = none := by
    have hf : findStats duplicateStats transaction50 = some ⟨some 1, 100, some 10, 3⟩ := by
      simp [findStats, duplicateStats, transaction50]
    rw [anomalyOf_of_find hf, if_neg]
    norm_num [specThreshold, specStdDev, transaction50]
  refine ⟨⟨⟨some 1, 1, some 1, 3⟩, by simp [duplicateStats], rfl, ?_⟩, h, ?_⟩
  · norm_num [specThreshold, specStdDev, transaction50]
  · simp [intelligentAnomalyDetection, detectionLoop, h, arraySort]

/-- C4: the statistics query groups by category_id, so its rows have pairwise
distinct category ids (`hkey`).  Then a transaction produces an anomaly iff
some statistics row has its category_id and amount > avg + 2*stdDev, with
stdDev the row's deviation when it is a non-zero number and avg*0.3 when it is
zero or missing.  Transactions without a matching row are skipped; the output
is a reordering of the per-transaction anomalies, so it has at most one anomaly
per transaction, each carrying the id of a flagged transaction. -/
theorem anomaly_iff_some_stat_flags (stats : List CategoryStat) (recent : List Transaction)
    (hkey : (stats.map CategoryStat.category_id).Nodup) :
    (∀ t, (anomalyOf stats t).isSome = true ↔
      ∃ s ∈ stats, s.category_id = t.category_id ∧ specThreshold s < t.amount) ∧
    (∀ t, (∀ s ∈ stats, s.category_id ≠ t.category_id) → anomalyOf stats t = none) ∧
    (intelligentAnomalyDetection stats recent).Perm (recent.filterMap (anomalyOf stats)) ∧
    (intelligentAnomalyDetection stats recent).length ≤ recent.length ∧
    (∀ a ∈ intelligentAnomalyDetection stats recent, ∃ t ∈ recent, a.expense_id = t.id ∧
      ∃ s ∈ stats, s.category_id = t.category_id ∧ specThreshold s < t.amount) := by
  have hperm : (intelligentAnomalyDetection stats recent).Perm
      (recent.filterMap (anomalyOf stats)) := by
    rw [← detectionLoop_eq_filterMap]
    exact arraySort_perm _ _
  have hiff : ∀ t, (anomalyOf stats t).isSome = true ↔
      ∃ s ∈ stats, s.category_id = t.category_id ∧ specThreshold s < t.amount := by
    intro t
    rw [anomalyOf_isSome_iff]
    constructor
    · rintro ⟨s, hs, hflag⟩
      obtain ⟨hmem, hcat⟩ := (firstMatch_iff_of_nodup hkey t s).mp hs
      exact ⟨s, hmem, hcat, hflag⟩
    · rintro ⟨s, hmem, hcat, hflag⟩
      exact ⟨s, (firstMatch_iff_of_nodup hkey t s).mpr ⟨hmem, hcat⟩, hflag⟩
  refine ⟨hiff, ?_, hperm, ?_, ?_⟩
  · intro t ht
    exact anomalyOf_of_find_none ((findStats_eq_none_iff stats t).mpr ht)
  · rw [hperm.length_eq]
    exact List.length_filterMap_le _ _
  · intro a ha
    have ha2 := hperm.mem_iff.mp ha
    rw [List.mem_filterMap] at ha2
    obtain ⟨t, htmem, ht⟩ := ha2
    have hsome : (anomalyOf stats t).isSome = true := by rw [ht]; rfl
    obtain ⟨s, hmem, hcat, hflag⟩ := (hiff t).mp hsome
    obtain ⟨_, _, _, hid, _⟩ := anomalyOf_eq_some ht
    exact ⟨t, htmem, hid, s, hmem, hcat, hflag⟩

/-- C4 at one statistics row and a transaction of 170 against an average of
100: the category ids are distinct and the transaction is flagged. -/
theorem anomaly_iff_some_stat_flags_witness :
    (flatStats.map CategoryStat.category_id).Nodup ∧
    ((anomalyOf flatStats transaction170).isSome = true ↔
      ∃ s ∈ flatStats, s.category_id = transaction170.category_id ∧
        specThreshold s < transaction170.amount) ∧
    (intelligentAnomalyDetection flatStats [transaction170]).length ≤ 1 :=
  ⟨by simp [flatStats],
   (anomaly_iff_some_stat_flags flatStats [transaction170] (by simp [flatStats])).1
     transaction170,
   (anomaly_iff_some_stat_flags flatStats [transaction170] (by simp [flatStats])).2.2.2.1⟩

theorem round2_fin_one : round2 (fin 1) = fin 1 := by
  rw [round2_fin]
  norm_num

theorem specStdDev_nonneg {s : CategoryStat} (havg : 0 ≤ s.avg_amount)
    (hdev : ∀ d, s.stddev_amount = some d → 0 ≤ d) : 0 ≤ specStdDev s := by
  unfold specStdDev
  cases h : s.stddev_amount with
  | none => simp only; positivity
  | some d =>
    simp only
    split_ifs
    · exact hdev d h
    · positivity

/-- For non-negative statistics the ratio of a flagged transaction is above 1
or infinite, and both the upper clamp and the two-sided clamp give 1. -/
theorem specRatio_clamp_of_nonneg {s : CategoryStat} {t : Transaction}
    (hflag : specThreshold s < t.amount) (hsd : 0 ≤ specStdDev s) :
    JSNum.min (fin 1) (specRatio s t) = fin 1 ∧ clamp01 (specRatio s t) = fin 1 := by
  have hden : specThreshold s - s.avg_amount = 2 * specStdDev s := by
    unfold specThreshold
    ring
  have hnum : 0 < t.amount - s.avg_amount := by
    unfold specThreshold at hflag
    linarith
  unfold clamp01 specRatio
  by_cases hz : specThreshold s - s.avg_amount = 0
  · rw [fin_div_fin, if_pos hz, if_neg hnum.ne']
    simp [hnum, infOfSign, JSNum.min, JSNum.max, lt]
  · have hpos : 0 < specThreshold s - s.avg_amount := by
      rcases (by linarith : 0 ≤ specThreshold s - s.avg_amount).lt_or_eq with h | h
      · exact h
      · exact absurd h.symm hz
    have hone : 1 ≤ (t.amount - s.avg_amount) / (specThreshold s - s.avg_amount) := by
      rw [le_div_iff₀ hpos]
      linarith
    rw [fin_div_fin_of_ne _ hz, min_fin_fin, min_eq_left hone, max_fin_fin]
    simp

theorem flatStats_detection :
    intelligentAnomalyDetection flatStats [transaction170] = [anomaly170] := by
  have hf : findStats flatStats transaction170 = some ⟨some 1, 100, some 0, 3⟩ := by
    simp [findStats, flatStats, transaction170]
  have hflag : specThreshold ⟨some 1, 100, some 0, 3⟩ < transaction170.amount := by
    norm_num [specThreshold, specStdDev, transaction170]
  have hsd : 0 ≤ specStdDev ⟨some 1, 100, some 0, 3⟩ := by
    norm_num [specStdDev]
  have hexp : round2 (fin 100) = fin 100 := by
    rw [round2_fin]
    norm_num
  have ha : anomalyOf flatStats transaction170 = some anomaly170 := by
    rw [anomalyOf_of_find hf, if_pos hflag, (specRatio_clamp_of_nonneg hflag hsd).1,
      round2_fin_one, hexp]
    rfl
  simp [intelligentAnomalyDetection, detectionLoop, ha, arraySort]

/-- C6: the statistics rows the query returns are averages and deviations of
positive amounts, so every average is at least 0 and every deviation that is
present is at least 0.  For such rows every anomaly in the output belongs to a
flagged transaction, its severity_score is clamp((amount − avg)/(threshold −
avg), 0, 1) rounded to 2 decimals, and it lies in [0, 1]. -/
theorem severity_clamped (stats : List CategoryStat) (recent : List Transaction)
    (hstats : ∀ s ∈ stats, 0 ≤ s.avg_amount ∧ ∀ d, s.stddev_amount = some d → 0 ≤ d) :
    ∀ a ∈ intelligentAnomalyDetection stats recent,
      ∃ t ∈ recent, ∃ s, FirstMatch stats t s ∧ a.expense_id = t.id ∧
        specThreshold s < t.amount ∧
        a.severity_score = round2 (clamp01 (specRatio s t)) ∧
        le (fin 0) a.severity_score = true ∧ le a.severity_score (fin 1) = true := by
  intro a ha
  have ha2 : a ∈ recent.filterMap (anomalyOf stats) := by
    rw [← detectionLoop_eq_filterMap]
    exact (mem_arraySort _ _ a).mp ha
  rw [List.mem_filterMap] at ha2
  obtain ⟨t, htmem, ht⟩ := ha2
  obtain ⟨s, hs, hflag, hid, hsev⟩ := anomalyOf_eq_some ht
  have hmem : s ∈ stats := by
    obtain ⟨before, after, rfl, _, _⟩ := hs
    simp
  obtain ⟨havg, hdev⟩ := hstats s hmem
  obtain ⟨h1, h2⟩ := specRatio_clamp_of_nonneg hflag (specStdDev_nonneg havg hdev)
  refine ⟨t, htmem, s, hs, hid, hflag, ?_, ?_, ?_⟩
  · rw [hsev, h1, h2]
  · rw [hsev, h1, round2_fin_one]
    simp
  · rw [hsev, h1, round2_fin_one]
    simp

/-- C6 at one statistics row of average 100 and deviation 0 and a transaction
of 170: the anomaly has severity 1. -/
theorem severity_clamped_witness :
    (∀ s ∈ flatStats, 0 ≤ s.avg_amount ∧ ∀ d, s.stddev_amount = some d → 0 ≤ d) ∧
    anomaly170 ∈ intelligentAnomalyDetection flatStats [transaction170] ∧
    ∃ t ∈ [transaction170], ∃ s, FirstMatch flatStats t s ∧ anomaly170.expense_id = t.id ∧
      specThreshold s < t.amount ∧
      anomaly170.severity_score = round2 (clamp01 (specRatio s t)) ∧
      le (fin 0) anomaly170.severity_score = true ∧
      le anomaly170.severity_score (fin 1) = true := by
  have hall : ∀ s ∈ flatStats, 0 ≤ s.avg_amount ∧ ∀ d, s.stddev_amount = some d → 0 ≤ d := by
    intro s hs
    rw [List.mem_singleton.mp hs]
    refine ⟨by norm_num, ?_⟩
    intro d hd
    rw [← Option.some.inj hd]
  have hmem : anomaly170 ∈ intelligentAnomalyDetection flatStats [transaction170] := by
    rw [flatStats_detection]
    exact List.mem_singleton_self _
  exact ⟨hall, hmem, severity_clamped flatStats [transaction170] hall anomaly170 hmem⟩

/-- C7: the returned list is in non-increasing order of severity_score and is
a permutation of the anomalies pushed by the detection loop. -/
theorem anomalies_sorted_perm (stats : List CategoryStat) (recent : List Transaction) :
    (intelligentAnomalyDetection stats recent).Sorted
      (fun a b => le b.severity_score a.severity_score = true) ∧
    (intelligentAnomalyDetection stats recent).Perm (detectionLoop stats recent) :=
  ⟨arraySort_sorted_desc Anomaly.severity_score _ (fun _ ha => severity_isFin_of_mem ha),
   arraySort_perm _ _⟩

/-! ## Budget recommendations: lemmas -/

theorem reductionPercentOf_eq (n : String) :
    reductionPercentOf (getCategoryNecessityScore n) = fin (specReduction n) := by
  unfold reductionPercentOf specReduction necessity
  cases (getCategoryNecessityScore n).toNumber with
  | nan => simp [lt, gt]
  | ninf => simp [lt, gt]
  | pinf => simp [lt, gt]
  | fin q =>
    simp only [lt_fin_fin, gt_fin_fin, decide_eq_true_eq]
    split_ifs <;> first | rfl | (exfalso; linarith)

theorem recommendedBudgetOf_eq (c : CategorySpending) :
    recommendedBudgetOf c = fin (specRecommended c) := by
  simp [recommendedBudgetOf, specRecommended, reductionPercentOf_eq, parseFloat]

theorem potentialSavingsOf_eq (c : CategorySpending) :
    potentialSavingsOf c = fin (specSavings c) := by
  simp [potentialSavingsOf, specSavings, recommendedBudgetOf_eq, parseFloat]

theorem budgetStep_eq (acc : List Recommendation × JSNum) (c : CategorySpending) :
    budgetStep acc c =
      if 10 < specSavings c then
        (acc.1 ++ [recommendationFor c], acc.2 + fin (specSavings c))
      else acc := by
  simp [budgetStep, potentialSavingsOf_eq]

theorem budgetLoop_fst (rows : List CategorySpending) :
    (budgetLoop rows).1 = rows.filterMap specRecommendation := by
  have key : ∀ (l : List CategorySpending) (acc : List Recommendation × JSNum),
      (l.foldl budgetStep acc).1 = acc.1 ++ l.filterMap specRecommendation := by
    intro l
    induction l with
    | nil => intro acc; simp
    | cons c l ih =>
      intro acc
      rw [List.foldl_cons, ih, List.filterMap_cons, budgetStep_eq]
      unfold specRecommendation
      by_cases h : 10 < specSavings c <;> simp [h]
  simpa [budgetLoop] using key rows ([], fin 0)

theorem recommendations_perm (rows : List CategorySpending) :
    (smartBudgetRecommendations rows).recommendations.Perm
      (rows.filterMap specRecommendation) := by
  unfold smartBudgetRecommendations
  by_cases h : rows.length = 0
  · rw [if_pos h]
    rw [List.length_eq_zero.mp h]
    simp
  · rw [if_neg h]
    simp only
    rw [← budgetLoop_fst]
    exact arraySort_perm _ _

theorem potential_savings_field (c : CategorySpending) :
    (recommendationFor c).potential_savings = fin (⌊specSavings c + 1 / 2⌋ : ℤ) := by
  simp [recommendationFor, potentialSavingsOf_eq]

theorem getCategoryNecessityScore_default (n : String) (h1 : necessityMap.lookup n = none)
    (h2 : n ∉ objectPrototypeKeys) : getCategoryNecessityScore n = JSVal.num (fin (1 / 2)) := by
  simp [getCategoryNecessityScore, getProperty, h1, h2, JSVal.or, JSVal.truthy]

theorem necessity_table :
    getCategoryNecessityScore "Food & Dining" = JSVal.num (fin (9 / 10)) ∧
    getCategoryNecessityScore "Bills & Utilities" = JSVal.num (fin (19 / 20)) ∧
    getCategoryNecessityScore "Healthcare" = JSVal.num (fin (9 / 10)) ∧
    getCategoryNecessityScore "Transportation" = JSVal.num (fin (4 / 5)) ∧
    getCategoryNecessityScore "Education" = JSVal.num (fin (3 / 4)) ∧
    getCategoryNecessityScore "Shopping" = JSVal.num (fin (2 / 5)) ∧
    getCategoryNecessityScore "Entertainment" = JSVal.num (fin (3 / 10)) ∧
    getCategoryNecessityScore "Other" = JSVal.num (fin (1 / 2)) := by
  refine ⟨?_, ?_, ?_, ?_, ?_, ?_, ?_, ?_⟩ <;>
    simp [getCategoryNecessityScore, getProperty, necessityMap, List.lookup, JSVal.or,
      JSVal.truthy, truthy]

theorem specReduction_of_score {n : String} {q : ℚ}
    (h : getCategoryNecessityScore n = JSVal.num (fin q)) :
    specReduction n = if 4 / 5 < q then 1 / 20 else if q < 1 / 2 then 1 / 5 else 1 / 10 := by
  simp only [specReduction, necessity, h, JSVal.toNumber, gt_fin_fin, lt_fin_fin,
    decide_eq_true_eq]

theorem specReduction_other : specReduction "Other" = 1 / 10 := by
  rw [specReduction_of_score necessity_table.2.2.2.2.2.2.2]
  norm_num

/-! ## Budget recommendations: properties -/

/-- C8: the lookup gives the table value for a table name and 0.5 for an
unknown name such as "Travel", but for "constructor", a property every object
literal inherits, `necessityMap[categoryName]` is a function: it is truthy, so
the default is not applied and the result is not the number 0.5. -/
theorem necessity_inherited_name :
    getCategoryNecessityScore "constructor" = JSVal.object "constructor" ∧
    getCategoryNecessityScore "constructor" ≠ JSVal.num (fin (1 / 2)) ∧
    getCategoryNecessityScore "Travel" = JSVal.num (fin (1 / 2)) ∧
    getCategoryNecessityScore "Bills & Utilities" = JSVal.num (fin (19 / 20)) := by
  have h : getCategoryNecessityScore "constructor" = JSVal.object "constructor" := by
    simp [getCategoryNecessityScore, getProperty, necessityMap, List.lookup, JSVal.or,
      JSVal.truthy, objectPrototypeKeys]
  refine ⟨h, ?_, ?_, necessity_table.2.1⟩
  · rw [h]
    exact fun e => JSVal.noConfusion e
  · simp [getCategoryNecessityScore, getProperty, necessityMap, List.lookup, JSVal.or,
      JSVal.truthy, truthy, objectPrototypeKeys]

/-- C9: with r = 0.05 if the necessity is above 0.8, 0.2 if it is below 0.5
and 0.1 otherwise (Transportation at 0.8 and Other at 0.5 get 0.1),
recommended = round(a*(1-r)) and savings = max(0, a - recommended), the loop
pushes a recommendation for a category iff savings > 10, the pushed record has
recommended_budget = recommended and current_budget = round(a), and the
returned list is a reordering of the records pushed. -/
theorem budget_recommendation_rule (rows : List CategorySpending) (c : CategorySpending)
    (acc : List Recommendation × JSNum) :
    recommendedBudgetOf c = fin (specRecommended c) ∧
    potentialSavingsOf c = fin (specSavings c) ∧
    budgetStep acc c =
      (if 10 < specSavings c then
        (acc.1 ++ [recommendationFor c], acc.2 + fin (specSavings c))
      else acc) ∧
    (recommendationFor c).recommended_budget = fin (specRecommended c) ∧
    (recommendationFor c).current_budget = fin (⌊c.avg_spending + 1 / 2⌋ : ℤ) ∧
    (budgetLoop rows).1 = rows.filterMap specRecommendation ∧
    (smartBudgetRecommendations rows).recommendations.Perm
      (rows.filterMap specRecommendation) ∧
    specReduction "Transportation" = 1 / 10 ∧ specReduction "Other" = 1 / 10 ∧
    specReduction "Food & Dining" = 1 / 20 ∧ specReduction "Entertainment" = 1 / 5 ∧
    specReduction "Travel" = 1 / 10 := by
  refine ⟨recommendedBudgetOf_eq c, potentialSavingsOf_eq c, budgetStep_eq acc c,
    recommendedBudgetOf_eq c, ?_, budgetLoop_fst rows, recommendations_perm rows, ?_,
    specReduction_other, ?_, ?_, ?_⟩
  · simp [recommendationFor, parseFloat]
  · rw [specReduction_of_score necessity_table.2.2.2.1]
    norm_num
  · rw [specReduction_of_score necessity_table.1]
    norm_num
  · rw [specReduction_of_score necessity_table.2.2.2.2.2.2.1]
    norm_num
  · rw [specReduction_of_score (q := 1 / 2)
      (getCategoryNecessityScore_default "Travel" (by decide) (by decide))]
    norm_num

theorem otherRows_savings : specSavings ⟨1, "Other", 522 / 5, 0, 6⟩ = 52 / 5 := by
  have hrec : specRecommended ⟨1, "Other", 522 / 5, 0, 6⟩ = 94 := by
    simp only [specRecommended, specReduction_other]
    norm_num
  simp only [specSavings, hrec]
  norm_num

/-- C10, as the claim states it, fails on the returned field: for one category
"Other" with average 104.40 the recommended budget is round(93.96) = 94, the
savings 10.4 pass the test `> 10`, and the record carries
potential_savings = round(10.4) = 10, which is not greater than 10. -/
theorem savings_field_counterexample :
    (smartBudgetRecommendations otherRows).recommendations.map
      Recommendation.potential_savings = [fin 10] ∧
    gt (fin 10) (fin 10) = false := by
  refine ⟨?_, by simp⟩
  have hloop : (budgetLoop otherRows).1 = [recommendationFor ⟨1, "Other", 522 / 5, 0, 6⟩] := by
    have hspec : specRecommendation ⟨1, "Other", 522 / 5, 0, 6⟩ =
        some (recommendationFor ⟨1, "Other", 522 / 5, 0, 6⟩) := by
      unfold specRecommendation
      rw [if_pos]
      rw [otherRows_savings]
      norm_num
    rw [budgetLoop_fst]
    show List.filterMap specRecommendation [⟨1, "Other", 522 / 5, 0, 6⟩] = _
    rw [List.filterMap_cons, hspec]
    rfl
  have hfield : (recommendationFor ⟨1, "Other", 522 / 5, 0, 6⟩).potential_savings = fin 10 := by
    rw [potential_savings_field, otherRows_savings]
    norm_num
  have hlen : ¬ otherRows.length = 0 := by simp [otherRows]
  simp only [smartBudgetRecommendations, if_neg hlen, hloop, arraySort]
  simp [hfield]

/-- C10 (amended): the returned recommendations are in non-increasing order
of potential_savings; each one is the record of an input category whose
unrounded savings are strictly greater than 10, and its potential_savings
field, the rounded savings, is at least 10. -/
theorem recommendations_sorted_savings (rows : List CategorySpending) :
    (smartBudgetRecommendations rows).recommendations.Sorted
      (fun a b => le b.potential_savings a.potential_savings = true) ∧
    ∀ r ∈ (smartBudgetRecommendations rows).recommendations,
      ∃ c ∈ rows, r = recommendationFor c ∧ 10 < specSavings c ∧
        r.potential_savings = fin (⌊specSavings c + 1 / 2⌋ : ℤ) ∧
        le (fin 10) r.potential_savings = true := by
  have hmem : ∀ r ∈ (budgetLoop rows).1, ∃ c ∈ rows, r = recommendationFor c ∧
      10 < specSavings c := by
    intro r hr
    rw [budgetLoop_fst, List.mem_filterMap] at hr
    obtain ⟨c, hc, hsome⟩ := hr
    unfold specRecommendation at hsome
    by_cases h : 10 < specSavings c
    · rw [if_pos h] at hsome
      exact ⟨c, hc, (Option.some.inj hsome).symm, h⟩
    · rw [if_neg h] at hsome
      cases hsome
  constructor
  · unfold smartBudgetRecommendations
    by_cases h : rows.length = 0
    · rw [if_pos h]
      exact List.sorted_nil
    · rw [if_neg h]
      refine arraySort_sorted_desc Recommendation.potential_savings _ ?_
      intro r hr
      obtain ⟨c, _, rfl, _⟩ := hmem r hr
      exact ⟨_, potential_savings_field c⟩
  · intro r hr
    have hr2 : r ∈ (budgetLoop rows).1 := by
      have := (recommendations_perm rows).mem_iff.mp hr
      rwa [← budgetLoop_fst] at this
    obtain ⟨c, hc, rfl, hsav⟩ := hmem r hr2
    refine ⟨c, hc, rfl, hsav, potential_savings_field c, ?_⟩
    rw [potential_savings_field]
    have h10 : (10 : ℤ) ≤ ⌊specSavings c + 1 / 2⌋ := by
      rw [Int.le_floor]
      push_cast
      linarith
    have : (10 : ℚ) ≤ ((⌊specSavings c + 1 / 2⌋ : ℤ) : ℚ) := by exact_mod_cast h10
    simpa using this

/-! ## Budget totals -/

theorem budgetLoop_snd (rows : List CategorySpending) :
    (budgetLoop rows).2 = fin (specTotalSavings rows) := by
  have key : ∀ (l : List CategorySpending) (acc : List Recommendation) (t : ℚ),
      (l.foldl budgetStep (acc, fin t)).2 = fin (t + specTotalSavings l) := by
    intro l
    induction l with
    | nil =>
      intro acc t
      simp [specTotalSavings]
    | cons c l ih =>
      intro acc t
      rw [List.foldl_cons, budgetStep_eq]
      by_cases h : 10 < specSavings c
      · simp only [h, if_true, fin_add_fin]
        rw [ih]
        simp [specTotalSavings, List.filter_cons, h, add_assoc]
      · simp only [h, if_false]
        rw [ih]
        simp [specTotalSavings, List.filter_cons, h]
  simpa [budgetLoop] using key rows [] 0

theorem foldl_avg_spending (rows : List CategorySpending) :
    rows.foldl (fun sum cat => sum + parseFloat cat.avg_spending) (fin 0)
      = fin (specTotalSpending rows) := by
  have key : ∀ (l : List CategorySpending) (t : ℚ),
      l.foldl (fun sum cat => sum + parseFloat cat.avg_spending) (fin t)
        = fin (t + specTotalSpending l) := by
    intro l
    induction l with
    | nil =>
      intro t
      simp [specTotalSpending]
    | cons c l ih =>
      intro t
      rw [List.foldl_cons]
      have hstep : fin t + parseFloat c.avg_spending = fin (t + c.avg_spending) := rfl
      rw [hstep, ih]
      simp [specTotalSpending, add_assoc]
  simpa using key rows 0

theorem specTotalSpending_pos {rows : List CategorySpending} (hne : rows ≠ [])
    (hpos : ∀ c ∈ rows, 0 < c.avg_spending) : 0 < specTotalSpending rows := by
  cases rows with
  | nil => exact absurd rfl hne
  | cons c l =>
    have h1 : 0 < c.avg_spending := hpos c (List.mem_cons_self c l)
    have h2 : 0 ≤ (l.map CategorySpending.avg_spending).sum := by
      apply List.sum_nonneg
      intro x hx
      obtain ⟨y, hy, rfl⟩ := List.mem_map.mp hx
      exact (hpos y (List.mem_cons_of_mem c hy)).le
    simp only [specTotalSpending, List.map_cons, List.sum_cons]
    linarith

/-- C11: for a non-empty list of category rows with positive average spending,
optimization_score = round(totalSavings / S * 100) and
total_potential_savings = round(totalSavings), where totalSavings is the sum of
the unrounded savings of the categories that get a recommendation and S is the
sum of avg_spending over all input rows. -/
theorem optimization_score_formula (rows : List CategorySpending) (hne : rows ≠ [])
    (hpos : ∀ c ∈ rows, 0 < c.avg_spending) :
    (smartBudgetRecommendations rows).optimization_score
      = fin (⌊specTotalSavings rows / specTotalSpending rows * 100 + 1 / 2⌋ : ℤ) ∧
    (smartBudgetRecommendations rows).total_potential_savings
      = fin (⌊specTotalSavings rows + 1 / 2⌋ : ℤ) := by
  have hlen : ¬ rows.length = 0 := fun h => hne (List.length_eq_zero.mp h)
  have hS := (specTotalSpending_pos hne hpos).ne'
  simp only [smartBudgetRecommendations, if_neg hlen, budgetLoop_snd, foldl_avg_spending,
    fin_div_fin_of_ne _ hS, fin_mul_fin, round_fin, and_self]

/-- C11 at one category "Other" with average 104.40: the savings 10.4 give
optimization_score = round(10.4 / 104.4 * 100) = 10 and
total_potential_savings = round(10.4) = 10. -/
theorem optimization_score_formula_witness :
    (smartBudgetRecommendations otherRows).optimization_score = fin 10 ∧
    (smartBudgetRecommendations otherRows).total_potential_savings = fin 10 := by
  have h := optimization_score_formula otherRows (by simp [otherRows])
    (by simp [otherRows])
  have hT : specTotalSavings otherRows = 52 / 5 := by
    have hf : (10 : ℚ) < specSavings ⟨1, "Other", 522 / 5, 0, 6⟩ := by
      rw [otherRows_savings]
      norm_num
    have hfilter : otherRows.filter (fun c => decide (10 < specSavings c)) = otherRows := by
      rw [List.filter_eq_self]
      intro c hc
      rw [List.mem_singleton.mp hc]
      exact decide_eq_true hf
    rw [specTotalSavings, hfilter]
    simp only [otherRows, List.map_cons, List.map_nil, List.sum_cons, List.sum_nil,
      otherRows_savings, add_zero]
  have hS : specTotalSpending otherRows = 522 / 5 := by
    simp [specTotalSpending, otherRows]
  rw [hT, hS] at h
  norm_num at h
  exact h

/-- C12: for an empty list of category rows the result is the empty list of
recommendations with total_potential_savings = 0 and optimization_score = 0;
the loop and the division by the total spending are not reached. -/
theorem budget_empty_rows :
    (smartBudgetRecommendations []).recommendations = [] ∧
    (smartBudgetRecommendations []).total_potential_savings = fin 0 ∧
    (smartBudgetRecommendations []).optimization_score = fin 0 :=
  ⟨rfl, rfl, rfl⟩

/-! ## Expense text parser: lemmas -/

theorem char_toNat_ofNat {n : Nat} (h : n < 0xD800) : (Char.ofNat n).toNat = n := by
  have hv : n.isValidChar := Or.inl h
  simp [Char.ofNat, hv, Char.toNat, Char.ofNatAux]
  rfl

/-- The running confidence of a parse is the clamped sum of the four stage
contributions. -/
theorem parseText_confidence (today : Int) (text : List Char) :
    (parseText today text).confidence =
      fin (Min.min 1 (Max.max (1 / 10)
        (amountScore (toLowerCase (trim text)) + categoryScore (toLowerCase (trim text)) +
          dateScore (toLowerCase (trim text)) +
          descriptionScore (cleanDescription (trim text)
            ((extractAmount (toLowerCase (trim text)) amountPatterns).map Prod.fst))))) := by
  have hdesc : ∀ (o : List Char) (a : Option JSNum) (c : Option String),
      (describe o a c).2 = fin (descriptionScore (cleanDescription o a)) := by
    intro o a c
    unfold describe descriptionScore
    by_cases h : 3 < jsLength (cleanDescription o a)
    · have hne : cleanDescription o a ≠ [] := by
        intro h0
        rw [h0] at h
        simp [jsLength] at h
      simp [h, hne]
    · simp [h]
  have hdate : (extractDate today (toLowerCase (trim text))).2
      = fin (dateScore (toLowerCase (trim text))) := by
    unfold extractDate dateScore
    cases saysToday (toLowerCase (trim text)) <;>
      cases saysYesterday (toLowerCase (trim text)) <;> simp
  simp only [parseText, hdesc, hdate, amountScore, categoryScore]
  cases extractAmount (toLowerCase (trim text)) amountPatterns <;>
    cases detectCategory (toLowerCase (trim text)) <;>
    simp [add_assoc]

theorem parseExpenseText_string (today : Int) (c : Char) (cs : List Char) :
    parseExpenseText today (ParserInput.string (c :: cs)) = parseText today (c :: cs) := by
  simp [parseExpenseText, ParserInput.truthy, ParserInput.isString, ParserInput.toChars]

theorem parseExpenseText_of_ne_nil (today : Int) {s : List Char} (h : s ≠ []) :
    parseExpenseText today (ParserInput.string s) = parseText today s := by
  cases s with
  | nil => exact absurd rfl h
  | cons c cs => exact parseExpenseText_string today c cs

/-! ## Expense text parser: invalid input -/

/-- C13: for every argument that is not a non-empty string (null, undefined,
a boolean, a number, an object, the empty string) the parser returns
amount null, category null, the description "Invalid input - please provide
text", currency MKD and confidence 0.1. -/
theorem parse_invalid_input (today : Int) (text : ParserInput)
    (h : ∀ s, text = ParserInput.string s → s = []) :
    (parseExpenseText today text).amount = none ∧
    (parseExpenseText today text).category = none ∧
    (parseExpenseText today text).description = "Invalid input - please provide text".toList ∧
    (parseExpenseText today text).currency = "MKD" ∧
    (parseExpenseText today text).confidence = fin (1 / 10) := by
  have hinv : parseExpenseText today text = invalidInputResult today := by
    unfold parseExpenseText
    cases text with
    | string s =>
      rw [h s rfl]
      simp [ParserInput.truthy]
    | null => simp [ParserInput.truthy]
    | undefined => simp [ParserInput.truthy]
    | boolean b => simp [ParserInput.isString]
    | number x => simp [ParserInput.isString]
    | object => simp [ParserInput.isString]
  rw [hinv]
  exact ⟨rfl, rfl, rfl, rfl, rfl⟩

/-- C13 at the number 42 and at the empty string. -/
theorem parse_invalid_input_witness :
    (parseExpenseText 0 (ParserInput.number (fin 42))).description
      = "Invalid input - please provide text".toList ∧
    (parseExpenseText 0 (ParserInput.string [])).confidence = fin (1 / 10) :=
  ⟨(parse_invalid_input 0 (ParserInput.number (fin 42))
      (fun _ h => ParserInput.noConfusion h)).2.2.1,
   (parse_invalid_input 0 (ParserInput.string [])
      (fun _ h => (ParserInput.string.inj h) ▸ rfl)).2.2.2.2⟩

/-! ## Amount extraction -/

theorem run_cls (p : Char → Bool) (s : MatchState) (k : MatchState → Option MatchState) :
    (Regex.cls p).run s k =
      match s.rest with
      | c :: cs => if p c then k ⟨some c, cs, s.capture⟩ else none
      | [] => none := by
  cases s with
  | mk prev rest capture => cases rest <;> rfl

/-- A successful match attempt ends in a state the continuation accepts, whose
input is a suffix of the input at the start; without a capture group in the
expression the capture is unchanged. -/
theorem run_some (r : Regex) :
    ∀ (s : MatchState) (k : MatchState → Option MatchState) (m : MatchState),
      r.run s k = some m →
      ∃ s2, k s2 = some m ∧ s2.rest <:+ s.rest ∧ (r.groupFree = true → s2.capture = s.capture) := by
  induction r with
  | eps =>
    intro s k m h
    exact ⟨s, h, List.suffix_refl _, fun _ => rfl⟩
  | cls p =>
    intro s k m h
    rw [run_cls] at h
    cases hs : s.rest with
    | nil => rw [hs] at h; cases h
    | cons c cs =>
      rw [hs] at h
      by_cases hp : p c = true
      · simp only [hp, if_true] at h
        exact ⟨⟨some c, cs, s.capture⟩, h, List.suffix_cons c cs, fun _ => rfl⟩
      · simp only [hp] at h
        cases h
  | seq a b iha ihb =>
    intro s k m h
    obtain ⟨s2, h2, hsuf2, hcap2⟩ := iha s _ m h
    obtain ⟨s3, h3, hsuf3, hcap3⟩ := ihb s2 k m h2
    refine ⟨s3, h3, hsuf3.trans hsuf2, ?_⟩
    intro hg
    simp only [Regex.groupFree, Bool.and_eq_true] at hg
    rw [hcap3 hg.2, hcap2 hg.1]
  | alt a b iha ihb =>
    intro s k m h
    simp only [Regex.run] at h
    cases ha : a.run s k with
    | some r =>
      rw [ha] at h
      obtain ⟨s2, h2, hsuf2, hcap2⟩ := iha s k r ha
      refine ⟨s2, by rw [h2]; exact h, hsuf2, ?_⟩
      intro hg
      simp only [Regex.groupFree, Bool.and_eq_true] at hg
      exact hcap2 hg.1
    | none =>
      rw [ha] at h
      obtain ⟨s2, h2, hsuf2, hcap2⟩ := ihb s k m h
      refine ⟨s2, h2, hsuf2, ?_⟩
      intro hg
      simp only [Regex.groupFree, Bool.and_eq_true] at hg
      exact hcap2 hg.2
  | star a iha =>
    intro s k m h
    have loop : ∀ (n : Nat) (s : MatchState) (m : MatchState),
        starLoop a.run n s k = some m →
        ∃ s2, k s2 = some m ∧ s2.rest <:+ s.rest ∧
          (a.groupFree = true → s2.capture = s.capture) := by
      intro n
      induction n with
      | zero =>
        intro s m h
        exact ⟨s, h, List.suffix_refl _, fun _ => rfl⟩
      | succ n ihn =>
        intro s m h
        simp only [starLoop] at h
        cases hm : a.run s
            (fun s2 => if s2.rest.length < s.rest.length then starLoop a.run n s2 k else none) with
        | some r =>
          rw [hm] at h
          obtain ⟨s2, h2, hsuf2, hcap2⟩ := iha s _ r hm
          by_cases hlt : s2.rest.length < s.rest.length
          · simp only [hlt, if_true] at h2
            obtain ⟨s3, h3, hsuf3, hcap3⟩ := ihn s2 r h2
            refine ⟨s3, by rw [h3]; exact h, hsuf3.trans hsuf2, ?_⟩
            intro hg
            rw [hcap3 hg, hcap2 hg]
          · simp only [hlt] at h2
            cases h2
        | none =>
          rw [hm] at h
          exact ⟨s, h, List.suffix_refl _, fun _ => rfl⟩
    exact loop _ s m h
  | group a iha =>
    intro s k m h
    obtain ⟨s2, h2, hsuf2, _⟩ := iha s _ m h
    exact ⟨_, h2, hsuf2, fun hg => by simp [Regex.groupFree] at hg⟩
  | wordB =>
    intro s k m h
    simp only [Regex.run] at h
    by_cases hb : atWordBoundary s.prev s.rest = true
    · simp only [hb, if_true] at h
      exact ⟨s, h, List.suffix_refl _, fun _ => rfl⟩
    · simp only [hb] at h
      cases h

/-- A match of the number expression starts with a digit. -/
theorem numberRegex_run_some (s : MatchState) (k : MatchState → Option MatchState)
    (m : MatchState) (h : numberRegex.run s k = some m) :
    ∃ s2, k s2 = some m ∧ (∃ c pre, s.rest = c :: (pre ++ s2.rest) ∧ isDigit c = true) ∧
      s2.capture = s.capture := by
  have h1 : (Regex.cls isDigit).run s
      (fun s1 => (Regex.seq (Regex.star (Regex.cls isDigit))
        (Regex.opt (Regex.seq (Regex.cls (fun c => c == ',' || c == '.'))
          (Regex.seq (Regex.cls isDigit) (Regex.opt (Regex.cls isDigit)))))).run s1 k)
      = some m := h
  rw [run_cls] at h1
  cases hs : s.rest with
  | nil => rw [hs] at h1; cases h1
  | cons c cs =>
    rw [hs] at h1
    by_cases hd : isDigit c = true
    · simp only [hd, if_true] at h1
      obtain ⟨s2, h2, ⟨pre, hpre⟩, hcap⟩ := run_some _ _ k m h1
      refine ⟨s2, h2, ⟨c, pre, ?_, hd⟩, hcap rfl⟩
      simp only at hpre
      rw [hpre]
    · simp only [hd] at h1
      cases h1

/-- The number expression does not match where the input does not start with
a digit. -/
theorem numberRegex_run_none (s : MatchState) (k : MatchState → Option MatchState)
    (h : ∀ c cs, s.rest = c :: cs → isDigit c = false) : numberRegex.run s k = none := by
  cases hr : numberRegex.run s k with
  | none => rfl
  | some m =>
    obtain ⟨_, _, ⟨c, pre, hs, hd⟩, _⟩ := numberRegex_run_some s k m hr
    rw [h c _ hs] at hd
    cases hd

/-- Every amount pattern is the number expression in group 1 followed by an
expression without group. -/
theorem amountPatterns_shape :
    ∀ p ∈ amountPatterns, ∃ tail : Regex, tail.groupFree = true ∧
      p.1 = Regex.seq (Regex.group numberRegex) tail ∨ p.1 = Regex.group numberRegex := by
  intro p hp
  simp only [amountPatterns, List.mem_cons, List.mem_singleton, List.not_mem_nil, or_false] at hp
  rcases hp with rfl | rfl | rfl | rfl
  · exact ⟨_, Or.inl ⟨by decide, rfl⟩⟩
  · exact ⟨_, Or.inl ⟨by decide, rfl⟩⟩
  · exact ⟨_, Or.inl ⟨by decide, rfl⟩⟩
  · exact ⟨Regex.eps, Or.inr rfl⟩

/-- A match of an amount pattern at one position has a non-empty group 1 that
starts with a digit. -/
theorem amountPattern_run_some {p : Regex × String} (hp : p ∈ amountPatterns)
    (prev : Option Char) (t : List Char) (m : MatchState)
    (h : p.1.run ⟨prev, t, none⟩ some = some m) :
    ∃ c cs, m.capture = some (c :: cs) ∧ isDigit c = true := by
  have key : ∀ (k : MatchState → Option MatchState),
      (∀ s2 m2, k s2 = some m2 → m2.capture = s2.capture) →
      (Regex.group numberRegex).run ⟨prev, t, none⟩ k = some m →
      ∃ c cs, m.capture = some (c :: cs) ∧ isDigit c = true := by
    intro k hk hrun
    obtain ⟨s2, h2, ⟨c, pre, hs, hd⟩, _⟩ := numberRegex_run_some _ _ m hrun
    have hcap := hk _ _ h2
    simp only at hs hcap
    refine ⟨c, pre, ?_, hd⟩
    rw [hcap, hs]
    congr 1
    have hlen : (c :: (pre ++ s2.rest)).length - s2.rest.length = (c :: pre).length := by
      simp only [List.length_cons, List.length_append]
      omega
    rw [hlen]
    exact @List.take_left' _ (c :: pre) _ _ rfl
  obtain ⟨tail, hshape⟩ := amountPatterns_shape p hp
  rcases hshape with ⟨hgf, hseq⟩ | hgrp
  · rw [hseq] at h
    refine key (fun s2 => tail.run s2 some) ?_ h
    intro s2 m2 h2
    obtain ⟨s3, h3, _, hcap⟩ := run_some tail s2 some m2 h2
    cases h3
    exact hcap hgf
  · rw [hgrp] at h
    exact key some (fun s2 m2 h2 => by cases h2; rfl) h

/-- A match found by `exec` with an amount pattern has a non-empty group 1. -/
theorem amountPattern_exec_some {p : Regex × String} (hp : p ∈ amountPatterns)
    (t : List Char) (m : MatchState) (h : p.1.exec t = some m) :
    ∃ c cs, m.capture = some (c :: cs) ∧ isDigit c = true := by
  have key : ∀ (t : List Char) (prev : Option Char), p.1.execFrom prev t = some m →
      ∃ c cs, m.capture = some (c :: cs) ∧ isDigit c = true := by
    intro t
    induction t with
    | nil =>
      intro prev h
      exact amountPattern_run_some hp prev [] m h
    | cons c cs ih =>
      intro prev h
      simp only [Regex.execFrom] at h
      cases hr : p.1.run ⟨prev, c :: cs, none⟩ some with
      | some m2 =>
        rw [hr] at h
        cases h
        exact amountPattern_run_some hp prev (c :: cs) m hr
      | none =>
        rw [hr] at h
        exact ih (some c) h
  exact key t none h

/-- A match found by `exec` with an amount pattern lies in the text: the text
contains a digit. -/
theorem amountPattern_exec_none {p : Regex × String} (hp : p ∈ amountPatterns)
    (t : List Char) (hno : ∀ c ∈ t, isDigit c = false) : p.1.exec t = none := by
  have hrun : ∀ (prev : Option Char) (t : List Char), (∀ c ∈ t, isDigit c = false) →
      p.1.run ⟨prev, t, none⟩ some = none := by
    intro prev t hno
    have hnum : ∀ k, numberRegex.run ⟨prev, t, none⟩ k = none := by
      intro k
      apply numberRegex_run_none
      intro c cs hs
      simp only at hs
      exact hno c (by rw [hs]; exact List.mem_cons_self c cs)
    obtain ⟨tail, hshape⟩ := amountPatterns_shape p hp
    rcases hshape with ⟨_, hseq⟩ | hgrp
    · rw [hseq]
      exact hnum _
    · rw [hgrp]
      exact hnum _
  have key : ∀ (t : List Char) (prev : Option Char), (∀ c ∈ t, isDigit c = false) →
      p.1.execFrom prev t = none := by
    intro t
    induction t with
    | nil =>
      intro prev hno
      exact hrun prev [] hno
    | cons c cs ih =>
      intro prev hno
      simp only [Regex.execFrom, hrun prev (c :: cs) hno]
      exact ih (some c) (fun d hd => hno d (List.mem_cons_of_mem c hd))
  exact key t none hno

theorem mem_of_mem_trim {x : Char} {s : List Char} (h : x ∈ trim s) : x ∈ s := by
  unfold trim at h
  rw [List.mem_reverse] at h
  have h1 := (List.dropWhile_sublist isSpace).subset h
  rw [List.mem_reverse] at h1
  exact (List.dropWhile_sublist isSpace).subset h1

/-- The lower-case mapping never produces a digit from a character that is
not one. -/
theorem isDigit_of_mem_toLowerChar {c d : Char} (h : d ∈ toLowerChar c)
    (hd : isDigit d = true) : isDigit c = true := by
  unfold toLowerChar at h
  simp only [isDigit, decide_eq_true_eq] at hd ⊢
  split_ifs at h with h1 h2 h3 h4 h5
  · rw [List.mem_singleton] at h
    rw [h, char_toNat_ofNat (by omega)] at hd
    omega
  · rw [List.mem_singleton] at h
    rw [h, char_toNat_ofNat (by omega)] at hd
    omega
  · rw [List.mem_singleton] at h
    rw [h, char_toNat_ofNat (by omega)] at hd
    omega
  · rw [List.mem_singleton] at h
    rw [h, char_toNat_ofNat (by omega)] at hd
    omega
  · simp only [List.mem_cons, List.mem_singleton, List.not_mem_nil, or_false] at h
    rcases h with h | h
    · rw [h, char_toNat_ofNat (by omega)] at hd
      omega
    · rw [h, char_toNat_ofNat (by omega)] at hd
      omega
  · rw [List.mem_singleton] at h
    rw [h] at hd
    exact hd

theorem no_digit_cleanText {text : List Char} (h : ∀ d ∈ text, isDigit d = false) :
    ∀ d ∈ toLowerCase (trim text), isDigit d = false := by
  intro d hd
  unfold toLowerCase at hd
  rw [List.mem_flatMap] at hd
  obtain ⟨c, hc, hdc⟩ := hd
  have hcd := h c (mem_of_mem_trim hc)
  cases hdig : isDigit d with
  | false => rfl
  | true =>
    rw [isDigit_of_mem_toLowerChar hdc hdig] at hcd
    cases hcd

theorem extractAmount_none (cleanText : List Char) :
    ∀ ps : List (Regex × String), (∀ p ∈ ps, p.1.exec cleanText = none) →
      extractAmount cleanText ps = none
  | [], _ => rfl
  | (regex, currency) :: ps, h => by
    have h1 : regex.exec cleanText = none := h (regex, currency) (List.mem_cons_self _ _)
    simp only [extractAmount, h1, Option.bind]
    exact extractAmount_none cleanText ps (fun p hp => h p (List.mem_cons_of_mem _ hp))

theorem extractAmount_first (cleanText : List Char) (p : Regex × String)
    (after : List (Regex × String)) (m : MatchState) (g : List Char)
    (hm : p.1.exec cleanText = some m) (hg : m.capture = some g) (hne : g ≠ []) :
    ∀ before : List (Regex × String), (∀ q ∈ before, q.1.exec cleanText = none) →
      extractAmount cleanText (before ++ p :: after)
        = some (parseFloatString (replaceFirstComma g), p.2)
  | [], _ => by
    obtain ⟨regex, currency⟩ := p
    cases g with
    | nil => exact absurd rfl hne
    | cons c cs =>
      simp only [List.nil_append, extractAmount]
      simp only at hm
      simp only [hm, Option.bind, hg]
  | (regex, currency) :: before, h => by
    have h1 : regex.exec cleanText = none := h (regex, currency) (List.mem_cons_self _ _)
    simp only [List.cons_append, extractAmount, h1, Option.bind]
    exact extractAmount_first cleanText p after m g hm hg hne before
      (fun q hq => h q (List.mem_cons_of_mem _ hq))

theorem parseText_amount (today : Int) (text : List Char) :
    (parseText today text).amount
      = (extractAmount (toLowerCase (trim text)) amountPatterns).map Prod.fst ∧
    (parseText today text).currency
      = ((extractAmount (toLowerCase (trim text)) amountPatterns).map Prod.snd).getD "MKD" := by
  refine ⟨rfl, ?_⟩
  simp only [parseText]
  generalize extractAmount (toLowerCase (trim text)) amountPatterns = found
  cases found with
  | none => rfl
  | some v => rfl

/-- C14: the four amount patterns carry the currencies MKD, EUR, USD, MKD in
this order; the first pattern that matches somewhere in the lower-cased text
fixes the amount (its group 1 read as a number) and the currency and adds 0.4
to the confidence; when no pattern matches, and so for a text without digit,
the amount is null and the currency MKD.  "I spent 500 denars on groceries
today" gives 500 MKD and "Paid 50 EUR for dinner last night" gives 50 EUR. -/
theorem amount_extraction (today : Int) (c : Char) (cs : List Char) :
    amountPatterns.map Prod.snd = ["MKD", "EUR", "USD", "MKD"] ∧
    (∀ before p after m, amountPatterns = before ++ p :: after →
      (∀ q ∈ before, q.1.exec (toLowerCase (trim (c :: cs))) = none) →
      p.1.exec (toLowerCase (trim (c :: cs))) = some m →
      ∃ g, m.capture = some g ∧
        (parseExpenseText today (ParserInput.string (c :: cs))).amount
          = some (parseFloatString (replaceFirstComma g)) ∧
        (parseExpenseText today (ParserInput.string (c :: cs))).currency = p.2 ∧
        amountScore (toLowerCase (trim (c :: cs))) = 4 / 10) ∧
    ((∀ p ∈ amountPatterns, p.1.exec (toLowerCase (trim (c :: cs))) = none) →
      (parseExpenseText today (ParserInput.string (c :: cs))).amount = none ∧
      (parseExpenseText today (ParserInput.string (c :: cs))).currency = "MKD" ∧
      amountScore (toLowerCase (trim (c :: cs))) = 0) ∧
    ((∀ d ∈ c :: cs, isDigit d = false) →
      (parseExpenseText today (ParserInput.string (c :: cs))).amount = none ∧
      (parseExpenseText today (ParserInput.string (c :: cs))).currency = "MKD") ∧
    (parseExpenseText today (ParserInput.string (c :: cs))).confidence =
      fin (Min.min 1 (Max.max (1 / 10)
        (amountScore (toLowerCase (trim (c :: cs))) + categoryScore (toLowerCase (trim (c :: cs))) +
          dateScore (toLowerCase (trim (c :: cs))) +
          descriptionScore (cleanDescription (trim (c :: cs))
            (parseExpenseText today (ParserInput.string (c :: cs))).amount)))) ∧
    (parseExpenseText today
        (ParserInput.string "I spent 500 denars on groceries today".toList)).amount
      = some (fin 500) ∧
    (parseExpenseText today
        (ParserInput.string "I spent 500 denars on groceries today".toList)).currency = "MKD" ∧
    (parseExpenseText today
        (ParserInput.string "Paid 50 EUR for dinner last night".toList)).amount
      = some (fin 50) ∧
    (parseExpenseText today
        (ParserInput.string "Paid 50 EUR for dinner last night".toList)).currency = "EUR" := by
  rw [parseExpenseText_string]
  have hnone : (∀ p ∈ amountPatterns, p.1.exec (toLowerCase (trim (c :: cs))) = none) →
      (parseText today (c :: cs)).amount = none ∧
      (parseText today (c :: cs)).currency = "MKD" ∧
      amountScore (toLowerCase (trim (c :: cs))) = 0 := by
    intro h
    have he := extractAmount_none _ amountPatterns h
    rw [(parseText_amount today _).1, (parseText_amount today _).2, amountScore, he]
    exact ⟨rfl, rfl, rfl⟩
  refine ⟨rfl, ?_, hnone, ?_, ?_, ?_⟩
  · intro before p after m hsplit hbefore hm
    have hp : p ∈ amountPatterns := by rw [hsplit]; simp
    obtain ⟨d, ds, hcap, _⟩ := amountPattern_exec_some hp _ m hm
    have he := extractAmount_first _ p after m (d :: ds) hm hcap (List.cons_ne_nil _ _)
      before hbefore
    rw [← hsplit] at he
    refine ⟨d :: ds, hcap, ?_, ?_, ?_⟩
    · rw [(parseText_amount today _).1, he]; rfl
    · rw [(parseText_amount today _).2, he]; rfl
    · rw [amountScore, he]; rfl
  · intro hno
    have h := hnone (fun p hp => amountPattern_exec_none hp _ (no_digit_cleanText hno))
    exact ⟨h.1, h.2.1⟩
  · rw [parseText_confidence, (parseText_amount today _).1]
  · have e1 : extractAmount (toLowerCase (trim "I spent 500 denars on groceries today".toList))
        amountPatterns = some (parseFloatString "500".toList, "MKD") := by decide
    have e2 : extractAmount (toLowerCase (trim "Paid 50 EUR for dinner last night".toList))
        amountPatterns = some (parseFloatString "50".toList, "EUR") := by decide
    have v1 : parseFloatString "500".toList = fin 500 := by decide
    have v2 : parseFloatString "50".toList = fin 50 := by decide
    rw [parseExpenseText_of_ne_nil today (by decide), parseExpenseText_of_ne_nil today (by decide),
      (parseText_amount today _).1,
      (parseText_amount today _).2, (parseText_amount today _).1, (parseText_amount today _).2,
      e1, e2, v1, v2]
    exact ⟨rfl, rfl, rfl, rfl⟩

/-! ## Decimal separator -/

/-- The greedy loop of `\d*` on a run of digits followed by a non-digit: when
the continuation succeeds after all the digits, so does the loop, with the
same capture. -/
theorem starLoop_digits (k : MatchState → Option MatchState) (g : List Char) (rest : List Char)
    (cap : Option (List Char)) (hrest : ∀ c cs, rest = c :: cs → isDigit c = false)
    (hk : ∀ pv, ∃ m, k ⟨pv, rest, cap⟩ = some m ∧ m.capture = some g) :
    ∀ (xs : List Char), (∀ c ∈ xs, isDigit c = true) → ∀ (n : Nat), xs.length ≤ n →
      ∀ prev, ∃ m, starLoop (Regex.cls isDigit).run n ⟨prev, xs ++ rest, cap⟩ k = some m ∧
        m.capture = some g := by
  intro xs
  induction xs with
  | nil =>
    intro _ n _ prev
    cases n with
    | zero => exact hk prev
    | succ n =>
      have hfail : (Regex.cls isDigit).run ⟨prev, rest, cap⟩
          (fun s2 => if s2.rest.length < rest.length
            then starLoop (Regex.cls isDigit).run n s2 k else none) = none := by
        rw [run_cls]
        cases hr : rest with
        | nil => rfl
        | cons c cs => simp only [hrest c cs hr]; rfl
      simp only [List.nil_append, starLoop, hfail]
      exact hk prev
  | cons x xs ih =>
    intro hx n hn prev
    cases n with
    | zero => simp at hn
    | succ n =>
      have hxd : isDigit x = true := hx x (List.mem_cons_self x xs)
      obtain ⟨m, hm, hcap⟩ := ih (fun c hc => hx c (List.mem_cons_of_mem x hc)) n
        (by simpa using hn) (some x)
      refine ⟨m, ?_, hcap⟩
      have hstep : (Regex.cls isDigit).run ⟨prev, x :: xs ++ rest, cap⟩
          (fun s2 => if s2.rest.length < (x :: xs ++ rest).length
            then starLoop (Regex.cls isDigit).run n s2 k else none) = some m := by
        rw [run_cls]
        simp only [List.cons_append, hxd, if_true, List.length_cons, Nat.lt_succ_self]
        exact hm
      simp only [starLoop, hstep]

theorem tail_den_run (pv : Option Char) (g : List Char) :
    (Regex.seq (Regex.star (Regex.cls isSpace)) (Regex.words ["den", "денари", "mkd", "denar"])).run
      ⟨pv, " den".toList, some g⟩ some = some ⟨some 'n', [], some g⟩ := by
  rfl

theorem run_cls_cons (p : Char → Bool) (prev : Option Char) (c : Char) (cs : List Char)
    (cap : Option (List Char)) (k : MatchState → Option MatchState) (h : p c = true) :
    (Regex.cls p).run ⟨prev, c :: cs, cap⟩ k = k ⟨some c, cs, cap⟩ := by
  rw [run_cls]
  simp only [h, if_true]

theorem run_cls_cons_not (p : Char → Bool) (prev : Option Char) (c : Char) (cs : List Char)
    (cap : Option (List Char)) (k : MatchState → Option MatchState) (h : p c = false) :
    (Regex.cls p).run ⟨prev, c :: cs, cap⟩ k = none := by
  rw [run_cls]
  simp only [h]
  rfl

/-- The optional fraction `(?:[,.]\d{1,2})?` on a separator and one or two
digits followed by a non-digit: the whole fraction is read. -/
theorem fraction_run (K : MatchState → Option MatchState) (M : MatchState) (pv : Option Char)
    (sep : Char) (b : List Char) (t : Char) (ts : List Char) (cap : Option (List Char))
    (hsepc : (sep == ',' || sep == '.') = true) (hb : ∀ c ∈ b, isDigit c = true)
    (hlen : b.length = 1 ∨ b.length = 2) (ht : isDigit t = false)
    (hK : ∀ pv2, K ⟨pv2, t :: ts, cap⟩ = some M) :
    (Regex.opt (Regex.seq (Regex.cls (fun c => c == ',' || c == '.'))
        (Regex.seq (Regex.cls isDigit) (Regex.opt (Regex.cls isDigit))))).run
      ⟨pv, sep :: (b ++ t :: ts), cap⟩ K = some M := by
  rcases hlen with h1 | h2
  · obtain ⟨x, rfl⟩ := List.length_eq_one.mp h1
    have hx : isDigit x = true := hb x (List.mem_singleton_self x)
    have e : (Regex.seq (Regex.cls (fun c => c == ',' || c == '.'))
        (Regex.seq (Regex.cls isDigit) (Regex.opt (Regex.cls isDigit)))).run
        ⟨pv, sep :: ([x] ++ t :: ts), cap⟩ K = some M := by
      show (Regex.cls (fun c => c == ',' || c == '.')).run ⟨pv, sep :: x :: t :: ts, cap⟩
        (fun s2 => (Regex.cls isDigit).run s2 (fun s3 => (Regex.opt (Regex.cls isDigit)).run s3 K))
        = some M
      rw [run_cls_cons _ _ _ _ _ _ hsepc, run_cls_cons _ _ _ _ _ _ hx]
      show (match (Regex.cls isDigit).run ⟨some x, t :: ts, cap⟩ K with
        | some r => some r
        | none => K ⟨some x, t :: ts, cap⟩) = some M
      rw [run_cls_cons_not _ _ _ _ _ _ ht]
      exact hK _
    show (match (Regex.seq (Regex.cls (fun c => c == ',' || c == '.'))
        (Regex.seq (Regex.cls isDigit) (Regex.opt (Regex.cls isDigit)))).run
        ⟨pv, sep :: ([x] ++ t :: ts), cap⟩ K with
      | some r => some r
      | none => K ⟨pv, sep :: ([x] ++ t :: ts), cap⟩) = some M
    rw [e]
  · obtain ⟨x, y, rfl⟩ := List.length_eq_two.mp h2
    have hx : isDigit x = true := hb x (by simp)
    have hy : isDigit y = true := hb y (by simp)
    have e : (Regex.seq (Regex.cls (fun c => c == ',' || c == '.'))
        (Regex.seq (Regex.cls isDigit) (Regex.opt (Regex.cls isDigit)))).run
        ⟨pv, sep :: ([x, y] ++ t :: ts), cap⟩ K = some M := by
      show (Regex.cls (fun c => c == ',' || c == '.')).run ⟨pv, sep :: x :: y :: t :: ts, cap⟩
        (fun s2 => (Regex.cls isDigit).run s2 (fun s3 => (Regex.opt (Regex.cls isDigit)).run s3 K))
        = some M
      rw [run_cls_cons _ _ _ _ _ _ hsepc, run_cls_cons _ _ _ _ _ _ hx]
      show (match (Regex.cls isDigit).run ⟨some x, y :: t :: ts, cap⟩ K with
        | some r => some r
        | none => K ⟨some x, y :: t :: ts, cap⟩) = some M
      rw [run_cls_cons _ _ _ _ _ _ hy, hK]
    show (match (Regex.seq (Regex.cls (fun c => c == ',' || c == '.'))
        (Regex.seq (Regex.cls isDigit) (Regex.opt (Regex.cls isDigit)))).run
        ⟨pv, sep :: ([x, y] ++ t :: ts), cap⟩ K with
      | some r => some r
      | none => K ⟨pv, sep :: ([x, y] ++ t :: ts), cap⟩) = some M
    rw [e]

/-- The first amount pattern on `a sep b den`, with digit strings `a`
(non-empty) and `b` (one or two digits) and a separator `,` or `.`: it matches
at the start and group 1 is `a sep b`. -/
theorem amountRegex_den_run (d : Char) (a b : List Char) (sep : Char) (hd : isDigit d = true)
    (ha : ∀ c ∈ a, isDigit c = true) (hb : ∀ c ∈ b, isDigit c = true)
    (hlen : b.length = 1 ∨ b.length = 2) (hsep : sep = ',' ∨ sep = '.') :
    ∃ m, (amountRegex ["den", "денари", "mkd", "denar"]).run
        ⟨none, d :: (a ++ sep :: (b ++ " den".toList)), none⟩ some = some m ∧
      m.capture = some (d :: (a ++ sep :: b)) := by
  have hsepd : isDigit sep = false := by
    rcases hsep with rfl | rfl <;> decide
  have hsepc : (sep == ',' || sep == '.') = true := by
    rcases hsep with rfl | rfl <;> decide
  have htake : (d :: (a ++ sep :: (b ++ " den".toList))).take
      ((d :: (a ++ sep :: (b ++ " den".toList))).length - " den".toList.length)
      = d :: (a ++ sep :: b) := by
    have e : d :: (a ++ sep :: (b ++ " den".toList)) = (d :: (a ++ sep :: b)) ++ " den".toList := by
      simp
    rw [e]
    apply List.take_left'
    simp
    omega
  -- what follows group 1
  obtain ⟨K, hKdef⟩ : ∃ K : MatchState → Option MatchState,
      K = fun s2 => (Regex.seq (Regex.star (Regex.cls isSpace))
            (Regex.words ["den", "денари", "mkd", "denar"])).run
          ⟨s2.prev, s2.rest,
            some ((d :: (a ++ sep :: (b ++ " den".toList))).take
              ((d :: (a ++ sep :: (b ++ " den".toList))).length - s2.rest.length))⟩ some :=
    ⟨_, rfl⟩
  have hK : ∀ pv2, K ⟨pv2, ' ' :: "den".toList, none⟩
      = some ⟨some 'n', [], some (d :: (a ++ sep :: b))⟩ := by
    intro pv2
    rw [hKdef]
    show (Regex.seq (Regex.star (Regex.cls isSpace))
            (Regex.words ["den", "денари", "mkd", "denar"])).run
          ⟨pv2, " den".toList,
            some ((d :: (a ++ sep :: (b ++ " den".toList))).take
              ((d :: (a ++ sep :: (b ++ " den".toList))).length - " den".toList.length))⟩ some
        = _
    rw [htake, tail_den_run]
  have hfrac := fun pv => fraction_run K ⟨some 'n', [], some (d :: (a ++ sep :: b))⟩ pv sep b
    ' ' "den".toList none hsepc hb hlen (by decide) hK
  obtain ⟨m, hm, hcap⟩ := starLoop_digits
    (fun s3 => (Regex.opt (Regex.seq (Regex.cls (fun c => c == ',' || c == '.'))
        (Regex.seq (Regex.cls isDigit) (Regex.opt (Regex.cls isDigit))))).run s3 K)
    (d :: (a ++ sep :: b)) (sep :: (b ++ ' ' :: "den".toList))
    none (fun c cs h => by cases h; exact hsepd)
    (fun pv => ⟨⟨some 'n', [], some (d :: (a ++ sep :: b))⟩, hfrac pv, rfl⟩) a ha
    (a ++ sep :: (b ++ ' ' :: "den".toList)).length (by simp) (some d)
  refine ⟨m, ?_, hcap⟩
  subst hKdef
  show (Regex.cls isDigit).run ⟨none, d :: (a ++ sep :: (b ++ ' ' :: "den".toList)), none⟩
    (fun s1 => (Regex.star (Regex.cls isDigit)).run s1
      (fun s3 => (Regex.opt (Regex.seq (Regex.cls (fun c => c == ',' || c == '.'))
          (Regex.seq (Regex.cls isDigit) (Regex.opt (Regex.cls isDigit))))).run s3
        (fun s2 => (Regex.seq (Regex.star (Regex.cls isSpace))
            (Regex.words ["den", "денари", "mkd", "denar"])).run
          ⟨s2.prev, s2.rest,
            some ((d :: (a ++ sep :: (b ++ " den".toList))).take
              ((d :: (a ++ sep :: (b ++ " den".toList))).length - s2.rest.length))⟩ some)))
    = some m
  rw [run_cls_cons _ _ _ _ _ _ hd]
  exact hm

theorem isSpace_of_isDigit {c : Char} (h : isDigit c = true) : isSpace c = false := by
  simp only [isDigit, decide_eq_true_eq] at h
  simp only [isSpace, decide_eq_false_iff_not]
  omega

theorem toLowerChar_of_isDigit {c : Char} (h : isDigit c = true) : toLowerChar c = [c] := by
  simp only [isDigit, decide_eq_true_eq] at h
  unfold toLowerChar
  rw [if_neg (by omega), if_neg (by omega), if_neg (by omega), if_neg (by omega),
    if_neg (by omega)]

theorem flatMap_eq_self {f : Char → List Char} :
    ∀ l : List Char, (∀ c ∈ l, f c = [c]) → l.flatMap f = l
  | [], _ => rfl
  | c :: cs, h => by
    rw [List.flatMap_cons, h c (List.mem_cons_self c cs),
      flatMap_eq_self cs (fun x hx => h x (List.mem_cons_of_mem c hx))]
    rfl

theorem trim_eq_self (c l : Char) (mid : List Char) (hc : isSpace c = false)
    (hl : isSpace l = false) : trim (c :: (mid ++ [l])) = c :: (mid ++ [l]) := by
  unfold trim
  have h1 : (c :: (mid ++ [l])).dropWhile isSpace = c :: (mid ++ [l]) :=
    List.dropWhile_cons_of_neg (by simp [hc])
  have h2 : (c :: (mid ++ [l])).reverse = l :: (mid.reverse ++ [c]) := by simp
  have h3 : (l :: (mid.reverse ++ [c])).dropWhile isSpace = l :: (mid.reverse ++ [c]) :=
    List.dropWhile_cons_of_neg (by simp [hl])
  rw [h1, h2, h3, ← h2, List.reverse_reverse]

theorem replaceFirstComma_digits (rest : List Char) :
    ∀ a : List Char, (∀ c ∈ a, isDigit c = true) →
      replaceFirstComma (a ++ rest) = a ++ replaceFirstComma rest
  | [], _ => rfl
  | c :: cs, h => by
    have hc : c ≠ ',' := by
      intro e
      have := h c (List.mem_cons_self c cs)
      rw [e] at this
      exact absurd this (by decide)
    have ih := replaceFirstComma_digits rest cs (fun x hx => h x (List.mem_cons_of_mem c hx))
    show replaceFirstComma (c :: (cs ++ rest)) = c :: (cs ++ replaceFirstComma rest)
    simp only [replaceFirstComma, if_neg hc, ih]

theorem parseFloatString_decimal (a b : List Char) (ha : a ≠ [])
    (hda : ∀ c ∈ a, isDigit c = true) (hdb : ∀ c ∈ b, isDigit c = true) :
    parseFloatString (a ++ '.' :: b) = fin (decimalValue a b) := by
  have hdot : ¬ (isDigit '.' = true) := by decide
  have ht : (a ++ '.' :: b).takeWhile isDigit = a := by
    rw [List.takeWhile_append_of_pos hda, List.takeWhile_cons_of_neg hdot, List.append_nil]
  have hdr : (a ++ '.' :: b).dropWhile isDigit = '.' :: b := by
    rw [List.dropWhile_append_of_pos hda, List.dropWhile_cons_of_neg hdot]
  have htb : b.takeWhile isDigit = b := List.takeWhile_eq_self_iff.mpr hdb
  unfold parseFloatString
  rw [hdr]
  simp only [ht, htb, decimalValue]
  rw [if_neg (fun h => ha h.1)]

/-- C15: for a non-empty digit string `a` and a digit string `b` of one or two
digits, the texts "a,b den" and "a.b den" both parse to the amount a.b, the
decimal number, with currency MKD. -/
theorem decimal_separator (today : Int) (a b : List Char) (ha : a ≠ [])
    (hda : ∀ c ∈ a, isDigit c = true) (hdb : ∀ c ∈ b, isDigit c = true)
    (hlen : b.length = 1 ∨ b.length = 2) :
    (parseExpenseText today (ParserInput.string (a ++ ',' :: (b ++ " den".toList)))).amount
      = some (fin (decimalValue a b)) ∧
    (parseExpenseText today (ParserInput.string (a ++ ',' :: (b ++ " den".toList)))).currency
      = "MKD" ∧
    (parseExpenseText today (ParserInput.string (a ++ '.' :: (b ++ " den".toList)))).amount
      = some (fin (decimalValue a b)) ∧
    (parseExpenseText today (ParserInput.string (a ++ '.' :: (b ++ " den".toList)))).currency
      = "MKD" := by
  have key : ∀ sep : Char, sep = ',' ∨ sep = '.' →
      extractAmount (toLowerCase (trim (a ++ sep :: (b ++ " den".toList)))) amountPatterns
        = some (fin (decimalValue a b), "MKD") := by
    intro sep hsep
    cases a with
    | nil => exact absurd rfl ha
    | cons d a =>
      have hd : isDigit d = true := hda d (List.mem_cons_self d a)
      have hda2 : ∀ c ∈ a, isDigit c = true := fun c hc => hda c (List.mem_cons_of_mem d hc)
      have hsepl : toLowerChar sep = [sep] := by
        rcases hsep with rfl | rfl <;> decide
      have htrim : trim (d :: a ++ sep :: (b ++ " den".toList))
          = d :: a ++ sep :: (b ++ " den".toList) := by
        have e : d :: a ++ sep :: (b ++ " den".toList)
            = d :: ((a ++ sep :: (b ++ " de".toList)) ++ ['n']) := by
          simp
        rw [e]
        exact trim_eq_self d 'n' _ (isSpace_of_isDigit hd) (by decide)
      have hlower : toLowerCase (d :: a ++ sep :: (b ++ " den".toList))
          = d :: a ++ sep :: (b ++ " den".toList) := by
        apply flatMap_eq_self
        intro c hc
        simp only [List.cons_append, List.mem_cons, List.mem_append] at hc
        rcases hc with rfl | hc | rfl | hc | hc
        · exact toLowerChar_of_isDigit hd
        · exact toLowerChar_of_isDigit (hda2 c hc)
        · exact hsepl
        · exact toLowerChar_of_isDigit (hdb c hc)
        · have : c = ' ' ∨ c = 'd' ∨ c = 'e' ∨ c = 'n' := by
            simpa using hc
          rcases this with rfl | rfl | rfl | rfl <;> decide
      obtain ⟨m, hm, hcap⟩ := amountRegex_den_run d a b sep hd hda2 hdb hlen hsep
      have hexec : (amountRegex ["den", "денари", "mkd", "denar"]).exec
          (d :: (a ++ sep :: (b ++ " den".toList))) = some m := by
        simp only [Regex.exec, Regex.execFrom, hm]
      have hrep : replaceFirstComma (d :: (a ++ sep :: b)) = (d :: a) ++ '.' :: b := by
        have h1 := replaceFirstComma_digits (sep :: b) (d :: a) hda
        have h2 : replaceFirstComma (sep :: b) = '.' :: b := by
          rcases hsep with rfl | rfl
          · rfl
          · have h3 := replaceFirstComma_digits [] b hdb
            simp only [List.append_nil] at h3
            have h4 : replaceFirstComma [] = [] := rfl
            rw [h4, List.append_nil] at h3
            simp only [replaceFirstComma, h3]
            rfl
        rw [← h2]
        exact h1
      rw [htrim, hlower]
      simp only [amountPatterns, extractAmount, List.cons_append, hexec, Option.bind, hcap, hrep]
      have hpf := parseFloatString_decimal (d :: a) b (List.cons_ne_nil d a) hda hdb
      simp only [List.cons_append] at hpf
      rw [hpf]
  have hne : ∀ sep : Char, a ++ sep :: (b ++ " den".toList) ≠ [] := by
    intro sep h
    simp at h
  rw [parseExpenseText_of_ne_nil today (hne ','), parseExpenseText_of_ne_nil today (hne '.'),
    (parseText_amount today _).1, (parseText_amount today _).2,
    (parseText_amount today _).1, (parseText_amount today _).2,
    key ',' (Or.inl rfl), key '.' (Or.inr rfl)]
  exact ⟨rfl, rfl, rfl, rfl⟩

/-- C15 at "12,5 den" and "12.5 den": both give the amount 12.5. -/
theorem decimal_separator_witness :
    (parseExpenseText 0 (ParserInput.string "12,5 den".toList)).amount = some (fin (25 / 2)) ∧
    (parseExpenseText 0 (ParserInput.string "12.5 den".toList)).amount = some (fin (25 / 2)) := by
  have h := decimal_separator 0 "12".toList "5".toList (by decide) (by decide) (by decide)
    (by decide)
  have hv : decimalValue "12".toList "5".toList = 25 / 2 := by
    simp [decimalValue, digitsValue]
    norm_num
  rw [hv] at h
  exact ⟨h.1, h.2.2.1⟩

/-! ## Category detection -/

theorem bestMatchOf_append (cleanText : List Char) (table : List (String × List String))
    (e : String × List String) :
    bestMatchOf cleanText (table ++ [e])
      = bestMatchStep cleanText (bestMatchOf cleanText table) e := by
  simp [bestMatchOf, List.foldl_append]

/-- The loop of the category detection keeps the first entry with the largest
keyword count, if that count is positive. -/
theorem bestMatchOf_spec (cleanText : List Char) :
    ∀ table : List (String × List String),
      (bestMatchOf cleanText table = (none, 0) ∧
        ∀ e ∈ table, matchCount cleanText e.2 = 0) ∨
      (∃ before e after, table = before ++ e :: after ∧
        bestMatchOf cleanText table = (some e.1, matchCount cleanText e.2) ∧
        0 < matchCount cleanText e.2 ∧
        (∀ x ∈ before, matchCount cleanText x.2 < matchCount cleanText e.2) ∧
        (∀ x ∈ after, matchCount cleanText x.2 ≤ matchCount cleanText e.2)) := by
  intro table
  induction table using List.reverseRecOn with
  | nil => exact Or.inl ⟨rfl, fun e he => absurd he (List.not_mem_nil e)⟩
  | append_singleton table last ih =>
    rw [bestMatchOf_append]
    rcases ih with ⟨hnone, hall⟩ | ⟨before, e, after, hsplit, hbest, hpos, hbefore, hafter⟩
    · rw [hnone]
      by_cases hlast : matchCount cleanText last.2 > 0
      · right
        refine ⟨table, last, [], rfl, ?_, hlast, ?_, fun x hx => absurd hx (List.not_mem_nil x)⟩
        · simp only [bestMatchStep, hlast, if_true]
        · intro x hx
          rw [hall x hx]
          exact hlast
      · left
        refine ⟨by simp only [bestMatchStep, hlast, if_false], ?_⟩
        intro x hx
        rcases List.mem_append.mp hx with hx | hx
        · exact hall x hx
        · rw [List.mem_singleton.mp hx]
          omega
    · rw [hbest]
      right
      by_cases hlast : matchCount cleanText last.2 > matchCount cleanText e.2
      · refine ⟨table, last, [], rfl, ?_, by omega, ?_,
          fun x hx => absurd hx (List.not_mem_nil x)⟩
        · simp only [bestMatchStep, hlast, if_true]
        · intro x hx
          rw [hsplit] at hx
          rcases List.mem_append.mp hx with hx | hx
          · exact lt_trans (hbefore x hx) hlast
          · rcases List.mem_cons.mp hx with hx | hx
            · rw [hx]; exact hlast
            · exact lt_of_le_of_lt (hafter x hx) hlast
      · refine ⟨before, e, after ++ [last], by rw [hsplit]; simp, ?_, hpos, hbefore, ?_⟩
        · simp only [bestMatchStep, hlast, if_false]
        · intro x hx
          rcases List.mem_append.mp hx with hx | hx
          · exact hafter x hx
          · rw [List.mem_singleton.mp hx]
            omega

/-- The keyword count is the number of keywords that occur in the text. -/
theorem matchCount_eq (cleanText : List Char) (keywords : List String) :
    matchCount cleanText keywords
      = (keywords.filter (fun k => includes cleanText k.toList)).length := by
  have key : ∀ (l : List String) (n : Nat),
      l.foldl (fun count keyword => if includes cleanText keyword.toList then count + 1
        else count) n = n + (l.filter (fun k => includes cleanText k.toList)).length := by
    intro l
    induction l with
    | nil => intro n; rfl
    | cons k l ih =>
      intro n
      rw [List.foldl_cons, ih, List.filter_cons]
      by_cases h : includes cleanText k.toList = true
      · simp only [h, if_true, List.length_cons]
        omega
      · simp only [h]
        rfl
  simpa [matchCount] using key keywords 0

/-- The test `includes` is the substring relation. -/
theorem includes_iff (s k : List Char) : includes s k = true ↔ k <:+: s := by
  unfold includes
  rw [List.any_eq_true]
  constructor
  · rintro ⟨t, ht, hp⟩
    have hsuf : t <:+ s := (List.mem_tails t s).mp ht
    have hpre : k <+: t := List.isPrefixOf_iff_prefix.mp hp
    obtain ⟨a, ha⟩ := hsuf
    obtain ⟨b, hb⟩ := hpre
    exact ⟨a, b, by rw [← ha, ← hb, List.append_assoc]⟩
  · rintro ⟨a, b, h⟩
    refine ⟨k ++ b, (List.mem_tails _ s).mpr ⟨a, by rw [← h, List.append_assoc]⟩, ?_⟩
    exact List.isPrefixOf_iff_prefix.mpr ⟨b, rfl⟩

theorem detectCategory_eq (cleanText : List Char) :
    detectCategory cleanText = (bestMatchOf cleanText categoryKeywords).1 := by
  unfold detectCategory
  rcases bestMatchOf_spec cleanText categoryKeywords with
    ⟨hnone, _⟩ | ⟨before, e, after, hsplit, hbest, _, _, _⟩
  · rw [hnone]
  · rw [hbest]
    have hmem : e ∈ categoryKeywords := by rw [hsplit]; simp
    have hne : ∀ x ∈ categoryKeywords, x.1.toList ≠ [] := by decide
    simp only [hne e hmem, if_false]

theorem parseText_category (today : Int) (text : List Char) :
    (parseText today text).category = detectCategory (toLowerCase (trim text)) := rfl

theorem matchCount_eq_zero_iff (cleanText : List Char) (keywords : List String) :
    matchCount cleanText keywords = 0 ↔ ∀ k ∈ keywords, ¬ (k.toList <:+: cleanText) := by
  rw [matchCount_eq, List.length_eq_zero, List.filter_eq_nil_iff]
  constructor
  · intro h k hk hin
    exact h k hk ((includes_iff _ _).mpr hin)
  · intro h k hk hin
    exact h k hk ((includes_iff _ _).mp hin)

/-- C16: the category of a parse is the entry of the keyword table with the
largest number of keywords occurring as substrings of the lower-cased text,
the earliest such entry on equal counts (table order Food & Dining,
Transportation, Shopping, Entertainment, Bills & Utilities, Healthcare); it is
null exactly when no keyword occurs, and a non-null category adds 0.3 to the
confidence.  "Paid 50 EUR for dinner last night" gives "Food & Dining". -/
theorem category_detection (today : Int) (c : Char) (cs : List Char) :
    categoryKeywords.map Prod.fst = ["Food & Dining", "Transportation", "Shopping",
      "Entertainment", "Bills & Utilities", "Healthcare"] ∧
    (∀ keywords, matchCount (toLowerCase (trim (c :: cs))) keywords
      = (keywords.filter (fun k => includes (toLowerCase (trim (c :: cs))) k.toList)).length) ∧
    (∀ k, includes (toLowerCase (trim (c :: cs))) k = true ↔ k <:+: toLowerCase (trim (c :: cs))) ∧
    ((parseExpenseText today (ParserInput.string (c :: cs))).category = none ↔
      ∀ e ∈ categoryKeywords, ∀ k ∈ e.2, ¬ (k.toList <:+: toLowerCase (trim (c :: cs)))) ∧
    (∀ name, (parseExpenseText today (ParserInput.string (c :: cs))).category = some name →
      ∃ before e after, categoryKeywords = before ++ e :: after ∧ e.1 = name ∧
        0 < matchCount (toLowerCase (trim (c :: cs))) e.2 ∧
        (∀ x ∈ before, matchCount (toLowerCase (trim (c :: cs))) x.2
          < matchCount (toLowerCase (trim (c :: cs))) e.2) ∧
        (∀ x ∈ after, matchCount (toLowerCase (trim (c :: cs))) x.2
          ≤ matchCount (toLowerCase (trim (c :: cs))) e.2)) ∧
    (categoryScore (toLowerCase (trim (c :: cs))) =
      if (parseExpenseText today (ParserInput.string (c :: cs))).category = none then 0
      else 3 / 10) ∧
    (parseExpenseText today (ParserInput.string (c :: cs))).confidence =
      fin (Min.min 1 (Max.max (1 / 10)
        (amountScore (toLowerCase (trim (c :: cs))) + categoryScore (toLowerCase (trim (c :: cs))) +
          dateScore (toLowerCase (trim (c :: cs))) +
          descriptionScore (cleanDescription (trim (c :: cs))
            (parseExpenseText today (ParserInput.string (c :: cs))).amount)))) ∧
    (parseExpenseText today
        (ParserInput.string "Paid 50 EUR for dinner last night".toList)).category
      = some "Food & Dining" := by
  rw [parseExpenseText_string, parseText_category, detectCategory_eq]
  refine ⟨rfl, matchCount_eq _, includes_iff _, ?_, ?_, ?_, ?_, ?_⟩
  · rcases bestMatchOf_spec (toLowerCase (trim (c :: cs))) categoryKeywords with
      ⟨hnone, hall⟩ | ⟨before, e, after, hsplit, hbest, hpos, _, _⟩
    · rw [hnone]
      refine ⟨fun _ e he => (matchCount_eq_zero_iff _ _).mp (hall e he), fun _ => rfl⟩
    · rw [hbest]
      constructor
      · intro h
        cases h
      · intro h
        have hmem : e ∈ categoryKeywords := by rw [hsplit]; simp
        have := (matchCount_eq_zero_iff _ _).mpr (h e hmem)
        omega
  · intro name hname
    rcases bestMatchOf_spec (toLowerCase (trim (c :: cs))) categoryKeywords with
      ⟨hnone, _⟩ | ⟨before, e, after, hsplit, hbest, hpos, hbefore, hafter⟩
    · rw [hnone] at hname
      cases hname
    · rw [hbest] at hname
      exact ⟨before, e, after, hsplit, Option.some.inj hname, hpos, hbefore, hafter⟩
  · unfold categoryScore
    rw [detectCategory_eq]
    cases (bestMatchOf (toLowerCase (trim (c :: cs))) categoryKeywords).1 <;> simp
  · rw [parseText_confidence, (parseText_amount today _).1]
  · rw [parseExpenseText_of_ne_nil today (by decide), parseText_category]
    decide

/-! ## Date and description -/

theorem parseText_date (today : Int) (text : List Char) :
    (parseText today text).date = (extractDate today (toLowerCase (trim text))).1 := rfl

theorem parseText_description (today : Int) (text : List Char) :
    (parseText today text).description
      = (describe (trim text) ((extractAmount (toLowerCase (trim text)) amountPatterns).map Prod.fst)
          (bestMatchOf (toLowerCase (trim text)) categoryKeywords).1).1 := rfl

/-- C17: if the lower-cased text contains "today" or "денес" the date is the
current day (+0.15); otherwise, if it contains "yesterday", "вчера" or
"last night", it is the day before (+0.15); otherwise it is the current day
(+0.05).  The date is a day in every case. -/
theorem date_extraction (today : Int) (c : Char) (cs : List Char) :
    (saysToday (toLowerCase (trim (c :: cs))) = true ↔
      "today".toList <:+: toLowerCase (trim (c :: cs)) ∨
      "денес".toList <:+: toLowerCase (trim (c :: cs))) ∧
    (saysYesterday (toLowerCase (trim (c :: cs))) = true ↔
      "yesterday".toList <:+: toLowerCase (trim (c :: cs)) ∨
      "вчера".toList <:+: toLowerCase (trim (c :: cs)) ∨
      "last night".toList <:+: toLowerCase (trim (c :: cs))) ∧
    (saysToday (toLowerCase (trim (c :: cs))) = true →
      (parseExpenseText today (ParserInput.string (c :: cs))).date = today ∧
      dateScore (toLowerCase (trim (c :: cs))) = 15 / 100) ∧
    (saysToday (toLowerCase (trim (c :: cs))) = false →
      saysYesterday (toLowerCase (trim (c :: cs))) = true →
      (parseExpenseText today (ParserInput.string (c :: cs))).date = today - 1 ∧
      dateScore (toLowerCase (trim (c :: cs))) = 15 / 100) ∧
    (saysToday (toLowerCase (trim (c :: cs))) = false →
      saysYesterday (toLowerCase (trim (c :: cs))) = false →
      (parseExpenseText today (ParserInput.string (c :: cs))).date = today ∧
      dateScore (toLowerCase (trim (c :: cs))) = 5 / 100) ∧
    (parseExpenseText today (ParserInput.string (c :: cs))).confidence =
      fin (Min.min 1 (Max.max (1 / 10)
        (amountScore (toLowerCase (trim (c :: cs))) + categoryScore (toLowerCase (trim (c :: cs))) +
          dateScore (toLowerCase (trim (c :: cs))) +
          descriptionScore (cleanDescription (trim (c :: cs))
            (parseExpenseText today (ParserInput.string (c :: cs))).amount)))) := by
  rw [parseExpenseText_string, parseText_date]
  refine ⟨?_, ?_, ?_, ?_, ?_, ?_⟩
  · simp only [saysToday, Bool.or_eq_true, includes_iff]
  · simp only [saysYesterday, Bool.or_eq_true, includes_iff, or_assoc]
  · intro h
    simp [extractDate, dateScore, h]
  · intro h1 h2
    simp [extractDate, dateScore, h1, h2]
  · intro h1 h2
    simp [extractDate, dateScore, h1, h2]
  · rw [parseText_confidence, (parseText_amount today _).1]

/-- C18: the cleanup removes amounts with its own expression, which knows
only the suffixes den, денари, mkd, eur, usd, $ and €.  For "Taxi 50 евра" the
amount 50 EUR is extracted and the description is still "Taxi 50 евра"; for
"Lunch 20 denar" the description is "Lunch ar"; for "coffee 500", a bare
number, it is "Coffee 500"; and for "I spent 500 denars on groceries today",
the first example text of the client, it is "I  ars  groceries". -/
theorem amount_left_in_description :
    (parseExpenseText 0
        (ParserInput.string "I spent 500 denars on groceries today".toList)).description
      = "I  ars  groceries".toList ∧
    (parseExpenseText 0 (ParserInput.string "Taxi 50 евра".toList)).amount = some (fin 50) ∧
    (parseExpenseText 0 (ParserInput.string "Taxi 50 евра".toList)).currency = "EUR" ∧
    (parseExpenseText 0 (ParserInput.string "Taxi 50 евра".toList)).description
      = "Taxi 50 евра".toList ∧
    (parseExpenseText 0 (ParserInput.string "Lunch 20 denar".toList)).amount = some (fin 20) ∧
    (parseExpenseText 0 (ParserInput.string "Lunch 20 denar".toList)).description
      = "Lunch ar".toList ∧
    (parseExpenseText 0 (ParserInput.string "coffee 500".toList)).amount = some (fin 500) ∧
    (parseExpenseText 0 (ParserInput.string "coffee 500".toList)).description
      = "Coffee 500".toList := by
  decide

/-- C19: `\b` separates ASCII word characters from all others, so between a
Cyrillic letter and a space there is no word boundary and the Macedonian filler
words are not removed: "Купив кафе за 100 денари" keeps "Купив" and "за" and
gets the description "Купив кафе за".  The English filler words are removed:
"Paid 50 EUR for dinner last night" gets "Dinner". -/
theorem cyrillic_fillers_kept :
    (parseExpenseText 0 (ParserInput.string "Купив кафе за 100 денари".toList)).description
      = "Купив кафе за".toList ∧
    fillerRegex1.removeAll "Купив кафе денес".toList = "Купив кафе денес".toList ∧
    fillerRegex2.removeAll "кафе за дома".toList = "кафе за дома".toList ∧
    (parseExpenseText 0 (ParserInput.string "Paid 50 EUR for dinner last night".toList)).description
      = "Dinner".toList := by
  decide

/-- C20: when the cleaned description has length at most 3 the description is
the category followed by " expense", or "Expense" without category, and 0.1 is
added to the confidence; when it is longer than 3 the description is the
cleaned text with its first character in upper case and 0.25 is added. -/
theorem description_fallback (today : Int) (c : Char) (cs : List Char) :
    (jsLength (cleanDescription (trim (c :: cs))
        (parseExpenseText today (ParserInput.string (c :: cs))).amount) ≤ 3 →
      (parseExpenseText today (ParserInput.string (c :: cs))).description =
        (match (parseExpenseText today (ParserInput.string (c :: cs))).category with
          | some category => category.toList ++ " expense".toList
          | none => "Expense".toList) ∧
      descriptionScore (cleanDescription (trim (c :: cs))
        (parseExpenseText today (ParserInput.string (c :: cs))).amount) = 1 / 10) ∧
    (3 < jsLength (cleanDescription (trim (c :: cs))
        (parseExpenseText today (ParserInput.string (c :: cs))).amount) →
      (parseExpenseText today (ParserInput.string (c :: cs))).description =
        capitalize (cleanDescription (trim (c :: cs))
          (parseExpenseText today (ParserInput.string (c :: cs))).amount) ∧
      descriptionScore (cleanDescription (trim (c :: cs))
        (parseExpenseText today (ParserInput.string (c :: cs))).amount) = 25 / 100) ∧
    (parseExpenseText today (ParserInput.string (c :: cs))).confidence =
      fin (Min.min 1 (Max.max (1 / 10)
        (amountScore (toLowerCase (trim (c :: cs))) + categoryScore (toLowerCase (trim (c :: cs))) +
          dateScore (toLowerCase (trim (c :: cs))) +
          descriptionScore (cleanDescription (trim (c :: cs))
            (parseExpenseText today (ParserInput.string (c :: cs))).amount)))) := by
  rw [parseExpenseText_string, parseText_description, parseText_category, detectCategory_eq,
    (parseText_amount today _).1]
  refine ⟨?_, ?_, ?_⟩
  · intro h
    have h3 : ¬ 3 < jsLength (cleanDescription (trim (c :: cs))
        ((extractAmount (toLowerCase (trim (c :: cs))) amountPatterns).map Prod.fst)) := by omega
    constructor
    · simp only [describe, h3, gt_iff_lt, and_false, if_false, fallbackDescription]
    · simp only [descriptionScore, h3, if_false]
      norm_num
  · intro h
    have hne : cleanDescription (trim (c :: cs))
        ((extractAmount (toLowerCase (trim (c :: cs))) amountPatterns).map Prod.fst) ≠ [] := by
      intro h0
      rw [h0] at h
      simp [jsLength] at h
    constructor
    · simp only [describe, h, hne, gt_iff_lt, ne_eq, not_false_eq_true, and_self, if_true]
    · simp only [descriptionScore, h, if_true]
  · rw [parseText_confidence]

/-- C17 at "Paid 50 EUR for dinner last night" on day 100: the text has no
word for today and has "last night", so the date is day 99. -/
theorem date_extraction_witness :
    saysToday (toLowerCase (trim ('P' :: "aid 50 EUR for dinner last night".toList))) = false ∧
    saysYesterday (toLowerCase (trim ('P' :: "aid 50 EUR for dinner last night".toList))) = true ∧
    (parseExpenseText 100
      (ParserInput.string ('P' :: "aid 50 EUR for dinner last night".toList))).date = 100 - 1 :=
  ⟨by decide, by decide,
   ((date_extraction 100 'P' "aid 50 EUR for dinner last night".toList).2.2.2.1
      (by decide) (by decide)).1⟩

/-- C20 at "500 den", whose cleaned description is empty and which has no
category: the description is "Expense". -/
theorem description_fallback_witness :
    jsLength (cleanDescription (trim ('5' :: "00 den".toList))
      (parseExpenseText 0 (ParserInput.string ('5' :: "00 den".toList))).amount) ≤ 3 ∧
    (parseExpenseText 0 (ParserInput.string ('5' :: "00 den".toList))).description =
      (match (parseExpenseText 0 (ParserInput.string ('5' :: "00 den".toList))).category with
        | some category => category.toList ++ " expense".toList
        | none => "Expense".toList) :=
  ⟨by decide,
   ((description_fallback 0 '5' "00 den".toList).1 (by decide)).1⟩

/-! ## Spending prediction: forecast, trend, confidence -/

theorem weeklyTotals_length (rows : List WeeklyRow) :
    (weeklyTotals rows).length = rows.length := by
  simp [weeklyTotals]

theorem firstHalf_ne_nil {w : List ℚ} (h : 4 ≤ w.length) : firstHalf w ≠ [] := by
  intro h0
  have hlen : (firstHalf w).length = w.length / 2 := by
    simp only [firstHalf, List.length_take]
    omega
  rw [h0] at hlen
  simp only [List.length_nil] at hlen
  omega

theorem secondHalf_ne_nil {w : List ℚ} (h : 4 ≤ w.length) : secondHalf w ≠ [] := by
  intro h0
  have hlen : (secondHalf w).length = w.length - w.length / 2 := by
    simp only [secondHalf, List.length_drop]
  rw [h0] at hlen
  simp only [List.length_nil] at hlen
  omega

theorem avgRecentQ_eq_mean {w : List ℚ} (h : 4 ≤ w.length) :
    avgRecentQ w = mean (w.drop (w.length - 4)) := by
  have hlen : (w.drop (w.length - 4)).length = 4 := by
    rw [List.length_drop]
    omega
  simp [avgRecentQ, mean, hlen]

/-- C23: with at least four weekly rows the model is "statistical_analysis",
data_points is the number of rows, and predicted_amount is the mean of the
last four weekly totals times 4.33, rounded to 2 decimals; two inputs with the
same last four totals get the same predicted_amount. -/
theorem prediction_forecast (rows : List WeeklyRow) (h : 4 ≤ rows.length) :
    (advancedSpendingPrediction rows).model_used = "statistical_analysis" ∧
    (advancedSpendingPrediction rows).data_points = some rows.length ∧
    ((weeklyTotals rows).drop (rows.length - 4)).length = 4 ∧
    (advancedSpendingPrediction rows).predicted_amount
      = fin ((⌊mean ((weeklyTotals rows).drop (rows.length - 4)) * (433 / 100) * 100
          + 1 / 2⌋ : ℤ) / 100) ∧
    ∀ rows2 : List WeeklyRow, 4 ≤ rows2.length →
      (weeklyTotals rows2).drop (rows2.length - 4) = (weeklyTotals rows).drop (rows.length - 4) →
      (advancedSpendingPrediction rows2).predicted_amount
        = (advancedSpendingPrediction rows).predicted_amount := by
  have hpred : ∀ r : List WeeklyRow, 4 ≤ r.length →
      (advancedSpendingPrediction r).predicted_amount
        = fin ((⌊mean ((weeklyTotals r).drop (r.length - 4)) * (433 / 100) * 100
            + 1 / 2⌋ : ℤ) / 100) := by
    intro r hr
    have hw : 4 ≤ (weeklyTotals r).length := by rw [weeklyTotals_length]; exact hr
    rw [(prediction_statistical r hr).2.1, avgRecentQ_eq_mean hw, weeklyTotals_length,
      round2_fin]
  have hlt : ¬ rows.length < 4 := by omega
  refine ⟨(prediction_statistical rows h).1, ?_, ?_, hpred rows h, ?_⟩
  · simp only [advancedSpendingPrediction, if_neg hlt, List.length_map]
  · rw [List.length_drop, weeklyTotals_length]
    omega
  · intro rows2 h2 hsame
    rw [hpred rows2 h2, hpred rows h, hsame]

theorem mean_map_mul (k : ℚ) (l : List ℚ) : mean (l.map (fun x => k * x)) = k * mean l := by
  have hsum : (l.map (fun x => k * x)).sum = k * l.sum := by
    induction l with
    | nil => simp
    | cons a l ih => simp [ih, mul_add]
  simp only [mean, List.length_map, hsum]
  ring

theorem specTrend_scale (k : ℚ) (hk : 0 < k) (w : List ℚ) :
    specTrend (w.map (fun x => k * x)) = specTrend w := by
  have h1 : firstHalf (w.map (fun x => k * x)) = (firstHalf w).map (fun x => k * x) := by
    simp only [firstHalf, List.length_map, List.map_take]
  have h2 : secondHalf (w.map (fun x => k * x)) = (secondHalf w).map (fun x => k * x) := by
    simp only [secondHalf, List.length_map, List.map_drop]
  have hinc : 11 / 10 * (k * mean (firstHalf w)) < k * mean (secondHalf w) ↔
      11 / 10 * mean (firstHalf w) < mean (secondHalf w) := by
    rw [mul_left_comm, mul_lt_mul_left hk]
  have hdec : k * mean (secondHalf w) < 9 / 10 * (k * mean (firstHalf w)) ↔
      mean (secondHalf w) < 9 / 10 * mean (firstHalf w) := by
    rw [mul_left_comm, mul_lt_mul_left hk]
  simp only [specTrend, h1, h2, mean_map_mul, hinc, hdec]

theorem weeklyTotals_scaleRows (k : ℚ) (rows : List WeeklyRow) :
    weeklyTotals (scaleRows k rows) = (weeklyTotals rows).map (fun x => k * x) := by
  simp [weeklyTotals, scaleRows, List.map_map, Function.comp_def]

/-- The square root of the embedding is the square root cut off below: its
square is at most the argument. -/
theorem sqrtQ_sq_le {q : ℚ} (hq : 0 ≤ q) : sqrtQ q ^ 2 ≤ q := by
  have hnum : 0 ≤ q.num := Rat.num_nonneg.mpr hq
  have hden : (0 : ℚ) < (q.den : ℚ) := by exact_mod_cast q.den_pos
  have hcast : ((q.num.toNat : ℕ) : ℚ) = (q.num : ℚ) := by
    have : ((q.num.toNat : ℕ) : ℤ) = q.num := Int.toNat_of_nonneg hnum
    exact_mod_cast this
  have hs : Nat.sqrt (q.num.toNat * q.den * 10 ^ 32) * Nat.sqrt (q.num.toNat * q.den * 10 ^ 32)
      ≤ q.num.toNat * q.den * 10 ^ 32 := Nat.sqrt_le _
  have hsq : ((Nat.sqrt (q.num.toNat * q.den * 10 ^ 32) : ℕ) : ℚ) ^ 2
      ≤ (q.num : ℚ) * q.den * 10 ^ 32 := by
    rw [← hcast, sq]
    exact_mod_cast hs
  have hq2 : q = (q.num : ℚ) / q.den := (Rat.num_div_den q).symm
  unfold sqrtQ
  rw [div_pow, div_le_iff₀ (by positivity)]
  calc ((Nat.sqrt (q.num.toNat * q.den * 10 ^ 32) : ℕ) : ℚ) ^ 2
      ≤ (q.num : ℚ) * q.den * 10 ^ 32 := hsq
    _ = (q.num : ℚ) / q.den * ((q.den : ℚ) * 10 ^ 16) ^ 2 := by
        field_simp
        ring
    _ = q * ((q.den : ℚ) * 10 ^ 16) ^ 2 := by rw [← hq2]

/-- C26: with at least four weekly totals whose last four have a positive
mean avgRecent, and V the mean over all n totals of the squared deviation
from avgRecent, confidence_score is clamp(1 − sqrt(V)/avgRecent, 0.3, 0.9)
rounded to 2 decimals and volatility_score is sqrt(V)/avgRecent rounded to 2
decimals, a non-negative number. -/
theorem confidence_volatility_formula (rows : List WeeklyRow) (h : 4 ≤ rows.length)
    (havg : 0 < avgRecentQ (weeklyTotals rows)) :
    avgRecentQ (weeklyTotals rows) = mean ((weeklyTotals rows).drop (rows.length - 4)) ∧
    varianceQ (weeklyTotals rows)
      = ((weeklyTotals rows).map (fun x => (x - avgRecentQ (weeklyTotals rows)) ^ 2)).sum
          / rows.length ∧
    sqrtQ (varianceQ (weeklyTotals rows)) ^ 2 ≤ varianceQ (weeklyTotals rows) ∧
    (advancedSpendingPrediction rows).confidence_score
      = fin ((⌊Max.max (3 / 10) (Min.min (9 / 10)
          (1 - sqrtQ (varianceQ (weeklyTotals rows)) / avgRecentQ (weeklyTotals rows))) * 100
          + 1 / 2⌋ : ℤ) / 100) ∧
    ∃ v : ℚ, (advancedSpendingPrediction rows).volatility_score = some (fin v) ∧
      v = (⌊sqrtQ (varianceQ (weeklyTotals rows)) / avgRecentQ (weeklyTotals rows) * 100
          + 1 / 2⌋ : ℤ) / 100 ∧ 0 ≤ v := by
  have hw : 4 ≤ (weeklyTotals rows).length := by rw [weeklyTotals_length]; exact h
  have hne := havg.ne'
  refine ⟨?_, ?_, sqrtQ_sq_le (varianceQ_nonneg _), ?_, ?_⟩
  · rw [avgRecentQ_eq_mean hw, weeklyTotals_length]
  · rw [varianceQ, weeklyTotals_length]
  · rw [(prediction_statistical rows h).2.2.1, fin_div_fin_of_ne _ hne, fin_sub_fin, min_fin_fin,
      max_fin_fin, round2_fin]
  · refine ⟨_, ?_, rfl, ?_⟩
    · rw [(prediction_statistical rows h).2.2.2, fin_div_fin_of_ne _ hne, round2_fin]
    · have hratio : 0 ≤ sqrtQ (varianceQ (weeklyTotals rows)) / avgRecentQ (weeklyTotals rows) :=
        div_nonneg (sqrtQ_nonneg _) havg.le
      have hfloor : (0 : ℤ) ≤ ⌊sqrtQ (varianceQ (weeklyTotals rows))
          / avgRecentQ (weeklyTotals rows) * 100 + 1 / 2⌋ := by
        rw [Int.le_floor]
        push_cast
        linarith
      have hq : (0 : ℚ) ≤ ((⌊sqrtQ (varianceQ (weeklyTotals rows))
          / avgRecentQ (weeklyTotals rows) * 100 + 1 / 2⌋ : ℤ) : ℚ) := by exact_mod_cast hfloor
      positivity

theorem fiveWeeks_totals : weeklyTotals fiveWeeks = [1000, 100, 200, 300, 400] := rfl

theorem fiveWeeks_avgRecent : avgRecentQ (weeklyTotals fiveWeeks) = 250 := by
  rw [fiveWeeks_totals]
  norm_num [avgRecentQ]

theorem fiveWeeks_variance : varianceQ (weeklyTotals fiveWeeks) = 122500 := by
  rw [varianceQ, fiveWeeks_avgRecent, fiveWeeks_totals]
  norm_num

theorem sqrtQ_122500 : sqrtQ 122500 = 350 := by
  have hnum : (122500 : ℚ).num.toNat = 122500 := by
    have hn : (122500 : ℚ).num = 122500 := by norm_num
    rw [hn]
    rfl
  have hden : (122500 : ℚ).den = 1 := by norm_num
  have hsq : 122500 * 1 * 10 ^ 32 = (350 * 10 ^ 16) * (350 * 10 ^ 16) := by norm_num
  rw [sqrtQ, hnum, hden, hsq, Nat.sqrt_eq]
  norm_num

/-- C23 at five weeks with the totals 1000, 100, 200, 300, 400: the mean of
the last four is 250 and the forecast 250 × 4.33 = 1082.5; with 0 in place of
the first total the forecast is the same. -/
theorem prediction_forecast_witness :
    (advancedSpendingPrediction fiveWeeks).data_points = some 5 ∧
    (advancedSpendingPrediction fiveWeeks).predicted_amount = fin (2165 / 2) ∧
    (advancedSpendingPrediction fiveWeeksLowStart).predicted_amount
      = (advancedSpendingPrediction fiveWeeks).predicted_amount := by
  have h := prediction_forecast fiveWeeks (by decide)
  refine ⟨h.2.1, ?_, h.2.2.2.2 fiveWeeksLowStart (by decide) rfl⟩
  rw [h.2.2.2.1, fiveWeeks_totals]
  norm_num [mean, fiveWeeks]

/-- C26 at the same five weeks: avgRecent is 250, V is 122500 with square
root 350, so the volatility is 1.4 and the confidence the lower bound 0.3. -/
theorem confidence_volatility_formula_witness :
    avgRecentQ (weeklyTotals fiveWeeks) = 250 ∧
    varianceQ (weeklyTotals fiveWeeks) = 122500 ∧
    (advancedSpendingPrediction fiveWeeks).confidence_score = fin (3 / 10) ∧
    (advancedSpendingPrediction fiveWeeks).volatility_score = some (fin (7 / 5)) := by
  have h := confidence_volatility_formula fiveWeeks (by decide)
    (by rw [fiveWeeks_avgRecent]; norm_num)
  refine ⟨fiveWeeks_avgRecent, fiveWeeks_variance, ?_, ?_⟩
  · rw [h.2.2.2.1, fiveWeeks_variance, fiveWeeks_avgRecent, sqrtQ_122500]
    norm_num
  · obtain ⟨v, hv, hveq, _⟩ := h.2.2.2.2
    rw [hv, hveq, fiveWeeks_variance, fiveWeeks_avgRecent, sqrtQ_122500]
    norm_num

/-! ## Anomaly detection: the severity of flagged transactions -/

theorem specStdDev_pos {s : CategoryStat} (havg : 0 < s.avg_amount)
    (hdev : ∀ d, s.stddev_amount = some d → 0 ≤ d) : 0 < specStdDev s := by
  unfold specStdDev
  cases h : s.stddev_amount with
  | none => simp only; positivity
  | some d =>
    simp only
    split_ifs with hd
    · exact lt_of_le_of_ne (hdev d h) (Ne.symm hd)
    · positivity

/-- Sorting leaves an array in place when the comparator returns 0 on every
pair of its elements. -/
theorem arraySort_of_ties {α : Type} (cmp : α → α → JSNum) :
    ∀ xs : List α, (∀ a ∈ xs, ∀ b ∈ xs, cmp a b = fin 0) → arraySort cmp xs = xs
  | [], _ => rfl
  | a :: xs, h => by
    have ih : arraySort cmp xs = xs :=
      arraySort_of_ties cmp xs (fun x hx y hy =>
        h x (List.mem_cons_of_mem a hx) y (List.mem_cons_of_mem a hy))
    have hstep : arraySort cmp (a :: xs)
        = (arraySort cmp xs).orderedInsert (fun a b => gt (cmp a b) (fin 0) = false) a := rfl
    rw [hstep, ih]
    cases xs with
    | nil => rfl
    | cons b l =>
      have hab : gt (cmp a b) (fin 0) = false := by
        rw [h a (List.mem_cons_self a _) b (List.mem_cons_of_mem a (List.mem_cons_self b l))]
        simp
      rw [List.orderedInsert, if_pos hab]

/-- C27: when the statistics row of a transaction has a positive average and
a non-negative or missing deviation, an anomaly is emitted only for an amount
above the threshold, the ratio (amount − avg)/(threshold − avg) is then a
number above 1, and severity_score is exactly 1.  When every statistics row is
of that kind, all returned anomalies have severity 1, the comparator of the
sort is 0 on every pair, and the sort returns them in the order of the loop. -/
theorem severity_degenerate (stats : List CategoryStat) (recent : List Transaction) :
    (∀ (t : Transaction) (s : CategoryStat) (a : Anomaly), findStats stats t = some s →
      0 < s.avg_amount → (∀ d, s.stddev_amount = some d → 0 ≤ d) →
      anomalyOf stats t = some a →
        gt (parseFloat t.amount) (thresholdOf s) = true ∧
        (∃ r : ℚ, (parseFloat t.amount - parseFloat s.avg_amount)
            / (thresholdOf s - parseFloat s.avg_amount) = fin r ∧ 1 < r) ∧
        a.severity_score = fin 1) ∧
    ((∀ s ∈ stats, 0 < s.avg_amount ∧ ∀ d, s.stddev_amount = some d → 0 ≤ d) →
      (∀ a ∈ intelligentAnomalyDetection stats recent, a.severity_score = fin 1) ∧
      (∀ a ∈ detectionLoop stats recent, ∀ b ∈ detectionLoop stats recent,
        b.severity_score - a.severity_score = fin 0) ∧
      intelligentAnomalyDetection stats recent = detectionLoop stats recent) := by
  have hone : ∀ (t : Transaction) (s : CategoryStat) (a : Anomaly), findStats stats t = some s →
      0 < s.avg_amount → (∀ d, s.stddev_amount = some d → 0 ≤ d) →
      anomalyOf stats t = some a →
        gt (parseFloat t.amount) (thresholdOf s) = true ∧
        (∃ r : ℚ, (parseFloat t.amount - parseFloat s.avg_amount)
            / (thresholdOf s - parseFloat s.avg_amount) = fin r ∧ 1 < r) ∧
        a.severity_score = fin 1 := by
    intro t s a hf havg hdev ha
    have hsd := specStdDev_pos havg hdev
    rw [anomalyOf_of_find hf] at ha
    by_cases hflag : specThreshold s < t.amount
    · rw [if_pos hflag] at ha
      have hden : 0 < specThreshold s - s.avg_amount := by
        unfold specThreshold
        linarith
      have hratio : 1 < (t.amount - s.avg_amount) / (specThreshold s - s.avg_amount) := by
        rw [lt_div_iff₀ hden]
        linarith
      refine ⟨?_, ⟨_, ?_, hratio⟩, ?_⟩
      · rw [thresholdOf_eq]
        simpa [parseFloat] using hflag
      · rw [thresholdOf_eq]
        simp only [parseFloat, fin_sub_fin]
        rw [fin_div_fin_of_ne _ hden.ne']
      · have hsev : a.severity_score = round2 (JSNum.min (fin 1) (specRatio s t)) := by
          rw [← Option.some.inj ha]
        rw [hsev, (specRatio_clamp_of_nonneg hflag hsd.le).1, round2_fin_one]
    · rw [if_neg hflag] at ha
      cases ha
  refine ⟨hone, ?_⟩
  intro hall
  have hloop : ∀ a ∈ detectionLoop stats recent, a.severity_score = fin 1 := by
    intro a ha
    rw [detectionLoop_eq_filterMap, List.mem_filterMap] at ha
    obtain ⟨t, _, ht⟩ := ha
    cases hf : findStats stats t with
    | none => rw [anomalyOf_of_find_none hf] at ht; cases ht
    | some s =>
      have hmem : s ∈ stats := by
        obtain ⟨before, after, rfl, _, _⟩ := (findStats_eq_some_iff stats t s).mp hf
        simp
      exact (hone t s a hf (hall s hmem).1 (hall s hmem).2 ht).2.2
  have hties : ∀ a ∈ detectionLoop stats recent, ∀ b ∈ detectionLoop stats recent,
      b.severity_score - a.severity_score = fin 0 := by
    intro a ha b hb
    rw [hloop a ha, hloop b hb]
    simp
  have hsort : intelligentAnomalyDetection stats recent = detectionLoop stats recent :=
    arraySort_of_ties _ _ hties
  refine ⟨?_, hties, hsort⟩
  intro a ha
  rw [hsort] at ha
  exact hloop a ha

/-- C27 at one statistics row of average 100 and deviation 0 and a
transaction of 170: the anomaly is emitted with severity 1. -/
theorem severity_degenerate_witness :
    (∀ s ∈ flatStats, 0 < s.avg_amount ∧ ∀ d, s.stddev_amount = some d → 0 ≤ d) ∧
    anomaly170 ∈ intelligentAnomalyDetection flatStats [transaction170] ∧
    (∀ a ∈ intelligentAnomalyDetection flatStats [transaction170], a.severity_score = fin 1) := by
  have hall : ∀ s ∈ flatStats, 0 < s.avg_amount ∧ ∀ d, s.stddev_amount = some d → 0 ≤ d := by
    intro s hs
    rw [List.mem_singleton.mp hs]
    refine ⟨by norm_num, ?_⟩
    intro d hd
    rw [← Option.some.inj hd]
  exact ⟨hall, by rw [flatStats_detection]; exact List.mem_singleton_self _,
    ((severity_degenerate flatStats [transaction170]).2 hall).1⟩

/-! ## Budget recommendations: bounds -/

theorem specReduction_cases (n : String) :
    specReduction n = 1 / 20 ∨ specReduction n = 1 / 5 ∨ specReduction n = 1 / 10 := by
  unfold specReduction
  split_ifs <;> simp

theorem mem_recommendations {rows : List CategorySpending} {r : Recommendation}
    (hr : r ∈ (smartBudgetRecommendations rows).recommendations) :
    ∃ c ∈ rows, r = recommendationFor c ∧ 10 < specSavings c := by
  have hr2 := (recommendations_perm rows).mem_iff.mp hr
  rw [List.mem_filterMap] at hr2
  obtain ⟨c, hc, hsome⟩ := hr2
  unfold specRecommendation at hsome
  by_cases h : 10 < specSavings c
  · rw [if_pos h] at hsome
    exact ⟨c, hc, (Option.some.inj hsome).symm, h⟩
  · rw [if_neg h] at hsome
    cases hsome

/-- C29: when every avg_spending is at least 0, every returned recommendation
has integers as recommended_budget and current_budget, with
0 ≤ recommended_budget ≤ current_budget. -/
theorem recommended_within_current (rows : List CategorySpending)
    (hnn : ∀ c ∈ rows, 0 ≤ c.avg_spending) :
    ∀ r ∈ (smartBudgetRecommendations rows).recommendations,
      ∃ recommended current : ℤ, r.recommended_budget = fin recommended ∧
        r.current_budget = fin current ∧ 0 ≤ recommended ∧ recommended ≤ current := by
  intro r hr
  obtain ⟨c, hc, rfl, _⟩ := mem_recommendations hr
  have havg := hnn c hc
  have hred : 0 ≤ specReduction c.name ∧ specReduction c.name ≤ 1 := by
    rcases specReduction_cases c.name with h | h | h <;> rw [h] <;> norm_num
  have hprod : 0 ≤ c.avg_spending * specReduction c.name := mul_nonneg havg hred.1
  have hprod2 : 0 ≤ c.avg_spending * (1 - specReduction c.name) :=
    mul_nonneg havg (by linarith)
  refine ⟨specRecommended c, ⌊c.avg_spending + 1 / 2⌋, recommendedBudgetOf_eq c, ?_, ?_, ?_⟩
  · simp [recommendationFor, parseFloat]
  · unfold specRecommended
    rw [Int.le_floor]
    push_cast
    linarith
  · unfold specRecommended
    apply Int.floor_mono
    linarith

theorem shoppingRows_recommendation :
    (smartBudgetRecommendations shoppingRows).recommendations
      = [recommendationFor ⟨2, "Shopping", 1000, 0, 6⟩] ∧
    (recommendationFor ⟨2, "Shopping", 1000, 0, 6⟩).recommended_budget = fin 800 ∧
    (recommendationFor ⟨2, "Shopping", 1000, 0, 6⟩).current_budget = fin 1000 := by
  have hred : specReduction "Shopping" = 1 / 5 := by
    rw [specReduction_of_score necessity_table.2.2.2.2.2.1]
    norm_num
  have hrec : specRecommended ⟨2, "Shopping", 1000, 0, 6⟩ = 800 := by
    simp only [specRecommended, hred]
    norm_num
  have hsav : specSavings ⟨2, "Shopping", 1000, 0, 6⟩ = 200 := by
    simp only [specSavings, hrec]
    norm_num
  have hloop : (budgetLoop shoppingRows).1 = [recommendationFor ⟨2, "Shopping", 1000, 0, 6⟩] := by
    have hspec : specRecommendation ⟨2, "Shopping", 1000, 0, 6⟩ =
        some (recommendationFor ⟨2, "Shopping", 1000, 0, 6⟩) := by
      unfold specRecommendation
      rw [if_pos]
      rw [hsav]
      norm_num
    rw [budgetLoop_fst]
    show List.filterMap specRecommendation [⟨2, "Shopping", 1000, 0, 6⟩] = _
    rw [List.filterMap_cons, hspec]
    rfl
  have hlen : ¬ shoppingRows.length = 0 := by simp [shoppingRows]
  refine ⟨?_, ?_, ?_⟩
  · simp only [smartBudgetRecommendations, if_neg hlen, hloop, arraySort]
    rfl
  · show recommendedBudgetOf ⟨2, "Shopping", 1000, 0, 6⟩ = fin 800
    rw [recommendedBudgetOf_eq, hrec]
    norm_num
  · simp [recommendationFor, parseFloat]
    norm_num

/-- C29 at one category "Shopping" with average 1000: the one recommendation
has recommended_budget 800 and current_budget 1000. -/
theorem recommended_within_current_witness :
    (∀ c ∈ shoppingRows, 0 ≤ c.avg_spending) ∧
    (smartBudgetRecommendations shoppingRows).recommendations
      = [recommendationFor ⟨2, "Shopping", 1000, 0, 6⟩] ∧
    (recommendationFor ⟨2, "Shopping", 1000, 0, 6⟩).recommended_budget = fin 800 ∧
    (recommendationFor ⟨2, "Shopping", 1000, 0, 6⟩).current_budget = fin 1000 ∧
    ∀ r ∈ (smartBudgetRecommendations shoppingRows).recommendations,
      ∃ recommended current : ℤ, r.recommended_budget = fin recommended ∧
        r.current_budget = fin current ∧ 0 ≤ recommended ∧ recommended ≤ current :=
  ⟨by simp [shoppingRows], shoppingRows_recommendation.1, shoppingRows_recommendation.2.1,
   shoppingRows_recommendation.2.2,
   recommended_within_current shoppingRows (by simp [shoppingRows])⟩

/-- The savings of a category that gets a recommendation are below
r·avg + 0.5 with r ≤ 0.2, which forces avg > 47.5 and savings below 4/19 of
the average. -/
theorem savings_bound {c : CategorySpending} (hpos : 0 < c.avg_spending)
    (h : 10 < specSavings c) :
    specSavings c < specReduction c.name * c.avg_spending + 1 / 2 ∧
    specReduction c.name ≤ 1 / 5 ∧ 95 / 2 < c.avg_spending ∧
    specSavings c < 4 / 19 * c.avg_spending := by
  have hred : specReduction c.name ≤ 1 / 5 := by
    rcases specReduction_cases c.name with h | h | h <;> rw [h] <;> norm_num
  have hsav : specSavings c = c.avg_spending - specRecommended c := by
    unfold specSavings at h ⊢
    rcases max_cases (0 : ℚ) (c.avg_spending - specRecommended c) with ⟨h0, _⟩ | ⟨h1, _⟩
    · rw [h0] at h
      norm_num at h
    · exact h1
  have hfloor : c.avg_spending * (1 - specReduction c.name) + 1 / 2 - 1
      < (specRecommended c : ℚ) := by
    unfold specRecommended
    exact Int.sub_one_lt_floor _
  have h1 : specSavings c < specReduction c.name * c.avg_spending + 1 / 2 := by
    rw [hsav]
    linarith
  have hmul : specReduction c.name * c.avg_spending ≤ 1 / 5 * c.avg_spending :=
    mul_le_mul_of_nonneg_right hred hpos.le
  have havg : 95 / 2 < c.avg_spending := by linarith
  exact ⟨h1, hred, havg, by linarith⟩

theorem specTotalSavings_cons (c : CategorySpending) (l : List CategorySpending) :
    specTotalSavings (c :: l)
      = (if 10 < specSavings c then specSavings c else 0) + specTotalSavings l := by
  unfold specTotalSavings
  by_cases h : 10 < specSavings c <;> simp [List.filter_cons, h]

theorem specTotalSavings_bounds (rows : List CategorySpending)
    (hpos : ∀ c ∈ rows, 0 < c.avg_spending) :
    0 ≤ specTotalSavings rows ∧ specTotalSavings rows ≤ 4 / 19 * specTotalSpending rows := by
  induction rows with
  | nil => simp [specTotalSavings, specTotalSpending]
  | cons c l ih =>
    have hc := hpos c (List.mem_cons_self c l)
    obtain ⟨ih1, ih2⟩ := ih (fun x hx => hpos x (List.mem_cons_of_mem c hx))
    have hS : specTotalSpending (c :: l) = c.avg_spending + specTotalSpending l := by
      simp [specTotalSpending]
    rw [specTotalSavings_cons, hS]
    by_cases h : 10 < specSavings c
    · rw [if_pos h]
      have := (savings_bound hc h).2.2.2
      constructor <;> linarith
    · rw [if_neg h]
      constructor <;> linarith

/-- C30: for a non-empty list of rows with positive averages, every category
that gets a recommendation has savings below r·avg + 0.5 with r ≤ 0.2 and
avg > 47.5; the total savings are below 21.06% of the total average spending,
and optimization_score is an integer between 0 and 21. -/
theorem optimization_score_range (rows : List CategorySpending) (hne : rows ≠ [])
    (hpos : ∀ c ∈ rows, 0 < c.avg_spending) :
    (∀ c ∈ rows, 10 < specSavings c →
      specSavings c < specReduction c.name * c.avg_spending + 1 / 2 ∧
      specReduction c.name ≤ 1 / 5 ∧ 95 / 2 < c.avg_spending) ∧
    specTotalSavings rows < 2106 / 10000 * specTotalSpending rows ∧
    ∃ n : ℤ, (smartBudgetRecommendations rows).optimization_score = fin n ∧ 0 ≤ n ∧ n ≤ 21 := by
  have hS := specTotalSpending_pos hne hpos
  obtain ⟨h0, h1⟩ := specTotalSavings_bounds rows hpos
  have hlen : ¬ rows.length = 0 := fun h => hne (List.length_eq_zero.mp h)
  have hratio0 : 0 ≤ specTotalSavings rows / specTotalSpending rows := div_nonneg h0 hS.le
  have hratio1 : specTotalSavings rows / specTotalSpending rows ≤ 4 / 19 := by
    rw [div_le_iff₀ hS]
    exact h1
  refine ⟨?_, by linarith, ⌊specTotalSavings rows / specTotalSpending rows * 100 + 1 / 2⌋,
    ?_, ?_, ?_⟩
  · intro c hc h
    obtain ⟨a1, a2, a3, _⟩ := savings_bound (hpos c hc) h
    exact ⟨a1, a2, a3⟩
  · simp only [smartBudgetRecommendations, if_neg hlen, budgetLoop_snd, foldl_avg_spending,
      fin_div_fin_of_ne _ hS.ne', fin_mul_fin, round_fin]
  · rw [Int.le_floor]
    push_cast
    linarith
  · have hlt : ⌊specTotalSavings rows / specTotalSpending rows * 100 + 1 / 2⌋ < 22 := by
      rw [Int.floor_lt]
      push_cast
      linarith
    omega

/-- C30 at one category "Entertainment" with average 48.10: the recommended
budget is round(38.48) = 38, the savings 10.1 are above 10, and
optimization_score is round(10.1 / 48.1 × 100) = 21, the upper bound. -/
theorem optimization_score_range_witness :
    entertainmentRows ≠ [] ∧ (∀ c ∈ entertainmentRows, 0 < c.avg_spending) ∧
    (smartBudgetRecommendations entertainmentRows).optimization_score = fin 21 ∧
    ∃ n : ℤ, (smartBudgetRecommendations entertainmentRows).optimization_score = fin n ∧
      0 ≤ n ∧ n ≤ 21 := by
  have hne : entertainmentRows ≠ [] := by simp [entertainmentRows]
  have hpos : ∀ c ∈ entertainmentRows, 0 < c.avg_spending := by simp [entertainmentRows]
  have hred : specReduction "Entertainment" = 1 / 5 := by
    rw [specReduction_of_score necessity_table.2.2.2.2.2.2.1]
    norm_num
  have hrec : specRecommended ⟨3, "Entertainment", 481 / 10, 0, 6⟩ = 38 := by
    simp only [specRecommended, hred]
    norm_num
  have hsav : specSavings ⟨3, "Entertainment", 481 / 10, 0, 6⟩ = 101 / 10 := by
    simp only [specSavings, hrec]
    norm_num
  have hT : specTotalSavings entertainmentRows = 101 / 10 := by
    show specTotalSavings [⟨3, "Entertainment", 481 / 10, 0, 6⟩] = 101 / 10
    rw [specTotalSavings_cons, hsav]
    norm_num [specTotalSavings]
  have hS : specTotalSpending entertainmentRows = 481 / 10 := by
    simp [specTotalSpending, entertainmentRows]
  have hlen : ¬ entertainmentRows.length = 0 := by simp [entertainmentRows]
  refine ⟨hne, hpos, ?_, (optimization_score_range entertainmentRows hne hpos).2.2⟩
  simp only [smartBudgetRecommendations, if_neg hlen, budgetLoop_snd, foldl_avg_spending, hT, hS]
  norm_num

/-! ## Confidence and confirmation -/

theorem specConfidenceValues_eq :
    specConfidenceValues =
      [4 / 10, 1 / 4, 3 / 10, 3 / 20, 7 / 10, 11 / 20, 3 / 5, 9 / 20,
       4 / 5, 13 / 20, 7 / 10, 11 / 20, 1, 19 / 20, 1, 17 / 20] := by
  simp only [specConfidenceValues, List.flatMap_cons, List.flatMap_nil, List.map_cons,
    List.map_nil, List.append_nil, List.cons_append, List.nil_append]
  norm_num

/-- The stage contributions in terms of the fields of the result. -/
theorem parseText_confidence_fields (today : Int) (s : List Char) :
    (parseText today s).confidence =
      fin (Min.min 1 (Max.max (1 / 10)
        ((if (parseText today s).amount.isSome then 4 / 10 else 0) +
         (if (parseText today s).category.isSome then 3 / 10 else 0) +
         (if saysToday (toLowerCase (trim s)) || saysYesterday (toLowerCase (trim s))
            then 15 / 100 else 5 / 100) +
         (if 3 < jsLength (cleanDescription (trim s) (parseText today s).amount)
            then 25 / 100 else 10 / 100)))) := by
  rw [parseText_confidence, (parseText_amount today s).1, parseText_category]
  simp only [amountScore, categoryScore, dateScore, descriptionScore, Option.isSome_map']

theorem parse_confidence_value (today : Int) (text : ParserInput) :
    ∃ q : ℚ, (parseExpenseText today text).confidence = fin q ∧ 1 / 10 ≤ q ∧ q ≤ 1 := by
  have hinv : ∃ q : ℚ, (invalidInputResult today).confidence = fin q ∧ 1 / 10 ≤ q ∧ q ≤ 1 :=
    ⟨1 / 10, rfl, le_refl _, by norm_num⟩
  unfold parseExpenseText
  split_ifs
  · exact hinv
  · exact ⟨_, parseText_confidence today _, le_min (by norm_num) (le_max_left _ _),
      min_le_left _ _⟩

/-- C21, as the claim states it, fails for the empty string, which is a
string: it takes the invalid-input branch and gets confidence 0.1, while the
formula min(1, max(0.1, a + c + d + s)) is at least 0.15 for every choice of
a, c, d and s. -/
theorem confidence_formula_empty_string :
    (parseExpenseText 0 (ParserInput.string [])).confidence = fin (1 / 10) ∧
    (1 / 10 : ℚ) ∉ specConfidenceValues ∧
    specConfidenceValues.all (fun q => decide (3 / 20 ≤ q)) = true := by
  refine ⟨rfl, ?_, ?_⟩
  · rw [specConfidenceValues_eq]
    norm_num
  · rw [specConfidenceValues_eq]
    norm_num

/-- C21 (amended): for every argument the confidence is a number in
[0.1, 1.0]; for every non-empty string it is min(1, max(0.1, a + c + d + s))
with a = 0.4 if an amount was found and 0 otherwise, c = 0.3 if a category was
found and 0 otherwise, d = 0.15 if the text has a date word and 0.05 otherwise,
s = 0.25 if the cleaned description is longer than 3 and 0.1 otherwise. -/
theorem confidence_range_formula (today : Int) (text : ParserInput) :
    (∃ q : ℚ, (parseExpenseText today text).confidence = fin q ∧ 1 / 10 ≤ q ∧ q ≤ 1) ∧
    ∀ s : List Char, text = ParserInput.string s → s ≠ [] →
      (parseExpenseText today text).confidence =
        fin (Min.min 1 (Max.max (1 / 10)
          ((if (parseExpenseText today text).amount.isSome then 4 / 10 else 0) +
           (if (parseExpenseText today text).category.isSome then 3 / 10 else 0) +
           (if saysToday (toLowerCase (trim s)) || saysYesterday (toLowerCase (trim s))
              then 15 / 100 else 5 / 100) +
           (if 3 < jsLength (cleanDescription (trim s) (parseExpenseText today text).amount)
              then 25 / 100 else 10 / 100)))) ∧
      ∃ q ∈ specConfidenceValues, (parseExpenseText today text).confidence = fin q := by
  refine ⟨parse_confidence_value today text, ?_⟩
  intro s hs hne
  subst hs
  rw [parseExpenseText_of_ne_nil today hne]
  refine ⟨parseText_confidence_fields today s, ?_⟩
  refine ⟨_, ?_, parseText_confidence_fields today s⟩
  rw [specConfidenceValues_eq]
  split_ifs <;> norm_num

/-- C21 (amended) at "500 den yesterday abcd": the confidence is one of the
values of the formula. -/
theorem confidence_range_formula_witness :
    "500 den yesterday abcd".toList ≠ [] ∧
    ∃ q ∈ specConfidenceValues,
      (parseExpenseText 7 (ParserInput.string "500 den yesterday abcd".toList)).confidence
        = fin q :=
  ⟨by decide,
   ((confidence_range_formula 7 (ParserInput.string "500 den yesterday abcd".toList)).2
      _ rfl (by decide)).2⟩

theorem textRejected_false {text : ParserInput} (h : textRejected text = false) :
    ∃ s, text = ParserInput.string s ∧ s ≠ [] ∧ trim s ≠ [] := by
  cases text with
  | string s =>
    refine ⟨s, rfl, ?_, ?_⟩
    · intro h0
      subst h0
      simp [textRejected, ParserInput.truthy] at h
    · intro h0
      simp [textRejected, ParserInput.toChars, h0, jsLength] at h
  | null => simp [textRejected, ParserInput.truthy] at h
  | undefined => simp [textRejected, ParserInput.truthy] at h
  | boolean b => simp [textRejected, ParserInput.isString] at h
  | number x => simp [textRejected, ParserInput.isString] at h
  | object => simp [textRejected, ParserInput.isString] at h

/-- C22: for a text that passes the validation of the handler (a string with
a character that is not white space), and when the history insert succeeds,
the response carries the result of parseExpenseText, the five suggestion
fields copied from it, and needs_confirmation, which is true exactly when the
confidence is below 0.8; at confidence 0.8 it is false. -/
theorem needs_confirmation_flag (today : Int) (text : ParserInput)
    (h : textRejected text = false) :
    ∃ (q : ℚ) (flag : Bool),
      (parseExpenseText today text).confidence = fin q ∧
      parseExpenseRoute today text true =
        ParseResponse.ok (parseExpenseText today text) flag
          (suggestionsOf (parseExpenseText today text)) ∧
      (suggestionsOf (parseExpenseText today text)).amount
        = (parseExpenseText today text).amount ∧
      (flag = true ↔ q < 8 / 10) ∧ (q = 8 / 10 → flag = false) := by
  obtain ⟨q, hq, _, _⟩ := parse_confidence_value today text
  refine ⟨q, decide (q < 8 / 10), hq, ?_, rfl, ?_, ?_⟩
  · simp only [parseExpenseRoute, h, hq, lt_fin_fin]
    simp
  · simp
  · intro h8
    rw [h8]
    simp

theorem sample_confidence :
    (parseExpenseText 7 (ParserInput.string "500 den yesterday abcd".toList)).confidence
      = fin (8 / 10) := by
  rw [parseExpenseText_of_ne_nil 7 (by decide), parseText_confidence_fields]
  have h1 : (parseText 7 "500 den yesterday abcd".toList).amount.isSome = true := by decide
  have h2 : (parseText 7 "500 den yesterday abcd".toList).category.isSome = false := by decide
  have h3 : (saysToday (toLowerCase (trim "500 den yesterday abcd".toList)) ||
      saysYesterday (toLowerCase (trim "500 den yesterday abcd".toList))) = true := by decide
  have h4 : 3 < jsLength (cleanDescription (trim "500 den yesterday abcd".toList)
      (parseText 7 "500 den yesterday abcd".toList).amount) := by decide
  rw [h1, h2, h3, if_pos h4]
  norm_num

/-- C22 at "500 den yesterday abcd": amount, date word and a description of
four characters give confidence 0.4 + 0.15 + 0.25 = 0.8 exactly, and
needs_confirmation is false. -/
theorem needs_confirmation_flag_witness :
    textRejected (ParserInput.string "500 den yesterday abcd".toList) = false ∧
    (parseExpenseText 7 (ParserInput.string "500 den yesterday abcd".toList)).confidence
      = fin (8 / 10) ∧
    parseExpenseRoute 7 (ParserInput.string "500 den yesterday abcd".toList) true =
      ParseResponse.ok
        (parseExpenseText 7 (ParserInput.string "500 den yesterday abcd".toList)) false
        (suggestionsOf
          (parseExpenseText 7 (ParserInput.string "500 den yesterday abcd".toList))) := by
  have hacc : textRejected (ParserInput.string "500 den yesterday abcd".toList) = false := by
    decide
  obtain ⟨q, flag, hq, hroute, _, _, h8⟩ :=
    needs_confirmation_flag 7 (ParserInput.string "500 den yesterday abcd".toList) hacc
  have hq8 : q = 8 / 10 := by
    have := sample_confidence
    rw [hq] at this
    exact JSNum.fin.inj this
  rw [h8 hq8] at hroute
  exact ⟨hacc, sample_confidence, hroute⟩

/-- C28: when the result has no amount, the confidence is at most 0.7, the
test confidence < 0.8 is true, and a response of the handler for such a text
has needs_confirmation = true. -/
theorem no_amount_needs_confirmation (today : Int) (text : ParserInput)
    (h : (parseExpenseText today text).amount = none) :
    (∃ q : ℚ, (parseExpenseText today text).confidence = fin q ∧ q ≤ 7 / 10) ∧
    lt (parseExpenseText today text).confidence (fin (8 / 10)) = true ∧
    (textRejected text = false →
      parseExpenseRoute today text true =
        ParseResponse.ok (parseExpenseText today text) true
          (suggestionsOf (parseExpenseText today text))) := by
  have hq : ∃ q : ℚ, (parseExpenseText today text).confidence = fin q ∧ q ≤ 7 / 10 := by
    by_cases hinv : (!text.truthy || !text.isString) = true
    · refine ⟨1 / 10, ?_, by norm_num⟩
      rw [parseExpenseText, if_pos hinv]
      rfl
    · have hp : parseExpenseText today text = parseText today text.toChars := by
        rw [parseExpenseText, if_neg hinv]
      rw [hp] at h ⊢
      refine ⟨_, parseText_confidence_fields today _, ?_⟩
      rw [h]
      simp only [Option.isSome_none, Bool.false_eq_true, if_false]
      apply (min_le_right _ _).trans
      apply max_le (by norm_num)
      split_ifs <;> norm_num
  obtain ⟨q, hq1, hq2⟩ := hq
  have hlt : lt (parseExpenseText today text).confidence (fin (8 / 10)) = true := by
    rw [hq1, lt_fin_fin]
    simp only [decide_eq_true_eq]
    linarith
  refine ⟨⟨q, hq1, hq2⟩, hlt, ?_⟩
  intro hacc
  simp only [parseExpenseRoute, hacc, hlt]
  simp

/-- C28 at "coffee with friends": no amount, the category Food & Dining, no
date word and a genuine description give confidence 0.3 + 0.05 + 0.25 = 0.6. -/
theorem no_amount_needs_confirmation_witness :
    (parseExpenseText 7 (ParserInput.string "coffee with friends".toList)).amount = none ∧
    textRejected (ParserInput.string "coffee with friends".toList) = false ∧
    lt (parseExpenseText 7 (ParserInput.string "coffee with friends".toList)).confidence
      (fin (8 / 10)) = true ∧
    parseExpenseRoute 7 (ParserInput.string "coffee with friends".toList) true =
      ParseResponse.ok
        (parseExpenseText 7 (ParserInput.string "coffee with friends".toList)) true
        (suggestionsOf
          (parseExpenseText 7 (ParserInput.string "coffee with friends".toList))) :=
  ⟨by decide, by decide,
   (no_amount_needs_confirmation 7 (ParserInput.string "coffee with friends".toList)
      (by decide)).2.1,
   (no_amount_needs_confirmation 7 (ParserInput.string "coffee with friends".toList)
      (by decide)).2.2 (by decide)⟩

/-! ## Double precision: rounding -/

theorem roundHalfEven_sub_le (x : ℚ) : |(roundHalfEven x : ℚ) - x| ≤ 1 / 2 := by
  have h1 : (⌊x⌋ : ℚ) ≤ x := Int.floor_le x
  have h2 : x < (⌊x⌋ : ℚ) + 1 := Int.lt_floor_add_one x
  unfold roundHalfEven
  rw [abs_le]
  split_ifs with ha hb hc
  · constructor <;> linarith
  · push_cast
    constructor <;> linarith
  · constructor <;> linarith
  · push_cast
    constructor <;> linarith

theorem roundHalfEven_eq_of_near {x : ℚ} {m : ℤ} (h : |x - m| < 1 / 2) :
    roundHalfEven x = m := by
  rw [abs_lt] at h
  have hfl : ⌊x⌋ = m ∨ ⌊x⌋ = m - 1 := by
    have h1 : m - 1 ≤ ⌊x⌋ := by
      rw [Int.le_floor]
      push_cast
      linarith
    have h2 : ⌊x⌋ < m + 1 := by
      rw [Int.floor_lt]
      push_cast
      linarith
    omega
  have hx1 : (⌊x⌋ : ℚ) ≤ x := Int.floor_le x
  have hx2 : x < (⌊x⌋ : ℚ) + 1 := Int.lt_floor_add_one x
  unfold roundHalfEven
  rcases hfl with hf | hf
  · have hfq : (⌊x⌋ : ℚ) = m := by exact_mod_cast hf
    rw [if_pos (by linarith)]
    exact hf
  · have hfq : (⌊x⌋ : ℚ) = m - 1 := by
      rw [hf]
      push_cast
      ring
    rw [if_neg (by linarith), if_pos (by linarith), hf]
    ring

theorem ulpExp_eq {q : ℚ} {L : ℤ} (hL : -1022 ≤ L) (h1 : (2 : ℚ) ^ L ≤ |q|)
    (h2 : |q| < (2 : ℚ) ^ (L + 1)) : ulpExp q = L - 52 := by
  have hpos : 0 < |q| := lt_of_lt_of_le (by positivity) h1
  have hlog : Int.log 2 |q| = L := by
    have ha : L ≤ Int.log 2 |q| := by
      rw [← Int.zpow_le_iff_le_log (by norm_num) hpos]
      exact_mod_cast h1
    have hb : Int.log 2 |q| < L + 1 := by
      rw [← Int.lt_zpow_iff_log_lt (by norm_num) hpos]
      exact_mod_cast h2
    omega
  unfold ulpExp
  rw [hlog]
  exact max_eq_left (by omega)

/-- Evaluation of a rounding: `m` is the integer nearest to `q` in units of the
last place. -/
theorem roundDouble_eq {q : ℚ} (L m : ℤ) (hL : -1022 ≤ L) (h1 : (2 : ℚ) ^ L ≤ |q|)
    (h2 : |q| < (2 : ℚ) ^ (L + 1)) (hm : |q / 2 ^ (L - 52) - m| < 1 / 2) :
    roundDouble q = m * 2 ^ (L - 52) := by
  unfold roundDouble
  rw [ulpExp_eq hL h1 h2, roundHalfEven_eq_of_near hm]

theorem roundDouble_zero : roundDouble 0 = 0 := by
  unfold roundDouble
  have h : roundHalfEven (0 / 2 ^ ulpExp 0) = 0 := by
    apply roundHalfEven_eq_of_near
    norm_num
  rw [h]
  simp

/-- The relative error of a rounding in the normal range is at most 2^-53. -/
theorem roundDouble_rel {q : ℚ} (h : (2 : ℚ) ^ (-1022 : ℤ) ≤ |q|) :
    |roundDouble q - q| ≤ unitRoundoff * |q| := by
  have hpos : 0 < |q| := lt_of_lt_of_le (by positivity) h
  have h1 : (2 : ℚ) ^ (Int.log 2 |q|) ≤ |q| := by
    have := Int.zpow_log_le_self (b := 2) (r := |q|) (by norm_num) hpos
    exact_mod_cast this
  have h2 : |q| < (2 : ℚ) ^ (Int.log 2 |q| + 1) := by
    have := Int.lt_zpow_succ_log_self (b := 2) (by norm_num) |q|
    exact_mod_cast this
  have hL : -1022 ≤ Int.log 2 |q| := by
    rw [← Int.zpow_le_iff_le_log (by norm_num) hpos]
    exact_mod_cast h
  have he := ulpExp_eq hL h1 h2
  have hp : (0 : ℚ) < 2 ^ (Int.log 2 |q| - 52) := by positivity
  have hround := roundHalfEven_sub_le (q / 2 ^ (Int.log 2 |q| - 52))
  have hsplit : roundDouble q - q
      = ((roundHalfEven (q / 2 ^ (Int.log 2 |q| - 52)) : ℚ) - q / 2 ^ (Int.log 2 |q| - 52))
          * 2 ^ (Int.log 2 |q| - 52) := by
    unfold roundDouble
    rw [he]
    field_simp
  have hpow : (2 : ℚ) ^ (Int.log 2 |q| - 52) = 2 ^ (Int.log 2 |q|) / 2 ^ 52 := by
    rw [zpow_sub₀ (by norm_num)]
    norm_num
  rw [hsplit, abs_mul, abs_of_pos hp, unitRoundoff]
  calc |(roundHalfEven (q / 2 ^ (Int.log 2 |q| - 52)) : ℚ) - q / 2 ^ (Int.log 2 |q| - 52)|
        * 2 ^ (Int.log 2 |q| - 52)
      ≤ 1 / 2 * 2 ^ (Int.log 2 |q| - 52) := mul_le_mul_of_nonneg_right hround hp.le
    _ = 1 / 2 ^ 53 * 2 ^ (Int.log 2 |q|) := by
        rw [hpow]
        ring
    _ ≤ 1 / 2 ^ 53 * |q| := mul_le_mul_of_nonneg_left h1 (by positivity)


/-- Evaluation of an operation in doubles: `m` is the integer nearest to the
exact result `q` in units of the last place, and `r` the double. -/
theorem double_fin_eq {q : ℚ} (r : ℚ) (L m : ℤ) (hL : -1022 ≤ L) (hhi : |q| ≤ 2 ^ 1000)
    (h1 : (2 : ℚ) ^ L ≤ |q|) (h2 : |q| < (2 : ℚ) ^ (L + 1))
    (hm : |q / 2 ^ (L - 52) - m| < 1 / 2) (hr : r = m * 2 ^ (L - 52)) :
    JSNum.double (fin q) = fin r := by
  have hlo : (2 : ℚ) ^ (-1022 : ℤ) ≤ |q| :=
    le_trans (zpow_le_zpow_right₀ (by norm_num) hL) h1
  have hrel := roundDouble_rel hlo
  have hu : unitRoundoff ≤ 1 := by
    unfold unitRoundoff
    norm_num
  have habs : |roundDouble q| ≤ 2 * |q| := by
    have h3 : |roundDouble q| ≤ |roundDouble q - q| + |q| := by
      have := abs_add (roundDouble q - q) q
      simpa using this
    have h4 : unitRoundoff * |q| ≤ 1 * |q| := mul_le_mul_of_nonneg_right hu (abs_nonneg q)
    linarith
  have hfin : ¬ (2 : ℚ) ^ 1024 ≤ |roundDouble q| := by
    rw [not_le]
    have : (2 : ℚ) * 2 ^ 1000 < 2 ^ 1024 := by norm_num
    linarith
  simp only [JSNum.double, if_neg hfin]
  rw [roundDouble_eq L m hL h1 h2 hm, hr]

/-- Evaluation of an operation with a positive result. -/
theorem double_fin_eq_pos {q : ℚ} (r : ℚ) (L m : ℤ) (hL : -1022 ≤ L) (hhi : q ≤ 2 ^ 1000)
    (h1 : (2 : ℚ) ^ L ≤ q) (h2 : q < (2 : ℚ) ^ (L + 1))
    (hm1 : (m : ℚ) - 1 / 2 < q / 2 ^ (L - 52)) (hm2 : q / 2 ^ (L - 52) < (m : ℚ) + 1 / 2)
    (hr : r = m * 2 ^ (L - 52)) :
    JSNum.double (fin q) = fin r := by
  have hq : 0 < q := lt_of_lt_of_le (by positivity) h1
  have habs : |q| = q := abs_of_pos hq
  refine double_fin_eq r L m hL (by rw [habs]; exact hhi) (by rw [habs]; exact h1)
    (by rw [habs]; exact h2) ?_ hr
  rw [abs_lt]
  constructor <;> linarith


theorem double_fin_zero : JSNum.double (fin 0) = fin 0 := by
  simp [JSNum.double, roundDouble_zero]

theorem roundHalfEven_eq_of_even {x : ℚ} {m : ℤ} (h : |x - m| ≤ 1 / 2) (hm : m % 2 = 0) :
    roundHalfEven x = m := by
  rcases lt_or_eq_of_le h with hlt | heq
  · exact roundHalfEven_eq_of_near hlt
  · rcases abs_eq (by norm_num : (0 : ℚ) ≤ 1 / 2) |>.mp heq with hx | hx
    · have hxm : x = m + 1 / 2 := by linarith
      have hfl : ⌊x⌋ = m := by
        rw [Int.floor_eq_iff]
        constructor <;> linarith
      have hfq : (⌊x⌋ : ℚ) = m := by exact_mod_cast hfl
      unfold roundHalfEven
      rw [if_neg (by linarith), if_neg (by linarith), hfl, if_pos hm]
    · have hxm : x = m - 1 / 2 := by linarith
      have hfl : ⌊x⌋ = m - 1 := by
        rw [Int.floor_eq_iff]
        push_cast
        constructor <;> linarith
      have hfq : (⌊x⌋ : ℚ) = m - 1 := by
        rw [hfl]
        push_cast
        ring
      have hodd : ¬ (m - 1) % 2 = 0 := by omega
      unfold roundHalfEven
      rw [if_neg (by linarith), if_neg (by linarith), hfl, if_neg hodd]
      ring

/-- Evaluation of an operation with a positive result that may lie halfway
between two doubles: `m` is even and at most half a unit away. -/
theorem double_fin_eq_even_pos {q : ℚ} (r : ℚ) (L m : ℤ) (hL : -1022 ≤ L) (hhi : q ≤ 2 ^ 1000)
    (h1 : (2 : ℚ) ^ L ≤ q) (h2 : q < (2 : ℚ) ^ (L + 1))
    (hm1 : (m : ℚ) - 1 / 2 ≤ q / 2 ^ (L - 52)) (hm2 : q / 2 ^ (L - 52) ≤ (m : ℚ) + 1 / 2)
    (heven : m % 2 = 0) (hr : r = m * 2 ^ (L - 52)) :
    JSNum.double (fin q) = fin r := by
  have hq : 0 < q := lt_of_lt_of_le (by positivity) h1
  have habs : |q| = q := abs_of_pos hq
  have hlo : (2 : ℚ) ^ (-1022 : ℤ) ≤ |q| := by
    rw [habs]
    exact le_trans (zpow_le_zpow_right₀ (by norm_num) hL) h1
  have hrel := roundDouble_rel hlo
  have hu : unitRoundoff ≤ 1 := by
    unfold unitRoundoff
    norm_num
  have hle : |roundDouble q| ≤ 2 * |q| := by
    have h3 : |roundDouble q| ≤ |roundDouble q - q| + |q| := by
      have := abs_add (roundDouble q - q) q
      simpa using this
    have h4 : unitRoundoff * |q| ≤ 1 * |q| := mul_le_mul_of_nonneg_right hu (abs_nonneg q)
    linarith
  have hfin : ¬ (2 : ℚ) ^ 1024 ≤ |roundDouble q| := by
    rw [not_le]
    have : (2 : ℚ) * 2 ^ 1000 < 2 ^ 1024 := by norm_num
    rw [habs] at hle
    linarith
  have hround : roundHalfEven (q / 2 ^ (L - 52)) = m := by
    apply roundHalfEven_eq_of_even _ heven
    rw [abs_le]
    constructor <;> linarith
  simp only [JSNum.double, if_neg hfin]
  unfold roundDouble
  rw [ulpExp_eq hL (by rw [habs]; exact h1) (by rw [habs]; exact h2), hround, hr]

/-! ## Double precision: error bounds -/

theorem unitRoundoff_pos : 0 < unitRoundoff := by
  unfold unitRoundoff
  positivity

theorem Near.mono {e f a A : ℚ} (h : Near e a A) (hef : e ≤ f) (hA : 0 ≤ A) : Near f a A := by
  obtain ⟨h1, h2⟩ := h
  have := mul_le_mul_of_nonneg_right hef hA
  constructor <;> nlinarith

theorem Near.add {e a A b B : ℚ} (ha : Near e a A) (hb : Near e b B) :
    Near e (a + b) (A + B) := by
  obtain ⟨a1, a2⟩ := ha
  obtain ⟨b1, b2⟩ := hb
  constructor <;> nlinarith

theorem Near.div {e a A n : ℚ} (h : Near e a A) (hn : 0 < n) : Near e (a / n) (A / n) := by
  obtain ⟨h1, h2⟩ := h
  constructor
  · rw [← mul_div_assoc]
    exact div_le_div_of_nonneg_right h1 hn.le
  · rw [← mul_div_assoc]
    exact div_le_div_of_nonneg_right h2 hn.le

theorem Near.nonneg {e a A : ℚ} (h : Near e a A) (he : e ≤ 1) (hA : 0 ≤ A) : 0 ≤ a :=
  le_trans (mul_nonneg (by linarith) hA) h.1

theorem Near.mul {e f a A b B : ℚ} (ha : Near e a A) (hb : Near f b B) (he0 : 0 ≤ e)
    (he : e ≤ 1) (hf0 : 0 ≤ f) (hf : f ≤ 1) (hA : 0 ≤ A) (hB : 0 ≤ B) :
    Near (e + f + e * f) (a * b) (A * B) := by
  have ha0 := ha.nonneg he hA
  have hb0 := hb.nonneg hf hB
  obtain ⟨a1, a2⟩ := ha
  obtain ⟨b1, b2⟩ := hb
  have hAB : 0 ≤ A * B := mul_nonneg hA hB
  constructor
  · have h1 : (1 - e) * A * ((1 - f) * B) ≤ a * b :=
      mul_le_mul a1 b1 (mul_nonneg (by linarith) hB) ha0
    have h2 : 0 ≤ e * f * (A * B) := mul_nonneg (mul_nonneg he0 hf0) hAB
    nlinarith
  · have h1 : a * b ≤ (1 + e) * A * ((1 + f) * B) :=
      mul_le_mul a2 b2 hb0 (mul_nonneg (by linarith) hA)
    nlinarith

/-- A positive value in the normal range rounds to a finite double within
relative error 2^-53. -/
theorem double_fin_near {q : ℚ} (hlo : (2 : ℚ) ^ (-1022 : ℤ) ≤ q) (hhi : q ≤ 2 ^ 1000) :
    ∃ r : ℚ, JSNum.double (fin q) = fin r ∧ Near unitRoundoff r q := by
  have hq : 0 < q := lt_of_lt_of_le (by positivity) hlo
  have habs : |q| = q := abs_of_pos hq
  have hrel := roundDouble_rel (q := q) (by rw [habs]; exact hlo)
  rw [habs, abs_le] at hrel
  have hu : unitRoundoff ≤ 1 := by
    unfold unitRoundoff
    norm_num
  have hr0 : 0 ≤ roundDouble q := by nlinarith [unitRoundoff_pos]
  have hfin : ¬ (2 : ℚ) ^ 1024 ≤ |roundDouble q| := by
    rw [abs_of_nonneg hr0, not_le]
    have h1 : roundDouble q ≤ 2 * q := by nlinarith
    have h2 : (2 : ℚ) * 2 ^ 1000 < 2 ^ 1024 := by norm_num
    linarith
  refine ⟨roundDouble q, ?_, ?_, ?_⟩
  · simp only [JSNum.double, if_neg hfin]
  · linarith
  · linarith

/-- Rounding a value known within relative error `e` adds at most 2·2^-53. -/
theorem Near.double {e a A : ℚ} (h : Near e a A) (he0 : 0 ≤ e) (he : e ≤ 1 / 2)
    (hlo : (1 : ℚ) / 1000 ≤ A) (hhi : A ≤ 10 ^ 19) :
    ∃ r : ℚ, JSNum.double (fin a) = fin r ∧ Near (e + 2 * unitRoundoff) r A := by
  have hA : 0 ≤ A := by linarith
  obtain ⟨h1, h2⟩ := h
  have ha1 : A / 2 ≤ a := by nlinarith
  have ha2 : a ≤ 2 * A := by nlinarith
  have hlo2 : (2 : ℚ) ^ (-1022 : ℤ) ≤ a := by
    have : (2 : ℚ) ^ (-1022 : ℤ) ≤ 1 / 2000 := by
      rw [zpow_neg, ← one_div]
      apply one_div_le_one_div_of_le (by norm_num)
      norm_num
    exact le_trans this (by linarith)
  have hhi2 : a ≤ 2 ^ 1000 := by
    have : (2 : ℚ) * 10 ^ 19 ≤ 2 ^ 1000 := by norm_num
    linarith
  obtain ⟨r, hr, r1, r2⟩ := double_fin_near hlo2 hhi2
  have hu := unitRoundoff_pos
  have hu1 : unitRoundoff ≤ 1 := by
    unfold unitRoundoff
    norm_num
  have ha0 : 0 ≤ a := by linarith
  refine ⟨r, hr, ?_, ?_⟩
  · have hx : (1 - unitRoundoff) * ((1 - e) * A) ≤ (1 - unitRoundoff) * a :=
      mul_le_mul_of_nonneg_left h1 (by linarith)
    have hy : 0 ≤ unitRoundoff * e * A := mul_nonneg (mul_nonneg hu.le he0) hA
    have hz : 0 ≤ unitRoundoff * A := mul_nonneg hu.le hA
    nlinarith
  · have hx : (1 + unitRoundoff) * a ≤ (1 + unitRoundoff) * ((1 + e) * A) :=
      mul_le_mul_of_nonneg_left h2 (by linarith)
    have hy : unitRoundoff * e * A ≤ unitRoundoff * 1 * A :=
      mul_le_mul_of_nonneg_right (mul_le_mul_of_nonneg_left (by linarith) hu.le) hA
    nlinarith

/-- The parse of a decimal string between 0.001 and 10^19. -/
theorem parseFloatD_near {q : ℚ} (hlo : (1 : ℚ) / 1000 ≤ q) (hhi : q ≤ 10 ^ 19) :
    ∃ r : ℚ, parseFloatD q = fin r ∧ Near (2 * unitRoundoff) r q := by
  have h0 : Near 0 q q := by
    constructor <;> simp
  obtain ⟨r, hr, hn⟩ := h0.double (le_refl 0) (by norm_num) hlo hhi
  exact ⟨r, hr, by simpa using hn⟩

/-- The comparison of two computed values follows the exact values when
these differ by the relative margin 4·δ. -/
theorem lt_of_margin {d s S p P : ℚ} (hs : Near d s S) (hp : Near d p P) (hd0 : 0 ≤ d)
    (hd : d ≤ 1 / 2) (hP : 0 ≤ P) (h : P * (1 + 4 * d) < S) : p < s := by
  obtain ⟨s1, _⟩ := hs
  obtain ⟨_, p2⟩ := hp
  have h1 : (1 - d) * (P * (1 + 4 * d)) < (1 - d) * S :=
    mul_lt_mul_of_pos_left h (by linarith)
  have h2 : 0 ≤ d * P := mul_nonneg hd0 hP
  have h3 : 0 ≤ (1 / 2 - d) * (d * P) := mul_nonneg (by linarith) h2
  nlinarith

theorem not_lt_of_margin {d s S p P : ℚ} (hs : Near d s S) (hp : Near d p P) (hd0 : 0 ≤ d)
    (hP : 0 ≤ P) (h : S ≤ P * (1 - 4 * d)) : ¬ p < s := by
  obtain ⟨_, s2⟩ := hs
  obtain ⟨p1, _⟩ := hp
  have h1 : (1 + d) * S ≤ (1 + d) * (P * (1 - 4 * d)) :=
    mul_le_mul_of_nonneg_left h (by linarith)
  have h2 : 0 ≤ d * P := mul_nonneg hd0 hP
  have h3 : 0 ≤ d * (d * P) := mul_nonneg hd0 h2
  rw [not_lt]
  nlinarith

theorem gt_of_margin {d s S p P : ℚ} (hs : Near d s S) (hp : Near d p P) (hd0 : 0 ≤ d)
    (hP : 0 ≤ P) (h : S < P * (1 - 4 * d)) : s < p := by
  obtain ⟨_, s2⟩ := hs
  obtain ⟨p1, _⟩ := hp
  have h1 : (1 + d) * S < (1 + d) * (P * (1 - 4 * d)) :=
    mul_lt_mul_of_pos_left h (by linarith)
  have h2 : 0 ≤ d * P := mul_nonneg hd0 hP
  have h3 : 0 ≤ d * (d * P) := mul_nonneg hd0 h2
  nlinarith

theorem not_gt_of_margin {d s S p P : ℚ} (hs : Near d s S) (hp : Near d p P) (hd0 : 0 ≤ d)
    (hd : d ≤ 1 / 2) (hP : 0 ≤ P) (h : P * (1 + 4 * d) ≤ S) : ¬ s < p := by
  obtain ⟨s1, _⟩ := hs
  obtain ⟨_, p2⟩ := hp
  have h1 : (1 - d) * (P * (1 + 4 * d)) ≤ (1 - d) * S :=
    mul_le_mul_of_nonneg_left h (by linarith)
  have h2 : 0 ≤ d * P := mul_nonneg hd0 hP
  have h3 : 0 ≤ (1 / 2 - d) * (d * P) := mul_nonneg (by linarith) h2
  rw [not_lt]
  nlinarith

/-! ## Double precision: the trend -/

theorem sum_bounds {lo hi : ℚ} (xs : List ℚ) (h : ∀ x ∈ xs, lo ≤ x ∧ x ≤ hi) :
    lo * xs.length ≤ xs.sum ∧ xs.sum ≤ hi * xs.length := by
  induction xs with
  | nil => simp
  | cons x xs ih =>
    obtain ⟨i1, i2⟩ := ih (fun y hy => h y (List.mem_cons_of_mem x hy))
    obtain ⟨x1, x2⟩ := h x (List.mem_cons_self x xs)
    simp only [List.sum_cons, List.length_cons, Nat.cast_add, Nat.cast_one]
    constructor <;> linarith

theorem mean_bounds {lo hi : ℚ} (xs : List ℚ) (hne : xs ≠ []) (h : ∀ x ∈ xs, lo ≤ x ∧ x ≤ hi) :
    lo ≤ mean xs ∧ mean xs ≤ hi := by
  have hn : (0 : ℚ) < xs.length := by
    have : 0 < xs.length := List.length_pos.mpr hne
    exact_mod_cast this
  obtain ⟨h1, h2⟩ := sum_bounds xs h
  unfold mean
  constructor
  · rw [le_div_iff₀ hn]
    exact h1
  · rw [div_le_iff₀ hn]
    exact h2

theorem sumD_near_aux (xs : List ℚ) :
    ∀ (a A : ℚ) (k : ℕ), (∀ x ∈ xs, (1 : ℚ) / 100 ≤ x ∧ x ≤ 10 ^ 15) →
      Near (2 * ((k : ℚ) + 1) * unitRoundoff) a A → 0 ≤ A → A ≤ k * 10 ^ 15 →
      k + xs.length ≤ 1000 →
      ∃ s : ℚ, (xs.map parseFloatD).foldl (fun a b => JSNum.double (a + b)) (fin a) = fin s ∧
        Near (2 * ((k : ℚ) + xs.length + 1) * unitRoundoff) s (A + xs.sum) := by
  induction xs with
  | nil =>
    intro a A k _ hnear _ _ _
    exact ⟨a, rfl, by simpa using hnear⟩
  | cons x xs ih =>
    intro a A k hx hnear hA0 hAk hlen
    obtain ⟨x1, x2⟩ := hx x (List.mem_cons_self x xs)
    have hu := unitRoundoff_pos
    have hk : (k : ℚ) + 1 ≤ 1000 := by
      have : k + 1 ≤ 1000 := by
        simp only [List.length_cons] at hlen
        omega
      exact_mod_cast this
    have hk0 : (0 : ℚ) ≤ k := Nat.cast_nonneg k
    obtain ⟨xd, hxd, hxn⟩ := parseFloatD_near (q := x) (by linarith) (by linarith)
    have hxn2 : Near (2 * ((k : ℚ) + 1) * unitRoundoff) xd x :=
      hxn.mono (by nlinarith) (by linarith)
    have hsum := hnear.add hxn2
    have he0 : 0 ≤ 2 * ((k : ℚ) + 1) * unitRoundoff := by positivity
    have he : 2 * ((k : ℚ) + 1) * unitRoundoff ≤ 1 / 2 := by
      have h1 : 2 * ((k : ℚ) + 1) * unitRoundoff ≤ 2 * 1000 * unitRoundoff :=
        mul_le_mul_of_nonneg_right (by linarith) hu.le
      have h2 : 2 * 1000 * unitRoundoff ≤ 1 / 2 := by
        unfold unitRoundoff
        norm_num
      linarith
    have hhi : A + x ≤ 10 ^ 19 := by
      have : (k : ℚ) * 10 ^ 15 ≤ 1000 * 10 ^ 15 :=
        mul_le_mul_of_nonneg_right (by linarith) (by norm_num)
      linarith
    obtain ⟨r, hr, hrn⟩ := hsum.double he0 he (by linarith) hhi
    have hrn2 : Near (2 * (((k + 1 : ℕ) : ℚ) + 1) * unitRoundoff) r (A + x) := by
      have : 2 * (((k + 1 : ℕ) : ℚ) + 1) * unitRoundoff
          = 2 * ((k : ℚ) + 1) * unitRoundoff + 2 * unitRoundoff := by
        push_cast
        ring
      rw [this]
      exact hrn
    obtain ⟨s, hs, hsn⟩ := ih r (A + x) (k + 1)
      (fun y hy => hx y (List.mem_cons_of_mem x hy)) hrn2 (by linarith)
      (by push_cast; linarith)
      (by simp only [List.length_cons] at hlen; omega)
    refine ⟨s, ?_, ?_⟩
    · rw [List.map_cons, List.foldl_cons, hxd]
      show List.foldl (fun a b => JSNum.double (a + b)) (JSNum.double (fin (a + xd)))
        (xs.map parseFloatD) = fin s
      rw [hr]
      exact hs
    · have e1 : 2 * ((k : ℚ) + (x :: xs).length + 1) * unitRoundoff
          = 2 * (((k + 1 : ℕ) : ℚ) + xs.length + 1) * unitRoundoff := by
        simp only [List.length_cons]
        push_cast
        ring
      have e2 : A + (x :: xs).sum = A + x + xs.sum := by
        simp only [List.sum_cons]
        ring
      rw [e1, e2]
      exact hsn

/-- The computed average of a non-empty array of at most 1000 totals between
0.01 and 10^15 is within the relative error 2^-42 of the exact mean. -/
theorem avgD_near (xs : List ℚ) (hne : xs ≠ []) (hx : ∀ x ∈ xs, (1 : ℚ) / 100 ≤ x ∧ x ≤ 10 ^ 15)
    (hlen : xs.length ≤ 1000) :
    ∃ m : ℚ, JSNum.double (sumD (xs.map parseFloatD) / ofNat (xs.map parseFloatD).length)
        = fin m ∧
      Near (2 * ((xs.length : ℚ) + 2) * unitRoundoff) m (mean xs) := by
  have hu := unitRoundoff_pos
  have h0 : Near (2 * (((0 : ℕ) : ℚ) + 1) * unitRoundoff) 0 0 := by
    constructor <;> simp
  obtain ⟨s, hs, hsn⟩ := sumD_near_aux xs 0 0 0 hx h0 (le_refl 0) (by simp) (by omega)
  have hn : (0 : ℚ) < xs.length := by
    have : 0 < xs.length := List.length_pos.mpr hne
    exact_mod_cast this
  have hn2 : (xs.length : ℚ) ≤ 1000 := by exact_mod_cast hlen
  have hdiv : sumD (xs.map parseFloatD) / ofNat (xs.map parseFloatD).length
      = fin (s / xs.length) := by
    unfold sumD
    rw [hs, List.length_map]
    exact fin_div_fin_of_ne s hn.ne'
  have hnear : Near (2 * ((xs.length : ℚ) + 1) * unitRoundoff) (s / xs.length) (mean xs) := by
    have := hsn.div hn
    simpa [mean] using this
  obtain ⟨m1, m2⟩ := mean_bounds xs hne hx
  have he : 2 * ((xs.length : ℚ) + 1) * unitRoundoff ≤ 1 / 2 := by
    have h1 : 2 * ((xs.length : ℚ) + 1) * unitRoundoff ≤ 2 * 1001 * unitRoundoff :=
      mul_le_mul_of_nonneg_right (by linarith) hu.le
    have h2 : 2 * 1001 * unitRoundoff ≤ 1 / 2 := by
      unfold unitRoundoff
      norm_num
    linarith
  obtain ⟨m, hm, hmn⟩ := hnear.double (by positivity) he (by linarith) (by linarith)
  refine ⟨m, by rw [hdiv]; exact hm, ?_⟩
  have : 2 * ((xs.length : ℚ) + 2) * unitRoundoff
      = 2 * ((xs.length : ℚ) + 1) * unitRoundoff + 2 * unitRoundoff := by ring
  rw [this]
  exact hmn

/-- The computed product of an average with the literal for `c` (1.1 or 0.9). -/
theorem productD_near {e m M c : ℚ} (hm : Near e m M) (he0 : 0 ≤ e) (he : e ≤ 2004 * unitRoundoff)
    (hM1 : (1 : ℚ) / 100 ≤ M) (hM2 : M ≤ 10 ^ 15) (hc1 : (9 : ℚ) / 10 ≤ c) (hc2 : c ≤ 11 / 10) :
    ∃ p : ℚ, JSNum.double (fin m * literalD c) = fin p ∧ Near (1 / 2 ^ 42) p (c * M) := by
  have hu := unitRoundoff_pos
  have hu2 : unitRoundoff = 1 / 2 ^ 53 := rfl
  obtain ⟨cd, hcd, hcn⟩ := parseFloatD_near (q := c) (by linarith) (by linarith)
  have he1 : e ≤ 1 := by rw [hu2] at he; linarith
  have hprod := hm.mul hcn he0 he1 (by positivity) (by rw [hu2]; norm_num) (by linarith)
    (by linarith)
  have hcM1 : (1 : ℚ) / 1000 ≤ M * c := by nlinarith
  have hcM2 : M * c ≤ 10 ^ 19 := by nlinarith
  have hE0 : 0 ≤ e + 2 * unitRoundoff + e * (2 * unitRoundoff) := by positivity
  have hE : e + 2 * unitRoundoff + e * (2 * unitRoundoff) ≤ 2008 * unitRoundoff := by
    have : e * (2 * unitRoundoff) ≤ 1 * (2 * unitRoundoff) :=
      mul_le_mul_of_nonneg_right he1 (by linarith)
    linarith
  obtain ⟨p, hp, hpn⟩ := hprod.double hE0 (by rw [hu2] at hE ⊢; linarith) hcM1 hcM2
  refine ⟨p, ?_, ?_⟩
  · show JSNum.double (fin m * parseFloatD c) = fin p
    rw [hcd]
    exact hp
  · rw [mul_comm c M]
    exact hpn.mono (by rw [hu2] at hE ⊢; linarith) (by linarith)

/-- Away from the two thresholds the trend computed in doubles is the trend of
the exact rule. -/
theorem trend_eq_specTrend (rows : List WeeklyRow) (h4 : 4 ≤ rows.length)
    (hn : rows.length ≤ 1000) (hr : TotalsInRange rows)
    (hc1 : ClearOf (11 / 10) (weeklyTotals rows)) (hc2 : ClearOf (9 / 10) (weeklyTotals rows)) :
    trend rows = specTrend (weeklyTotals rows) := by
  have hu := unitRoundoff_pos
  have hu2 : unitRoundoff = 1 / 2 ^ 53 := rfl
  have hw : 4 ≤ (weeklyTotals rows).length := by rw [weeklyTotals_length]; exact h4
  have hwn : (weeklyTotals rows).length ≤ 1000 := by rw [weeklyTotals_length]; exact hn
  have hmap : rows.map (fun row => parseFloatD row.total_amount)
      = (weeklyTotals rows).map parseFloatD := by
    simp [weeklyTotals, List.map_map, Function.comp_def]
  have hxs : ∀ x ∈ weeklyTotals rows, (1 : ℚ) / 100 ≤ x ∧ x ≤ 10 ^ 15 := by
    intro x hx
    obtain ⟨r, hrm, rfl⟩ := List.mem_map.mp hx
    exact hr r hrm
  have hx1 : ∀ x ∈ firstHalf (weeklyTotals rows), (1 : ℚ) / 100 ≤ x ∧ x ≤ 10 ^ 15 :=
    fun x hx => hxs x (List.mem_of_mem_take hx)
  have hx2 : ∀ x ∈ secondHalf (weeklyTotals rows), (1 : ℚ) / 100 ≤ x ∧ x ≤ 10 ^ 15 :=
    fun x hx => hxs x (List.mem_of_mem_drop hx)
  have hl1 : (firstHalf (weeklyTotals rows)).length ≤ 1000 := by
    simp only [firstHalf, List.length_take]
    omega
  have hl2 : (secondHalf (weeklyTotals rows)).length ≤ 1000 := by
    simp only [secondHalf, List.length_drop]
    omega
  obtain ⟨m1, hm1, hn1⟩ := avgD_near _ (firstHalf_ne_nil hw) hx1 hl1
  obtain ⟨m2, hm2, hn2⟩ := avgD_near _ (secondHalf_ne_nil hw) hx2 hl2
  obtain ⟨M1lo, M1hi⟩ := mean_bounds _ (firstHalf_ne_nil hw) hx1
  obtain ⟨M2lo, M2hi⟩ := mean_bounds _ (secondHalf_ne_nil hw) hx2
  have hq1 : ((firstHalf (weeklyTotals rows)).length : ℚ) ≤ 1000 := by exact_mod_cast hl1
  have hq2 : ((secondHalf (weeklyTotals rows)).length : ℚ) ≤ 1000 := by exact_mod_cast hl2
  have he1 : 2 * (((firstHalf (weeklyTotals rows)).length : ℚ) + 2) * unitRoundoff
      ≤ 2004 * unitRoundoff := by nlinarith
  have he2 : 2 * (((secondHalf (weeklyTotals rows)).length : ℚ) + 2) * unitRoundoff
      ≤ 2004 * unitRoundoff := by nlinarith
  obtain ⟨p1, hp1, hpn1⟩ := productD_near (c := 11 / 10) hn1 (by positivity) he1 M1lo M1hi
    (by norm_num) (by norm_num)
  obtain ⟨p2, hp2, hpn2⟩ := productD_near (c := 9 / 10) hn1 (by positivity) he1 M1lo M1hi
    (by norm_num) (by norm_num)
  have hs : Near (1 / 2 ^ 42) m2 (mean (secondHalf (weeklyTotals rows))) :=
    hn2.mono (by rw [hu2] at he2 ⊢; linarith) (by linarith)
  have hfirst : ((weeklyTotals rows).map parseFloatD).take
      (((weeklyTotals rows).map parseFloatD).length / 2)
      = (firstHalf (weeklyTotals rows)).map parseFloatD := by
    rw [List.length_map, ← List.map_take]
    rfl
  have hsecond : ((weeklyTotals rows).map parseFloatD).drop
      (((weeklyTotals rows).map parseFloatD).length / 2)
      = (secondHalf (weeklyTotals rows)).map parseFloatD := by
    rw [List.length_map, ← List.map_drop]
    rfl
  have hd0 : (0 : ℚ) ≤ 1 / 2 ^ 42 := by positivity
  have hd : (1 : ℚ) / 2 ^ 42 ≤ 1 / 2 := by norm_num
  have h4d : (4 : ℚ) * (1 / 2 ^ 42) = 1 / 2 ^ 40 := by norm_num
  have hP1 : (0 : ℚ) ≤ 11 / 10 * mean (firstHalf (weeklyTotals rows)) := by linarith
  have hP2 : (0 : ℚ) ≤ 9 / 10 * mean (firstHalf (weeklyTotals rows)) := by linarith
  simp only [trend, hmap, hfirst, hsecond, hm1, hm2, hp1, hp2, gt_fin_fin,
    lt_fin_fin, decide_eq_true_eq, specTrend]
  rcases hc1 with hlow | hhigh
  · have hng : ¬ p1 < m2 :=
      not_lt_of_margin hs hpn1 hd0 hP1 (by rw [h4d]; exact hlow.le)
    have hsg : ¬ 11 / 10 * mean (firstHalf (weeklyTotals rows))
        < mean (secondHalf (weeklyTotals rows)) := by
      rw [not_lt]
      nlinarith
    rw [if_neg hng, if_neg hsg]
    rcases hc2 with hlow2 | hhigh2
    · have hl : m2 < p2 := gt_of_margin hs hpn2 hd0 hP2 (by rw [h4d]; exact hlow2)
      have hsl : mean (secondHalf (weeklyTotals rows))
          < 9 / 10 * mean (firstHalf (weeklyTotals rows)) := by nlinarith
      rw [if_pos hl, if_pos hsl]
    · have hl : ¬ m2 < p2 :=
        not_gt_of_margin hs hpn2 hd0 hd hP2 (by rw [h4d]; exact hhigh2.le)
      have hsl : ¬ mean (secondHalf (weeklyTotals rows))
          < 9 / 10 * mean (firstHalf (weeklyTotals rows)) := by
        rw [not_lt]
        nlinarith
      rw [if_neg hl, if_neg hsl]
  · have hg : p1 < m2 := lt_of_margin hs hpn1 hd0 hd hP1 (by rw [h4d]; exact hhigh)
    have hsg : 11 / 10 * mean (firstHalf (weeklyTotals rows))
        < mean (secondHalf (weeklyTotals rows)) := by nlinarith
    rw [if_pos hg, if_pos hsg]

/-! ## Spending prediction: the trend in doubles -/

theorem prediction_trend (rows : List WeeklyRow) (h : 4 ≤ rows.length) :
    (advancedSpendingPrediction rows).trend_direction = trend rows := by
  have hlt : ¬ rows.length < 4 := by omega
  simp only [advancedSpendingPrediction, if_neg hlt]

theorem prediction_short_trend (rows : List WeeklyRow) (h : rows.length < 4) :
    (advancedSpendingPrediction rows).trend_direction = "stable" := by
  rw [advancedSpendingPrediction, if_pos h]

theorem boundaryWeeks_trend : trend boundaryWeeks = "decreasing" := by
  have d0 : JSNum.double (fin (30)) = fin (30) :=
    double_fin_eq_pos (30) 4 8444249301319680 (by norm_num) (by norm_num) (by norm_num)
      (by norm_num) (by norm_num) (by norm_num) (by norm_num)
  have d1 : JSNum.double (fin (40)) = fin (40) :=
    double_fin_eq_pos (40) 5 5629499534213120 (by norm_num) (by norm_num) (by norm_num)
      (by norm_num) (by norm_num) (by norm_num) (by norm_num)
  have d2 : JSNum.double (fin (60)) = fin (60) :=
    double_fin_eq_pos (60) 5 8444249301319680 (by norm_num) (by norm_num) (by norm_num)
      (by norm_num) (by norm_num) (by norm_num) (by norm_num)
  have d3 : JSNum.double (fin (100)) = fin (100) :=
    double_fin_eq_pos (100) 6 7036874417766400 (by norm_num) (by norm_num) (by norm_num)
      (by norm_num) (by norm_num) (by norm_num) (by norm_num)
  have d4 : JSNum.double (fin (100 / 3)) = fin (4691249611844267 / 140737488355328) :=
    double_fin_eq_pos (4691249611844267 / 140737488355328) 5 4691249611844267 (by norm_num) (by norm_num) (by norm_num)
      (by norm_num) (by norm_num) (by norm_num) (by norm_num)
  have d5 : JSNum.double (fin (90)) = fin (90) :=
    double_fin_eq_pos (90) 6 6333186975989760 (by norm_num) (by norm_num) (by norm_num)
      (by norm_num) (by norm_num) (by norm_num) (by norm_num)
  have d6 : JSNum.double (fin (11 / 10)) = fin (2476979795053773 / 2251799813685248) :=
    double_fin_eq_pos (2476979795053773 / 2251799813685248) 0 4953959590107546 (by norm_num) (by norm_num) (by norm_num)
      (by norm_num) (by norm_num) (by norm_num) (by norm_num)
  have d7 : JSNum.double (fin (9 / 10)) = fin (8106479329266893 / 9007199254740992) :=
    double_fin_eq_pos (8106479329266893 / 9007199254740992) (-1) 8106479329266893 (by norm_num) (by norm_num) (by norm_num)
      (by norm_num) (by norm_num) (by norm_num) (by norm_num)
  have d8 : JSNum.double (fin (11620130502092104610962966769391 / 316912650057057350374175801344)) = fin (2580187286514347 / 70368744177664) :=
    double_fin_eq_pos (2580187286514347 / 70368744177664) 5 5160374573028694 (by norm_num) (by norm_num) (by norm_num)
      (by norm_num) (by norm_num) (by norm_num) (by norm_num)
  have d9 : JSNum.double (fin (38029518006846885685310794952431 / 1267650600228229401496703205376)) = fin (8444249301319681 / 281474976710656) :=
    double_fin_eq_pos (8444249301319681 / 281474976710656) 4 8444249301319681 (by norm_num) (by norm_num) (by norm_num)
      (by norm_num) (by norm_num) (by norm_num) (by norm_num)
  norm_num [trend, boundaryWeeks, parseFloatD, literalD, sumD, ofNat, d0, d1, d2, d3, d4, d5, d6, d7, d8, d9]

theorem smallWeeks_trend : trend smallWeeks = "stable" := by
  have d0 : JSNum.double (fin (3)) = fin (3) :=
    double_fin_eq_pos (3) 1 6755399441055744 (by norm_num) (by norm_num) (by norm_num)
      (by norm_num) (by norm_num) (by norm_num) (by norm_num)
  have d1 : JSNum.double (fin (4)) = fin (4) :=
    double_fin_eq_pos (4) 2 4503599627370496 (by norm_num) (by norm_num) (by norm_num)
      (by norm_num) (by norm_num) (by norm_num) (by norm_num)
  have d2 : JSNum.double (fin (6)) = fin (6) :=
    double_fin_eq_pos (6) 2 6755399441055744 (by norm_num) (by norm_num) (by norm_num)
      (by norm_num) (by norm_num) (by norm_num) (by norm_num)
  have d3 : JSNum.double (fin (10)) = fin (10) :=
    double_fin_eq_pos (10) 3 5629499534213120 (by norm_num) (by norm_num) (by norm_num)
      (by norm_num) (by norm_num) (by norm_num) (by norm_num)
  have d4 : JSNum.double (fin (10 / 3)) = fin (7505999378950827 / 2251799813685248) :=
    double_fin_eq_pos (7505999378950827 / 2251799813685248) 1 7505999378950827 (by norm_num) (by norm_num) (by norm_num)
      (by norm_num) (by norm_num) (by norm_num) (by norm_num)
  have d5 : JSNum.double (fin (9)) = fin (9) :=
    double_fin_eq_pos (9) 3 5066549580791808 (by norm_num) (by norm_num) (by norm_num)
      (by norm_num) (by norm_num) (by norm_num) (by norm_num)
  have d6 : JSNum.double (fin (11 / 10)) = fin (2476979795053773 / 2251799813685248) :=
    double_fin_eq_pos (2476979795053773 / 2251799813685248) 0 4953959590107546 (by norm_num) (by norm_num) (by norm_num)
      (by norm_num) (by norm_num) (by norm_num) (by norm_num)
  have d7 : JSNum.double (fin (9 / 10)) = fin (8106479329266893 / 9007199254740992) :=
    double_fin_eq_pos (8106479329266893 / 9007199254740992) (-1) 8106479329266893 (by norm_num) (by norm_num) (by norm_num)
      (by norm_num) (by norm_num) (by norm_num) (by norm_num)
  have d8 : JSNum.double (fin (18592208803347366882144787820271 / 5070602400912917605986812821504)) = fin (4128299658422955 / 1125899906842624) :=
    double_fin_eq_pos (4128299658422955 / 1125899906842624) 1 8256599316845910 (by norm_num) (by norm_num) (by norm_num)
      (by norm_num) (by norm_num) (by norm_num) (by norm_num)
  have d9 : JSNum.double (fin (60847228810955015475201406070511 / 20282409603651670423947251286016)) = fin (3) :=
    double_fin_eq_pos (3) 1 6755399441055744 (by norm_num) (by norm_num) (by norm_num)
      (by norm_num) (by norm_num) (by norm_num) (by norm_num)
  norm_num [trend, smallWeeks, parseFloatD, literalD, sumD, ofNat, d0, d1, d2, d3, d4, d5, d6, d7, d8, d9]

theorem scaled_smallWeeks_trend : trend (scaleRows 10 smallWeeks) = "decreasing" := by
  have d0 : JSNum.double (fin (30)) = fin (30) :=
    double_fin_eq_pos (30) 4 8444249301319680 (by norm_num) (by norm_num) (by norm_num)
      (by norm_num) (by norm_num) (by norm_num) (by norm_num)
  have d1 : JSNum.double (fin (40)) = fin (40) :=
    double_fin_eq_pos (40) 5 5629499534213120 (by norm_num) (by norm_num) (by norm_num)
      (by norm_num) (by norm_num) (by norm_num) (by norm_num)
  have d2 : JSNum.double (fin (60)) = fin (60) :=
    double_fin_eq_pos (60) 5 8444249301319680 (by norm_num) (by norm_num) (by norm_num)
      (by norm_num) (by norm_num) (by norm_num) (by norm_num)
  have d3 : JSNum.double (fin (100)) = fin (100) :=
    double_fin_eq_pos (100) 6 7036874417766400 (by norm_num) (by norm_num) (by norm_num)
      (by norm_num) (by norm_num) (by norm_num) (by norm_num)
  have d4 : JSNum.double (fin (100 / 3)) = fin (4691249611844267 / 140737488355328) :=
    double_fin_eq_pos (4691249611844267 / 140737488355328) 5 4691249611844267 (by norm_num) (by norm_num) (by norm_num)
      (by norm_num) (by norm_num) (by norm_num) (by norm_num)
  have d5 : JSNum.double (fin (90)) = fin (90) :=
    double_fin_eq_pos (90) 6 6333186975989760 (by norm_num) (by norm_num) (by norm_num)
      (by norm_num) (by norm_num) (by norm_num) (by norm_num)
  have d6 : JSNum.double (fin (11 / 10)) = fin (2476979795053773 / 2251799813685248) :=
    double_fin_eq_pos (2476979795053773 / 2251799813685248) 0 4953959590107546 (by norm_num) (by norm_num) (by norm_num)
      (by norm_num) (by norm_num) (by norm_num) (by norm_num)
  have d7 : JSNum.double (fin (9 / 10)) = fin (8106479329266893 / 9007199254740992) :=
    double_fin_eq_pos (8106479329266893 / 9007199254740992) (-1) 8106479329266893 (by norm_num) (by norm_num) (by norm_num)
      (by norm_num) (by norm_num) (by norm_num) (by norm_num)
  have d8 : JSNum.double (fin (11620130502092104610962966769391 / 316912650057057350374175801344)) = fin (2580187286514347 / 70368744177664) :=
    double_fin_eq_pos (2580187286514347 / 70368744177664) 5 5160374573028694 (by norm_num) (by norm_num) (by norm_num)
      (by norm_num) (by norm_num) (by norm_num) (by norm_num)
  have d9 : JSNum.double (fin (38029518006846885685310794952431 / 1267650600228229401496703205376)) = fin (8444249301319681 / 281474976710656) :=
    double_fin_eq_pos (8444249301319681 / 281474976710656) 4 8444249301319681 (by norm_num) (by norm_num) (by norm_num)
      (by norm_num) (by norm_num) (by norm_num) (by norm_num)
  norm_num [trend, scaleRows, smallWeeks, parseFloatD, literalD, sumD, ofNat, d0, d1, d2, d3, d4, d5, d6, d7, d8, d9]

/-- C24, as the claim states it, fails at a boundary: for the weekly totals
30, 30, 40, 30, 30, 30 the mean of the second half is 30 and 0.9 times the
mean of the first half is 30 as well, so the rule of the claim gives "stable";
the code computes firstAvg * 0.9 = 30.000000000000004 in doubles and returns
"decreasing". -/
theorem trend_boundary_counterexample :
    (advancedSpendingPrediction boundaryWeeks).trend_direction = "decreasing" ∧
    mean (secondHalf (weeklyTotals boundaryWeeks)) = 30 ∧
    9 / 10 * mean (firstHalf (weeklyTotals boundaryWeeks)) = 30 ∧
    specTrend (weeklyTotals boundaryWeeks) = "stable" := by
  have h1 : firstHalf (weeklyTotals boundaryWeeks) = [30, 30, 40] := rfl
  have h2 : secondHalf (weeklyTotals boundaryWeeks) = [30, 30, 30] := rfl
  refine ⟨?_, ?_, ?_, ?_⟩
  · rw [prediction_trend boundaryWeeks (by decide)]
    exact boundaryWeeks_trend
  · rw [h2]
    norm_num [mean]
  · rw [h1]
    norm_num [mean]
  · rw [specTrend, h1, h2]
    norm_num [mean]

/-- C24 (amended): with 4 ≤ n ≤ 1000 weekly totals between 0.01 and 10^15,
the first half has ⌊n/2⌋ totals, is not empty and is never longer than the
second half, which has the other n − ⌊n/2⌋ totals.  When the mean of the
second half is not within the relative distance 2^-40 of 1.1 times or of 0.9
times the mean of the first half, trend_direction is "increasing" if the mean
of the second half is above 1.1 times the mean of the first half, "decreasing"
if it is below 0.9 times that mean, and "stable" otherwise. -/
theorem trend_classification_clear (rows : List WeeklyRow) (h4 : 4 ≤ rows.length)
    (hn : rows.length ≤ 1000) (hr : TotalsInRange rows) :
    firstHalf (weeklyTotals rows) ++ secondHalf (weeklyTotals rows) = weeklyTotals rows ∧
    (firstHalf (weeklyTotals rows)).length = rows.length / 2 ∧
    (secondHalf (weeklyTotals rows)).length = rows.length - rows.length / 2 ∧
    (firstHalf (weeklyTotals rows)).length ≤ (secondHalf (weeklyTotals rows)).length ∧
    firstHalf (weeklyTotals rows) ≠ [] ∧
    (ClearOf (11 / 10) (weeklyTotals rows) → ClearOf (9 / 10) (weeklyTotals rows) →
      (advancedSpendingPrediction rows).trend_direction =
        (if 11 / 10 * mean (firstHalf (weeklyTotals rows))
            < mean (secondHalf (weeklyTotals rows)) then "increasing"
        else if mean (secondHalf (weeklyTotals rows))
            < 9 / 10 * mean (firstHalf (weeklyTotals rows)) then "decreasing"
        else "stable")) := by
  have hw : 4 ≤ (weeklyTotals rows).length := by rw [weeklyTotals_length]; exact h4
  have h1 : (firstHalf (weeklyTotals rows)).length = rows.length / 2 := by
    simp only [firstHalf, List.length_take, weeklyTotals_length]
    omega
  have h2 : (secondHalf (weeklyTotals rows)).length = rows.length - rows.length / 2 := by
    simp only [secondHalf, List.length_drop, weeklyTotals_length]
  refine ⟨List.take_append_drop _ _, h1, h2, ?_, firstHalf_ne_nil hw, ?_⟩
  · rw [h1, h2]
    omega
  · intro hc1 hc2
    rw [prediction_trend rows h4, trend_eq_specTrend rows h4 hn hr hc1 hc2]
    rfl

theorem fiveWeeks_inRange : TotalsInRange fiveWeeks := by
  intro r hr
  simp only [fiveWeeks, List.mem_cons, List.mem_singleton, List.not_mem_nil, or_false] at hr
  rcases hr with rfl | rfl | rfl | rfl | rfl <;> norm_num

theorem fiveWeeks_clear (c : ℚ) (hc : 9 / 10 ≤ c) : ClearOf c (weeklyTotals fiveWeeks) := by
  have h1 : firstHalf (weeklyTotals fiveWeeks) = [1000, 100] := rfl
  have h2 : secondHalf (weeklyTotals fiveWeeks) = [200, 300, 400] := rfl
  left
  rw [h1, h2]
  norm_num [mean]
  linarith

/-- C24 (amended) at five weeks with the totals 1000, 100, 200, 300, 400: the
first half has mean 550, the second half mean 300, far below 0.9 × 550, and
the trend is "decreasing". -/
theorem trend_classification_clear_witness :
    4 ≤ fiveWeeks.length ∧ fiveWeeks.length ≤ 1000 ∧ TotalsInRange fiveWeeks ∧
    ClearOf (11 / 10) (weeklyTotals fiveWeeks) ∧ ClearOf (9 / 10) (weeklyTotals fiveWeeks) ∧
    (advancedSpendingPrediction fiveWeeks).trend_direction = "decreasing" := by
  have hc1 := fiveWeeks_clear (11 / 10) (by norm_num)
  have hc2 := fiveWeeks_clear (9 / 10) (by norm_num)
  refine ⟨by decide, by decide, fiveWeeks_inRange, hc1, hc2, ?_⟩
  rw [(trend_classification_clear fiveWeeks (by decide) (by decide) fiveWeeks_inRange).2.2.2.2.2
    hc1 hc2]
  have h1 : firstHalf (weeklyTotals fiveWeeks) = [1000, 100] := rfl
  have h2 : secondHalf (weeklyTotals fiveWeeks) = [200, 300, 400] := rfl
  rw [h1, h2]
  norm_num [mean]

theorem clearOf_scale {c k : ℚ} (hk : 0 < k) {w : List ℚ} (h : ClearOf c w) :
    ClearOf c (w.map (fun x => k * x)) := by
  have h1 : firstHalf (w.map (fun x => k * x)) = (firstHalf w).map (fun x => k * x) := by
    simp only [firstHalf, List.length_map, List.map_take]
  have h2 : secondHalf (w.map (fun x => k * x)) = (secondHalf w).map (fun x => k * x) := by
    simp only [secondHalf, List.length_map, List.map_drop]
  unfold ClearOf at h ⊢
  rw [h1, h2, mean_map_mul, mean_map_mul]
  rcases h with h | h
  · left
    have := mul_lt_mul_of_pos_left h hk
    linarith
  · right
    have := mul_lt_mul_of_pos_left h hk
    linarith

/-- C25, as the claim states it, fails: the weekly totals 3, 3, 4, 3, 3, 3
give "stable", and the same totals times 10 give "decreasing", because
firstAvg * 0.9 evaluates to 3 in the first case and to 30.000000000000004 in
the second. -/
theorem trend_scale_counterexample :
    (advancedSpendingPrediction smallWeeks).trend_direction = "stable" ∧
    weeklyTotals (scaleRows 10 smallWeeks) = [30, 30, 40, 30, 30, 30] ∧
    (advancedSpendingPrediction (scaleRows 10 smallWeeks)).trend_direction = "decreasing" := by
  refine ⟨?_, ?_, ?_⟩
  · rw [prediction_trend smallWeeks (by decide)]
    exact smallWeeks_trend
  · norm_num [weeklyTotals, scaleRows, smallWeeks]
  · rw [prediction_trend (scaleRows 10 smallWeeks) (by decide)]
    exact scaled_smallWeeks_trend

/-- C25 (amended): for at most 1000 weekly totals and a constant k > 0 such
that the totals and their multiples by k lie between 0.01 and 10^15, and such
that the mean of the second half is not within the relative distance 2^-40 of
1.1 times or of 0.9 times the mean of the first half, trend_direction is the
same for the totals multiplied by k as for the totals. -/
theorem trend_scale_invariant_clear (rows : List WeeklyRow) (k : ℚ) (hk : 0 < k)
    (hn : rows.length ≤ 1000) (hr : TotalsInRange rows) (hrk : TotalsInRange (scaleRows k rows))
    (hc1 : ClearOf (11 / 10) (weeklyTotals rows)) (hc2 : ClearOf (9 / 10) (weeklyTotals rows)) :
    (advancedSpendingPrediction (scaleRows k rows)).trend_direction
      = (advancedSpendingPrediction rows).trend_direction := by
  have hlen : (scaleRows k rows).length = rows.length := by simp [scaleRows]
  by_cases h : 4 ≤ rows.length
  · have hk4 : 4 ≤ (scaleRows k rows).length := by rw [hlen]; exact h
    have hkn : (scaleRows k rows).length ≤ 1000 := by rw [hlen]; exact hn
    rw [prediction_trend rows h, prediction_trend (scaleRows k rows) hk4,
      trend_eq_specTrend rows h hn hr hc1 hc2,
      trend_eq_specTrend (scaleRows k rows) hk4 hkn hrk
        (by rw [weeklyTotals_scaleRows]; exact clearOf_scale hk hc1)
        (by rw [weeklyTotals_scaleRows]; exact clearOf_scale hk hc2),
      weeklyTotals_scaleRows, specTrend_scale k hk]
  · have h1 : rows.length < 4 := by omega
    have h2 : (scaleRows k rows).length < 4 := by rw [hlen]; exact h1
    rw [prediction_short_trend rows h1, prediction_short_trend _ h2]

/-- C25 (amended) at the five weeks 1000, 100, 200, 300, 400 and k = 2. -/
theorem trend_scale_invariant_clear_witness :
    TotalsInRange fiveWeeks ∧ TotalsInRange (scaleRows 2 fiveWeeks) ∧
    (advancedSpendingPrediction (scaleRows 2 fiveWeeks)).trend_direction
      = (advancedSpendingPrediction fiveWeeks).trend_direction := by
  have hrk : TotalsInRange (scaleRows 2 fiveWeeks) := by
    intro r hr
    simp only [scaleRows, fiveWeeks, List.map_cons, List.map_nil, List.mem_cons,
      List.mem_singleton, List.not_mem_nil, or_false] at hr
    rcases hr with rfl | rfl | rfl | rfl | rfl <;> norm_num
  exact ⟨fiveWeeks_inRange, hrk,
    trend_scale_invariant_clear fiveWeeks 2 (by norm_num) (by decide) fiveWeeks_inRange hrk
      (fiveWeeks_clear (11 / 10) (by norm_num)) (fiveWeeks_clear (9 / 10) (by norm_num))⟩

/-! ## Anomaly detection: the threshold in doubles -/

theorem stats31_flagged : flaggedD stats31 transaction4960 = true := by
  have d0 : JSNum.double (fin (31)) = fin (31) :=
    double_fin_eq_pos (31) 4 8725724278030336 (by norm_num) (by norm_num) (by norm_num)
      (by norm_num) (by norm_num) (by norm_num) (by norm_num)
  have d1 : JSNum.double (fin (3 / 10)) = fin (5404319552844595 / 18014398509481984) :=
    double_fin_eq_pos (5404319552844595 / 18014398509481984) (-2) 5404319552844595 (by norm_num) (by norm_num) (by norm_num)
      (by norm_num) (by norm_num) (by norm_num) (by norm_num)
  have d2 : JSNum.double (fin (167533906138182445 / 18014398509481984)) = fin (5235434566818201 / 562949953421312) :=
    double_fin_eq_pos (5235434566818201 / 562949953421312) 3 5235434566818201 (by norm_num) (by norm_num) (by norm_num)
      (by norm_num) (by norm_num) (by norm_num) (by norm_num)
  have d3 : JSNum.double (fin (5235434566818201 / 281474976710656)) = fin (5235434566818201 / 281474976710656) :=
    double_fin_eq_pos (5235434566818201 / 281474976710656) 4 5235434566818201 (by norm_num) (by norm_num) (by norm_num)
      (by norm_num) (by norm_num) (by norm_num) (by norm_num)
  have d4 : JSNum.double (fin (13961158844848537 / 281474976710656)) = fin (1745144855606067 / 35184372088832) :=
    double_fin_eq_even_pos (1745144855606067 / 35184372088832) 5 6980579422424268 (by norm_num) (by norm_num) (by norm_num)
      (by norm_num) (by norm_num) (by norm_num) (by norm_num) (by norm_num)
  have d5 : JSNum.double (fin (248 / 5)) = fin (6980579422424269 / 140737488355328) :=
    double_fin_eq_pos (6980579422424269 / 140737488355328) 5 6980579422424269 (by norm_num) (by norm_num) (by norm_num)
      (by norm_num) (by norm_num) (by norm_num) (by norm_num)
  norm_num [flaggedD, findStats, stats31, transaction4960, thresholdOfD, stdDevOfD, parseFloatD,
    literalD, JSNum.or, truthy, double_fin_zero, d0, d1, d2, d3, d4, d5]

theorem flatStats_not_flagged : flaggedD flatStats transaction160 = false := by
  have d0 : JSNum.double (fin (100)) = fin (100) :=
    double_fin_eq_pos (100) 6 7036874417766400 (by norm_num) (by norm_num) (by norm_num)
      (by norm_num) (by norm_num) (by norm_num) (by norm_num)
  have d1 : JSNum.double (fin (3 / 10)) = fin (5404319552844595 / 18014398509481984) :=
    double_fin_eq_pos (5404319552844595 / 18014398509481984) (-2) 5404319552844595 (by norm_num) (by norm_num) (by norm_num)
      (by norm_num) (by norm_num) (by norm_num) (by norm_num)
  have d2 : JSNum.double (fin (135107988821114875 / 4503599627370496)) = fin (30) :=
    double_fin_eq_pos (30) 4 8444249301319680 (by norm_num) (by norm_num) (by norm_num)
      (by norm_num) (by norm_num) (by norm_num) (by norm_num)
  have d3 : JSNum.double (fin (60)) = fin (60) :=
    double_fin_eq_pos (60) 5 8444249301319680 (by norm_num) (by norm_num) (by norm_num)
      (by norm_num) (by norm_num) (by norm_num) (by norm_num)
  have d4 : JSNum.double (fin (160)) = fin (160) :=
    double_fin_eq_pos (160) 7 5629499534213120 (by norm_num) (by norm_num) (by norm_num)
      (by norm_num) (by norm_num) (by norm_num) (by norm_num)
  norm_num [flaggedD, findStats, flatStats, transaction160, thresholdOfD, stdDevOfD, parseFloatD,
    literalD, JSNum.or, truthy, double_fin_zero, d0, d1, d2, d3, d4]

theorem Near.two_mul {e a A : ℚ} (h : Near e a A) : Near e (2 * a) (2 * A) := by
  obtain ⟨h1, h2⟩ := h
  constructor <;> linarith

/-- The threshold computed in doubles for a row with zero deviation is within
the relative error 2^-49 of 1.6 times the average, and the deviation used is
the fallback, within that error of 0.3 times the average. -/
theorem thresholdOfD_near {s : CategoryStat} (hdev : s.stddev_amount = some 0)
    (h1 : 1 / 100 ≤ s.avg_amount) (h2 : s.avg_amount ≤ 10 ^ 15) :
    (∃ sd : ℚ, stdDevOfD s = fin sd ∧ Near (1 / 2 ^ 49) sd (s.avg_amount * (3 / 10))) ∧
    ∃ T : ℚ, thresholdOfD s = fin T ∧ Near (1 / 2 ^ 49) T (s.avg_amount * (16 / 10)) := by
  have hu := unitRoundoff_pos
  have hu2 : unitRoundoff = 1 / 2 ^ 53 := rfl
  obtain ⟨a, ha, han⟩ := parseFloatD_near (q := s.avg_amount) (by linarith) (by linarith)
  obtain ⟨c, hc, hcn⟩ := parseFloatD_near (q := 3 / 10) (by norm_num) (by norm_num)
  have he : 2 * unitRoundoff ≤ 1 := by rw [hu2]; norm_num
  have hprod := han.mul hcn (by positivity) he (by positivity) he (by linarith) (by norm_num)
  have hE : 2 * unitRoundoff + 2 * unitRoundoff + 2 * unitRoundoff * (2 * unitRoundoff)
      ≤ 5 * unitRoundoff := by
    rw [hu2]
    norm_num
  have hprod2 : Near (5 * unitRoundoff) (a * c) (s.avg_amount * (3 / 10)) :=
    hprod.mono hE (by positivity)
  obtain ⟨sd, hsd, hsdn⟩ := hprod2.double (by positivity) (by rw [hu2]; norm_num)
    (by linarith) (by linarith)
  have hsd0 : 0 < sd := by
    have h3 : 0 < (1 - (5 * unitRoundoff + 2 * unitRoundoff)) * (s.avg_amount * (3 / 10)) := by
      apply mul_pos
      · rw [hu2]; norm_num
      · linarith
    exact lt_of_lt_of_le h3 hsdn.1
  have hstd : stdDevOfD s = fin sd := by
    simp only [stdDevOfD, hdev, parseFloatD, double_fin_zero, JSNum.or, truthy]
    simp only [ne_eq, not_true_eq_false, decide_False, Bool.false_eq_true, if_false]
    show JSNum.double (parseFloatD s.avg_amount * parseFloatD (3 / 10)) = fin sd
    rw [ha, hc]
    exact hsd
  have htwo : Near (5 * unitRoundoff + 2 * unitRoundoff) (2 * sd) (2 * (s.avg_amount * (3 / 10))) :=
    hsdn.two_mul
  obtain ⟨t2, ht2, ht2n⟩ := htwo.double (by positivity) (by rw [hu2]; norm_num)
    (by linarith) (by linarith)
  have han2 : Near (5 * unitRoundoff + 2 * unitRoundoff + 2 * unitRoundoff) a s.avg_amount :=
    han.mono (by linarith) (by linarith)
  have hsum := han2.add ht2n
  obtain ⟨T, hT, hTn⟩ := hsum.double (by positivity) (by rw [hu2]; norm_num)
    (by linarith) (by linarith)
  refine ⟨⟨sd, hstd, hsdn.mono (by rw [hu2]; norm_num) (by linarith)⟩, T, ?_, ?_⟩
  · simp only [thresholdOfD, hstd, ha]
    show JSNum.double (fin a + JSNum.double (fin (2 * sd))) = fin T
    rw [ht2]
    exact hT
  · have hexact : s.avg_amount + 2 * (s.avg_amount * (3 / 10)) = s.avg_amount * (16 / 10) := by
      ring
    rw [← hexact]
    exact hTn.mono (by rw [hu2]; norm_num) (by linarith)

/-- C5, as the claim states it, fails: for a statistics row with average 31
and deviation 0 the code computes the threshold 31 + 2 * (31 * 0.3) =
49.599999999999994 in doubles, and a transaction of 49.60, which is exactly
31 × 1.6, is flagged.  For average 100 the threshold is 160 and a transaction
of 160 is not flagged. -/
theorem fallback_boundary_counterexample :
    transaction4960.amount = 31 * (16 / 10) ∧
    flaggedD stats31 transaction4960 = true ∧
    flaggedD flatStats transaction160 = false := by
  refine ⟨?_, stats31_flagged, flatStats_not_flagged⟩
  norm_num [transaction4960]

/-- C5 (amended): for a statistics row with deviation 0 and an average between
0.01 and 10^15, the deviation used is the fallback avg*0.3 as computed in
doubles (within the relative error 2^-49 of it); a transaction of that
category with an amount of at least 0.01 and at most avg*1.6*(1 − 2^-47) is
not flagged, one with an amount of at least avg*1.6*(1 + 2^-47) and at most
10^16 is flagged, and so is one with amount avg*1.7. -/
theorem fallback_boundary_double (stats : List CategoryStat) (s : CategoryStat)
    (t : Transaction) (hs : FirstMatch stats t s) (hdev : s.stddev_amount = some 0)
    (h1 : 1 / 100 ≤ s.avg_amount) (h2 : s.avg_amount ≤ 10 ^ 15) :
    (∃ sd : ℚ, stdDevOfD s = fin sd ∧ Near (1 / 2 ^ 49) sd (s.avg_amount * (3 / 10))) ∧
    (1 / 100 ≤ t.amount → t.amount ≤ s.avg_amount * (16 / 10) * (1 - 1 / 2 ^ 47) →
      flaggedD stats t = false) ∧
    (s.avg_amount * (16 / 10) * (1 + 1 / 2 ^ 47) ≤ t.amount → t.amount ≤ 10 ^ 16 →
      flaggedD stats t = true) ∧
    (t.amount = s.avg_amount * (17 / 10) → flaggedD stats t = true) := by
  have hu2 : unitRoundoff = 1 / 2 ^ 53 := rfl
  obtain ⟨hsd, T, hT, hTn⟩ := thresholdOfD_near hdev h1 h2
  have hf := (findStats_eq_some_iff stats t s).mpr hs
  have hflag : ∀ x : ℚ, parseFloatD t.amount = fin x →
      flaggedD stats t = decide (T < x) := by
    intro x hx
    simp only [flaggedD, hf, hx, hT, gt_fin_fin]
  have hd0 : (0 : ℚ) ≤ 1 / 2 ^ 49 := by positivity
  have hd : (1 : ℚ) / 2 ^ 49 ≤ 1 / 2 := by norm_num
  have h4d : (4 : ℚ) * (1 / 2 ^ 49) = 1 / 2 ^ 47 := by norm_num
  have hP : 0 ≤ s.avg_amount * (16 / 10) := by linarith
  have hhigh : s.avg_amount * (16 / 10) * (1 + 1 / 2 ^ 47) ≤ t.amount → t.amount ≤ 10 ^ 16 →
      flaggedD stats t = true := by
    intro ha1 ha2
    have hlo : (1 : ℚ) / 1000 ≤ t.amount := by nlinarith
    obtain ⟨x, hx, hxn⟩ := parseFloatD_near (q := t.amount) hlo (by linarith)
    have hxn2 : Near (1 / 2 ^ 49) x t.amount :=
      hxn.mono (by rw [hu2]; norm_num) (by linarith)
    rw [hflag x hx, decide_eq_true_eq]
    have hlt : s.avg_amount * (16 / 10) * (1 + 4 * (1 / 2 ^ 49)) < t.amount ∨
        s.avg_amount * (16 / 10) * (1 + 4 * (1 / 2 ^ 49)) = t.amount := by
      rw [h4d]
      exact lt_or_eq_of_le ha1
    rcases hlt with hlt | heq
    · exact lt_of_margin hxn2 hTn hd0 hd hP hlt
    · -- at the margin itself the comparison of the computed values is still strict
      obtain ⟨x1, _⟩ := hxn2
      obtain ⟨_, T2⟩ := hTn
      have hpos : 0 < s.avg_amount * (16 / 10) := by linarith
      rw [← heq] at x1
      nlinarith
  refine ⟨hsd, ?_, hhigh, ?_⟩
  · intro ha1 ha2
    obtain ⟨x, hx, hxn⟩ := parseFloatD_near (q := t.amount) (by linarith) (by nlinarith)
    have hxn2 : Near (1 / 2 ^ 49) x t.amount :=
      hxn.mono (by rw [hu2]; norm_num) (by linarith)
    rw [hflag x hx, decide_eq_false_iff_not]
    exact not_lt_of_margin hxn2 hTn hd0 hP (by rw [h4d]; exact ha2)
  · intro heq
    apply hhigh
    · rw [heq]
      nlinarith
    · rw [heq]
      nlinarith

/-- C5 (amended) at the statistics row with average 31 and deviation 0 and a
transaction of 52.70 = 31 × 1.7: the transaction is flagged. -/
theorem fallback_boundary_double_witness :
    FirstMatch stats31 transaction5270 ⟨some 1, 31, some 0, 3⟩ ∧
    transaction5270.amount = 31 * (17 / 10) ∧
    flaggedD stats31 transaction5270 = true :=
  ⟨⟨[], [], rfl, by simp, rfl⟩, by norm_num [transaction5270],
   (fallback_boundary_double stats31 ⟨some 1, 31, some 0, 3⟩ transaction5270
      ⟨[], [], rfl, by simp, rfl⟩ rfl (by norm_num) (by norm_num)).2.2.2
      (by norm_num [transaction5270])⟩

/-! ## Description: the upper case of the first character -/

/-- The first character of the description is mapped by the upper-case mapping
of Unicode: Latin letters with and without accents, Cyrillic letters, a letter
with an upper case of two letters; a digit and a character from U+10000 on
stay as they are. -/
theorem capitalize_samples :
    capitalize "taxi 200".toList = "Taxi 200".toList ∧
    capitalize "école 12 eur".toList = "École 12 eur".toList ∧
    capitalize "кафе".toList = "Кафе".toList ∧
    capitalize "ßen".toList = "SSen".toList ∧
    capitalize "12 apples".toList = "12 apples".toList ∧
    capitalize (Char.ofNat 0x10428 :: "x".toList) = Char.ofNat 0x10428 :: "x".toList ∧
    capitalize [] = [] := by
  decide

end FinTrack
